import Mathlib

/-!
Advertising / scan-response codec of `wiring/src/spark_wiring_ble.cpp`.

A shallow embedding of `BleAdvData` (`locate`, `fetch`, `contain`) and of the
`BleBroadcaster` payload operations (`append`, `removeFrom…`, `clear…`),
followed by the properties established about them.

Conventions of the embedding

* a `uint8_t` is a `Byte = Fin 256`; storing a wider value truncates (`toByte`);
* a `size_t` is a natural number; the target (ARM Cortex-M4) has a 32-bit
  `size_t`, so a subtraction is taken modulo `2 ^ 32` (`subSize`) and a store to
  a `uint16_t` modulo `2 ^ 16` (`toU16`);
* the array `uint8_t data[BLE_MAX_ADV_DATA_LEN]` is a list of bytes, `data[i]`
  is `data.getD i 0`;
* an input pointer that may be null is an `Option`; the pair `(buf, len)` of an
  input byte string is the list itself, `len` being its length. Such a string
  lies in memory, so its length is far below `2 ^ 32` and sums with it are exact;
* `size_t locate(type, &offset)` returns 0 for "not found" and a positive size
  otherwise; the embedding returns `none`, or `some (offset, size)`.
-/

namespace Ble

/-! ## Definitions -/

/-- The C type `uint8_t`. -/
abbrev Byte := Fin 256

/-- Conversion of an integer value to `uint8_t` (keeps the low eight bits). -/
def toByte (n : Nat) : Byte := ⟨n % 256, Nat.mod_lt n (by decide)⟩

/-- Modelled from the spec: the header that defines `BLE_MAX_ADV_DATA_LEN` is not
among the sources; the spec fixes the advertising payload bound at 31 bytes. -/
def BLE_MAX_ADV_DATA_LEN : Nat := 31

/-- Modelled from the spec: the header that defines `BLE_SIG_AD_TYPE_FLAGS` is not
among the sources; the spec names the AD type FLAGS, whose assigned number is 1. -/
def BLE_SIG_AD_TYPE_FLAGS : Byte := 1

/-- Number of values of a `size_t` (32 bits on the target). -/
def SIZE_MOD : Nat := 2 ^ 32

/-- Subtraction of two `size_t` values, wrapping around below zero. -/
def subSize (a b : Nat) : Nat := (a + SIZE_MOD - b % SIZE_MOD) % SIZE_MOD

/-- Conversion of an integer value to `uint16_t`. -/
def toU16 (n : Nat) : Nat := n % 65536

/-- The `SYSTEM_ERROR_*` codes returned by the functions embedded here. Their
numeric values live in a header that is not among the sources; where a value
matters it is supplied as a valuation `SystemError → Int`. -/
inductive SystemError where
  | NONE
  | INVALID_ARGUMENT
  | INVALID_STATE
  | LIMIT_EXCEEDED
  | NOT_FOUND
  | NOT_SUPPORTED
  | INTERNAL
  deriving DecidableEq, Repr

/-- The class `BleAdvData`: the array `data` and the number `len` of bytes in use. -/
structure BleAdvData where
  data : List Byte
  len : Nat
  deriving DecidableEq, Repr

/-- The call `memcpy(&dst[d], &src[s], n)`: the block `src[s .. s+n)` replaces
`dst[d .. d+n)`. Meaningful when both blocks lie inside their arrays. The one
overlapping use in the source copies towards lower addresses, where an
ascending copy gives this very result. -/
def memcpy (dst : List Byte) (d : Nat) (src : List Byte) (s n : Nat) : List Byte :=
  dst.take d ++ ((src.drop s).take n ++ dst.drop (d + n))

/-- The call `memmove(&a[d], &a[s], n)` inside one array. -/
def memmove (a : List Byte) (d s n : Nat) : List Byte :=
  memcpy a d a s n

/-- The call `memset(a, c, sizeof(a))`. -/
def memset (a : List Byte) (c : Byte) : List Byte :=
  List.replicate a.length c

/-- The call `memcmp(a, b, n) == 0`: the first `n` bytes agree. -/
def memcmpEq (a b : List Byte) (n : Nat) : Bool :=
  (List.range n).all (fun j => a.getD j 0 == b.getD j 0)

/-- The loop of `BleAdvData::locate`, started at index `i` with a budget of
iterations. The outer `none` means the budget ran out; `some none` is the
return value 0; `some (some (offset, adsLen))` is the return value `adsLen`
(already incremented, hence positive) with `*offset` written. -/
def locateLoop (data : List Byte) (len : Nat) (type : Byte) :
    Nat → Nat → Option (Option (Nat × Nat))
  | 0, _ => none
  | fuel + 1, i =>
    if i + 3 ≤ len then
      let adsLen := (data.getD i 0).val
      if data.getD (i + 1) 0 = type then
        if i + adsLen + 1 ≤ len then some (some (i, adsLen + 1)) else some none
      else
        locateLoop data len type fuel (i + (adsLen + 1))
    else some none

/-- The method `BleAdvData::locate` for a non-null `offset`: `none` is the
return value 0, `some (offset, adsLen)` a positive return value `adsLen`
together with the offset written through the pointer. The loop advances by at
least one byte per iteration, so `len + 1` iterations are enough
(`locateLoop_isSome`). -/
def BleAdvData.locate (b : BleAdvData) (type : Byte) : Option (Nat × Nat) :=
  (locateLoop b.data b.len type (b.len + 1) 0).join

/-- The method `BleAdvData::fetch`: the returned length, and the contents of
`buf` afterwards (`buf` may be null, `len` is its capacity). -/
def BleAdvData.fetch (b : BleAdvData) (type : Byte) (buf : Option (List Byte)) (len : Nat) :
    Nat × Option (List Byte) :=
  match b.locate type with
  | some (adsOffset, adsLen) =>
    let adsLen := subSize adsLen 2
    let adsOffset := adsOffset + 2
    let len := if len > adsLen then adsLen else len
    (adsLen, buf.map (fun out => memcpy out 0 b.data adsOffset len))
  | none => (0, buf)

/-- The method `BleAdvData::contain(type, buf, len)`. The function is declared
`bool` and returns error codes on two paths, so those are converted
(non-zero is `true`); `code` gives the numeric values. `temp` is the content of
the uninitialised local array before `fetch` fills its front. -/
def BleAdvData.contain (code : SystemError → Int) (temp : List Byte) (b : BleAdvData)
    (type : Byte) (buf : Option (List Byte)) : Bool :=
  match buf with
  | none => decide (code SystemError.INVALID_ARGUMENT ≠ 0)
  | some buf =>
    match b.fetch type (some temp) BLE_MAX_ADV_DATA_LEN with
    | (tempLen, temp1) =>
      if tempLen > 0 then memcmpEq buf (temp1.getD temp) buf.length
      else decide (code SystemError.NOT_FOUND ≠ 0)

/-- The method `BleAdvData::contain(type)`. -/
def BleAdvData.containType (b : BleAdvData) (type : Byte) : Bool :=
  decide ((b.fetch type none 0).1 > 0)

/-- The method `BleBroadcaster::append`: the returned code and the buffer afterwards. -/
def append (type : Byte) (buf : Option (List Byte)) (advData : BleAdvData) :
    SystemError × BleAdvData :=
  match buf with
  | none => (SystemError.INVALID_ARGUMENT, advData)
  | some buf =>
    let len := buf.length
    match advData.locate type with
    | some (offset, adsLen) =>
      -- Update the existing AD structure.
      let staLen := toU16 (subSize advData.len adsLen)
      if staLen + len + 2 ≤ BLE_MAX_ADV_DATA_LEN then
        let moveLen := toU16 (subSize (subSize advData.len offset) adsLen)
        let d1 := memmove advData.data (offset + len) (offset + adsLen) moveLen
        let d2 := d1.set offset (toByte (len + 1))
        let d3 := memcpy d2 (offset + 2) buf 0 len
        (SystemError.NONE, ⟨d3, staLen + len + 2⟩)
      else (SystemError.LIMIT_EXCEEDED, advData)
    | none =>
      -- Append the AD structure at the end of the advertising data.
      if advData.len + len + 2 ≤ BLE_MAX_ADV_DATA_LEN then
        let d1 := advData.data.set advData.len (toByte (len + 1))
        let d2 := d1.set (advData.len + 1) type
        let d3 := memcpy d2 (advData.len + 1 + 1) buf 0 len
        (SystemError.NONE, ⟨d3, advData.len + 1 + 1 + len⟩)
      else (SystemError.LIMIT_EXCEEDED, advData)

/-- The two payloads held by a `BleBroadcaster`. -/
structure BleBroadcaster where
  advData_ : BleAdvData
  srData_ : BleAdvData
  deriving DecidableEq, Repr

/-- The method `BleBroadcaster::appendAdvData`. -/
def BleBroadcaster.appendAdvData (bc : BleBroadcaster) (type : Byte)
    (buf : Option (List Byte)) : SystemError × BleBroadcaster :=
  ((append type buf bc.advData_).1, ⟨(append type buf bc.advData_).2, bc.srData_⟩)

/-- The method `BleBroadcaster::appendScanRspData`. -/
def BleBroadcaster.appendScanRspData (bc : BleBroadcaster) (type : Byte)
    (buf : Option (List Byte)) : SystemError × BleBroadcaster :=
  if type = BLE_SIG_AD_TYPE_FLAGS then (SystemError.INVALID_ARGUMENT, bc)
  else ((append type buf bc.srData_).1, ⟨bc.advData_, (append type buf bc.srData_).2⟩)

/-- The method `BleBroadcaster::removeFromAdvData`. -/
def BleBroadcaster.removeFromAdvData (bc : BleBroadcaster) (type : Byte) :
    SystemError × BleBroadcaster :=
  match bc.advData_.locate type with
  | some (offset, len) =>
    let moveLen := toU16 (subSize (subSize bc.advData_.len offset) len)
    let d := memcpy bc.advData_.data offset bc.advData_.data (offset + len) moveLen
    (SystemError.NONE, ⟨⟨d, subSize bc.advData_.len len⟩, bc.srData_⟩)
  | none => (SystemError.NONE, bc)

/-- The method `BleBroadcaster::clearAdvData`. -/
def BleBroadcaster.clearAdvData (bc : BleBroadcaster) : SystemError × BleBroadcaster :=
  (SystemError.NONE, ⟨⟨memset bc.advData_.data 0, 0⟩, bc.srData_⟩)

/-- The method `BleBroadcaster::removeFromScanRspData`. -/
def BleBroadcaster.removeFromScanRspData (bc : BleBroadcaster) (type : Byte) :
    SystemError × BleBroadcaster :=
  if type = BLE_SIG_AD_TYPE_FLAGS then (SystemError.NOT_SUPPORTED, bc)
  else
    match bc.srData_.locate type with
    | some (offset, len) =>
      let moveLen := toU16 (subSize (subSize bc.srData_.len offset) len)
      let d := memcpy bc.srData_.data offset bc.srData_.data (offset + len) moveLen
      (SystemError.NONE, ⟨bc.advData_, ⟨d, subSize bc.srData_.len len⟩⟩)
    | none => (SystemError.NONE, bc)

/-- The method `BleBroadcaster::clearScanRspData`. -/
def BleBroadcaster.clearScanRspData (bc : BleBroadcaster) : SystemError × BleBroadcaster :=
  (SystemError.NONE, ⟨bc.advData_, ⟨memset bc.srData_.data 0, 0⟩⟩)

/-- A buffer as `BleAdvData::BleAdvData()` leaves it: `len` is 0 and the array
holds whatever bytes `d` were in memory. -/
def BleAdvData.init (d : List Byte) : BleAdvData := ⟨d, 0⟩

/-- An array of 31 zero bytes, used as a concrete initial memory content. -/
def zeros31 : List Byte := List.replicate 31 0

/-! ### Specification-level vocabulary

The wire format of a payload (a run of AD structures `[len][type][data]`), used
to state which buffers are well formed and what a buffer holds. -/

/-- One AD structure on the wire: the length byte counts the type byte and the
data bytes. -/
def encodeAds (e : Byte × List Byte) : List Byte :=
  toByte (e.2.length + 1) :: e.1 :: e.2

/-- The wire bytes of a run of AD structures, given as (type, data) pairs. -/
def encode : List (Byte × List Byte) → List Byte
  | [] => []
  | e :: es => encodeAds e ++ encode es

/-- The data of the first structure of the given type in a run, if any. -/
def findAds (type : Byte) : List (Byte × List Byte) → Option (List Byte)
  | [] => none
  | e :: es => if e.1 = type then some e.2 else findAds type es

/-- Offset and total size of the first structure of the given type in a run
whose wire bytes start at offset `base`. -/
def locSpec (type : Byte) : Nat → List (Byte × List Byte) → Option (Nat × Nat)
  | _, [] => none
  | base, e :: es =>
    if e.1 = type then some (base, e.2.length + 2)
    else locSpec type (base + (e.2.length + 2)) es

/-- What `fetch` is expected to deliver on a buffer holding the run `es`. -/
def fetchSpec (es : List (Byte × List Byte)) (type : Byte) (buf : Option (List Byte))
    (len : Nat) : Nat × Option (List Byte) :=
  match findAds type es with
  | some d =>
    (d.length, buf.map (fun out => memcpy out 0 d 0 (if len > d.length then d.length else len)))
  | none => (0, buf)

/-- A run of AD structures with pairwise distinct types, each with at least one
data byte, that fits the payload bound. -/
def WellFormed (es : List (Byte × List Byte)) : Prop :=
  (es.map Prod.fst).Nodup ∧ (∀ e ∈ es, 1 ≤ e.2.length) ∧
    (encode es).length ≤ BLE_MAX_ADV_DATA_LEN

/-- The buffer `b` holds exactly the run `es`: its `len` bytes in use are the
wire bytes of `es`. -/
def Holds (b : BleAdvData) (es : List (Byte × List Byte)) : Prop :=
  b.len = (encode es).length ∧ b.data.take b.len = encode es

instance (es : List (Byte × List Byte)) : Decidable (WellFormed es) := by
  unfold WellFormed; infer_instance

instance (b : BleAdvData) (es : List (Byte × List Byte)) : Decidable (Holds b es) := by
  unfold Holds; infer_instance

/-- The body shared by `removeFromAdvData` and `removeFromScanRspData`, applied
to one buffer. -/
def removeAds (b : BleAdvData) (type : Byte) : BleAdvData :=
  match b.locate type with
  | some (offset, len) =>
    ⟨memcpy b.data offset b.data (offset + len) (toU16 (subSize (subSize b.len offset) len)),
      subSize b.len len⟩
  | none => b

/-- The buffer `b1` is `b0`, which holds the run `es`, with exactly the structure
of type `type` deleted: `fetch(type)` on `b1` returns 0 and copies nothing, the
length has dropped by the size of that structure (its data length plus 2; by
nothing when the run has none), every other type fetches on `b1` what it
fetches on `b0`, and when the run has no structure of that type `b1` is `b0`. -/
def DeletedExactly (b0 b1 : BleAdvData) (es : List (Byte × List Byte)) (type : Byte) : Prop :=
  (∀ buf cap, b1.fetch type buf cap = (0, buf)) ∧
  (b1.len + (match findAds type es with
      | some d => d.length + 2
      | none => 0) = b0.len) ∧
  (∀ U, U ≠ type → ∀ buf cap, b1.fetch U buf cap = b0.fetch U buf cap) ∧
  ((∀ e ∈ es, e.1 ≠ type) → b1 = b0)

/-- One mutation of a broadcaster's payloads. The local-name, custom-data and
UUID helpers of the class are calls of the two append operations. -/
inductive Op where
  | appendAdvData (type : Byte) (buf : Option (List Byte))
  | appendScanRspData (type : Byte) (buf : Option (List Byte))
  | removeFromAdvData (type : Byte)
  | removeFromScanRspData (type : Byte)
  | clearAdvData
  | clearScanRspData

/-- The broadcaster after one mutation (the returned code is dropped). -/
def Op.apply (bc : BleBroadcaster) : Op → BleBroadcaster
  | Op.appendAdvData type buf => (bc.appendAdvData type buf).2
  | Op.appendScanRspData type buf => (bc.appendScanRspData type buf).2
  | Op.removeFromAdvData type => (bc.removeFromAdvData type).2
  | Op.removeFromScanRspData type => (bc.removeFromScanRspData type).2
  | Op.clearAdvData => bc.clearAdvData.2
  | Op.clearScanRspData => bc.clearScanRspData.2

/-- The broadcaster after a sequence of mutations, applied left to right. -/
def run (bc : BleBroadcaster) (ops : List Op) : BleBroadcaster :=
  ops.foldl Op.apply bc

/-- A sequence of `append` calls on one buffer: the buffer afterwards, and
whether every call returned `SYSTEM_ERROR_NONE`. -/
def appendAll : List (Byte × List Byte) → BleAdvData → Bool × BleAdvData
  | [], b => (true, b)
  | e :: es, b =>
    let r := append e.1 (some e.2) b
    let rest := appendAll es r.2
    (decide (r.1 = SystemError.NONE) && rest.1, rest.2)

/-- The values `system_error.h` of the platform gives the codes (that header is
not among the sources; only "success is 0, a failure is not" is used). -/
def systemErrorValue : SystemError → Int
  | SystemError.NONE => 0
  | SystemError.NOT_SUPPORTED => -120
  | SystemError.NOT_FOUND => -170
  | SystemError.LIMIT_EXCEEDED => -200
  | SystemError.INVALID_STATE => -210
  | SystemError.INTERNAL => -250
  | SystemError.INVALID_ARGUMENT => -270

/-! ### The class `BleUuid` -/

/-- The enumeration `BleUuidType`. -/
inductive BleUuidType where
  | SHORT
  | LONG
  deriving DecidableEq, Repr

/-- The enumeration `BleUuidOrder`. -/
inductive BleUuidOrder where
  | MSB
  | LSB
  deriving DecidableEq, Repr

/-- The constant `BLE_SIG_UUID_128BIT_LEN`: the source initialises
`BLE_CTRL_REQ_SVC_UUID[BLE_SIG_UUID_128BIT_LEN]` with 16 bytes and copies UUIDs
into `uint8_t uuid128[16]`. -/
def BLE_SIG_UUID_128BIT_LEN : Nat := 16

/-- The array `BLE_CTRL_REQ_SVC_UUID` of the source. -/
def BLE_CTRL_REQ_SVC_UUID : List Byte :=
  [0xfc, 0x36, 0x6f, 0x54, 0x30, 0x80, 0xf4, 0x94, 0xa8, 0x48, 0x4e, 0x5c, 0x01, 0x00, 0xa9, 0x6f]

/-- The data members of a `BleUuid`: `shortUuid_` is a `uint16_t`, `fullUuid_` the
array of 16 bytes. -/
structure BleUuid where
  type_ : BleUuidType
  order_ : BleUuidOrder
  shortUuid_ : Nat
  fullUuid_ : List Byte
  deriving DecidableEq, Repr

/-- The method `BleUuid::toInt`: the value of a hexadecimal digit, `-1` for any
other character. Characters are compared by their codes, as `char` values are. -/
def BleUuid.toInt (c : Char) : Int :=
  if '0'.toNat ≤ c.toNat ∧ c.toNat ≤ '9'.toNat then (c.toNat : Int) - ('0'.toNat : Int)
  else if 'a'.toNat ≤ c.toNat ∧ c.toNat ≤ 'f'.toNat then
    (c.toNat : Int) - ('a'.toNat : Int) + 10
  else if 'A'.toNat ≤ c.toNat ∧ c.toNat ≤ 'F'.toNat then
    (c.toNat : Int) - ('A'.toNat : Int) + 10
  else -1

/-- The `for` loop of `BleUuid::setUuid` over the characters still to be read,
with the array and the running `len`. A digit in the `hi` position stores
`hi << 4` at `fullUuid_[len - 1]`; the next character is consumed with it and
OR-ed in when it is a digit too. The index `len - 1` and `len--` are `size_t`
arithmetic; a store outside the array is not modelled (`List.set` drops it). -/
def setUuidLoop : List Char → List Byte → Nat → List Byte × Nat
  | [], a, len => (a, len)
  | c :: cs, a, len =>
    if 0 ≤ BleUuid.toInt c then
      match cs with
      | [] => (a.set (subSize len 1) (toByte ((BleUuid.toInt c).toNat <<< 4)), subSize len 1)
      | c2 :: cs2 =>
        if 0 ≤ BleUuid.toInt c2 then
          setUuidLoop cs2
            (a.set (subSize len 1)
              (toByte ((BleUuid.toInt c).toNat <<< 4 ||| (BleUuid.toInt c2).toNat)))
            (subSize len 1)
        else
          setUuidLoop cs2 (a.set (subSize len 1) (toByte ((BleUuid.toInt c).toNat <<< 4)))
            (subSize len 1)
    else setUuidLoop cs a len

/-- The closing `while (len > 0)` loop of `BleUuid::setUuid`: zero the bytes below
`len`. -/
def zeroFill (a : List Byte) : Nat → List Byte
  | 0 => a
  | len + 1 => zeroFill (a.set len 0) len

/-- The method `BleUuid::setUuid`, on the text as a list of characters. -/
def BleUuid.setUuid (u : BleUuid) (str : List Char) : BleUuid :=
  match setUuidLoop str u.fullUuid_ BLE_SIG_UUID_128BIT_LEN with
  | (a, len) => ⟨u.type_, u.order_, u.shortUuid_, zeroFill a len⟩

/-- The constructor `BleUuid::BleUuid(const String&)`; `mem` is what the array
`fullUuid_` holds before the constructor body runs. -/
def BleUuid.ofString (mem : List Byte) (str : List Char) : BleUuid :=
  BleUuid.setUuid ⟨BleUuidType.LONG, BleUuidOrder.LSB, 0, mem⟩ str

/-- The constructor `BleUuid::BleUuid(const char*)`. -/
def BleUuid.ofCString (mem : List Byte) (string : Option (List Char)) : BleUuid :=
  match string with
  | none => ⟨BleUuidType.LONG, BleUuidOrder.LSB, 0, memset mem 0⟩
  | some str => BleUuid.setUuid ⟨BleUuidType.LONG, BleUuidOrder.LSB, 0, mem⟩ str

/-- The operator `BleUuid::operator==`. -/
def BleUuid.opEq (a b : BleUuid) : Bool :=
  if a.type_ = b.type_ ∧ a.order_ = b.order_ then
    if a.type_ = BleUuidType.SHORT then decide (a.shortUuid_ = b.shortUuid_)
    else memcmpEq a.fullUuid_ b.fullUuid_ BLE_SIG_UUID_128BIT_LEN
  else false

/-- One lexical unit of a UUID text: a character that is no hexadecimal digit, or
two adjacent hexadecimal digits. -/
inductive UuidToken where
  | sep (c : Char)
  | pair (h l : Char)
  deriving DecidableEq, Repr

/-- The characters of a token. -/
def UuidToken.chars : UuidToken → List Char
  | UuidToken.sep c => [c]
  | UuidToken.pair h l => [h, l]

/-- The token is what its constructor says: a separator is no digit, the two
characters of a pair are digits. -/
def UuidToken.Ok : UuidToken → Prop
  | UuidToken.sep c => BleUuid.toInt c < 0
  | UuidToken.pair h l => 0 ≤ BleUuid.toInt h ∧ 0 ≤ BleUuid.toInt l

instance (t : UuidToken) : Decidable t.Ok := by
  cases t <;> unfold UuidToken.Ok <;> infer_instance

/-- The text spelled by a list of tokens. -/
def tokenText : List UuidToken → List Char
  | [] => []
  | t :: ts => t.chars ++ tokenText ts

/-- The bytes the pairs of a token list denote, in text order: `16 * hi + lo`. -/
def pairBytes : List UuidToken → List Byte
  | [] => []
  | UuidToken.sep _ :: ts => pairBytes ts
  | UuidToken.pair h l :: ts =>
    toByte (16 * (BleUuid.toInt h).toNat + (BleUuid.toInt l).toNat) :: pairBytes ts

/-- Whether a character is a hexadecimal digit in the sense of `toInt`. -/
def isHexDigit (c : Char) : Bool := decide (0 ≤ BleUuid.toInt c)

/-- What may follow the last pair of a text without changing what the text
denotes: nothing, or one more digit followed by characters that are no digits. -/
def TailOk : List Char → Prop
  | [] => True
  | h :: seps => 0 ≤ BleUuid.toInt h ∧ ∀ c ∈ seps, BleUuid.toInt c < 0

instance (tail : List Char) : Decidable (TailOk tail) := by
  cases tail <;> unfold TailOk <;> infer_instance

/-- The byte a trailing single digit denotes: `hi << 4`. -/
def tailBytes : List Char → List Byte
  | [] => []
  | h :: _ => [toByte (16 * (BleUuid.toInt h).toNat)]

/-! ### Construction of the broadcaster -/

/-- Modelled from the spec: the header with the AD constants is not among the
sources; the spec names the general-discoverable flag, whose assigned value
("LE only, general discoverable mode") is 0x06. -/
def BLE_SIG_ADV_FLAGS_LE_ONLY_GENERAL_DISC_MODE : Byte := 0x06

/-- Modelled from the spec: AD type COMPLETE_LOCAL_NAME, assigned number 0x09. -/
def BLE_SIG_AD_TYPE_COMPLETE_LOCAL_NAME : Byte := 0x09

/-- Modelled from the spec: AD type MANUFACTURER_SPECIFIC_DATA, assigned number 0xFF. -/
def BLE_SIG_AD_TYPE_MANUFACTURER_SPECIFIC_DATA : Byte := 0xFF

/-- Modelled from the spec: AD type 16-BIT_SERVICE_UUID_COMPLETE, assigned number 0x03. -/
def BLE_SIG_AD_TYPE_16BIT_SERVICE_UUID_COMPLETE : Byte := 0x03

/-- Modelled from the spec: AD type 128-BIT_SERVICE_UUID_COMPLETE, assigned number 0x07. -/
def BLE_SIG_AD_TYPE_128BIT_SERVICE_UUID_COMPLETE : Byte := 0x07

/-- The constant `PARTICLE_COMPANY_ID` of the source. -/
def PARTICLE_COMPANY_ID : Nat := 0x0662

/-- The two bytes of a `uint16_t` as they lie in memory (little-endian target). -/
def bytesOfU16 (v : Nat) : List Byte := [toByte v, toByte (v / 256)]

/-- The constructor `BleUuid::BleUuid(const uint8_t* uuid128, BleUuidOrder order)`. -/
def BleUuid.ofBytes (uuid128 : Option (List Byte)) (order : BleUuidOrder) : BleUuid :=
  match uuid128 with
  | none => ⟨BleUuidType.LONG, order, 0, List.replicate BLE_SIG_UUID_128BIT_LEN 0⟩
  | some v => ⟨BleUuidType.LONG, order, 0, v.take BLE_SIG_UUID_128BIT_LEN⟩

/-- The method `BleBroadcaster::appendAdvDataLocalName`; `name` holds the
characters of the C string, so `strlen(name)` is its length. -/
def BleBroadcaster.appendAdvDataLocalName (bc : BleBroadcaster) (name : List Byte) :
    SystemError × BleBroadcaster :=
  bc.appendAdvData BLE_SIG_AD_TYPE_COMPLETE_LOCAL_NAME (some name)

/-- The method `BleBroadcaster::appendAdvDataCustomData`. -/
def BleBroadcaster.appendAdvDataCustomData (bc : BleBroadcaster) (buf : Option (List Byte)) :
    SystemError × BleBroadcaster :=
  bc.appendAdvData BLE_SIG_AD_TYPE_MANUFACTURER_SPECIFIC_DATA buf

/-- The method `BleBroadcaster::appendAdvDataUuid`. -/
def BleBroadcaster.appendAdvDataUuid (bc : BleBroadcaster) (uuid : BleUuid) :
    SystemError × BleBroadcaster :=
  if uuid.type_ = BleUuidType.SHORT then
    bc.appendAdvData BLE_SIG_AD_TYPE_16BIT_SERVICE_UUID_COMPLETE
      (some (bytesOfU16 uuid.shortUuid_))
  else
    bc.appendAdvData BLE_SIG_AD_TYPE_128BIT_SERVICE_UUID_COMPLETE
      (some (uuid.fullUuid_.take 16))

/-- The method `BleBroadcaster::appendScanRspDataUuid`. -/
def BleBroadcaster.appendScanRspDataUuid (bc : BleBroadcaster) (uuid : BleUuid) :
    SystemError × BleBroadcaster :=
  if uuid.type_ = BleUuidType.SHORT then
    bc.appendScanRspData BLE_SIG_AD_TYPE_16BIT_SERVICE_UUID_COMPLETE
      (some (bytesOfU16 uuid.shortUuid_))
  else
    bc.appendScanRspData BLE_SIG_AD_TYPE_128BIT_SERVICE_UUID_COMPLETE
      (some (uuid.fullUuid_.take 16))

/-- The constructor `BleBroadcaster::BleBroadcaster()`, as far as the two
payloads go. `advMem` and `srMem` are the contents of the two arrays before
it runs, `devName` the characters `get_device_name` delivers, `platformID` the
value of `PLATFORM_ID`, `order` the default order of the UUID constructor. -/
def BleBroadcaster.new (advMem srMem : List Byte) (devName : List Byte) (platformID : Nat)
    (order : BleUuidOrder) : BleBroadcaster :=
  let bc0 : BleBroadcaster := ⟨BleAdvData.init advMem, BleAdvData.init srMem⟩
  -- AD flag
  let bc1 := (bc0.appendAdvData BLE_SIG_AD_TYPE_FLAGS
    (some [BLE_SIG_ADV_FLAGS_LE_ONLY_GENERAL_DISC_MODE])).2
  -- Complete local name
  let bc2 := (bc1.appendAdvDataLocalName devName).2
  -- Particle specific Manufacture data
  let bc3 := (bc2.appendAdvDataCustomData
    (some (bytesOfU16 PARTICLE_COMPANY_ID ++ bytesOfU16 platformID))).2
  -- Particle Control Request Service 128-bits UUID
  (bc3.appendScanRspDataUuid (BleUuid.ofBytes (some BLE_CTRL_REQ_SVC_UUID) order)).2

/-- The characters of the device name `Argon`, used as a concrete instance. -/
def nameArgon : List Byte := [65, 114, 103, 111, 110]

/-! ### Characteristic records and handles

A handle (`BleCharacteristic`) is identified by its address, a record
(`BleCharacteristicImpl`, held through `std::shared_ptr`) by the number it got
when it was made. `Vector` is a list: `append` adds at the end, `removeOne`
deletes the first element equal to its argument, `removeAll` every such
element (the container header is not among the sources). -/

/-- The class `BleCharacteristicRef`: the address of a handle and its stub tag. -/
structure BleCharacteristicRef where
  charPtr : Nat
  isStub : Bool
  deriving DecidableEq, Repr

/-- The operator `BleCharacteristicRef::operator==`: the addresses agree. -/
def BleCharacteristicRef.opEq (self reference : BleCharacteristicRef) : Bool :=
  decide (reference.charPtr = self.charPtr)

/-- The five attribute handles of a characteristic (`BleCharHandles`). -/
structure BleCharHandles where
  decl_handle : Nat
  value_handle : Nat
  user_desc_handle : Nat
  cccd_handle : Nat
  sccd_handle : Nat
  deriving DecidableEq, Repr

/-- Modelled from the spec: the header with `PROPERTY` is not among the sources;
the spec lists the properties as a bitmask, here with the GATT bit values. -/
def PROPERTY.NONE : Nat := 0x00

/-- Modelled from the spec: property bit READ of the bitmask. -/
def PROPERTY.READ : Nat := 0x02

/-- Modelled from the spec: property bit WRITE_WO_RSP of the bitmask. -/
def PROPERTY.WRITE_WO_RSP : Nat := 0x04

/-- Modelled from the spec: property bit WRITE of the bitmask. -/
def PROPERTY.WRITE : Nat := 0x08

/-- Modelled from the spec: property bit NOTIFY of the bitmask. -/
def PROPERTY.NOTIFY : Nat := 0x10

/-- Modelled from the spec: property bit INDICATE of the bitmask. -/
def PROPERTY.INDICATE : Nat := 0x20

/-- The value of `BLE_INVALID_CONN_HANDLE` in the platform's HAL (its header is
not among the sources; no property below depends on the value). -/
def BLE_INVALID_CONN_HANDLE : Nat := 0xFFFF

/-- The data members of `BleCharacteristicImpl`. A callback is named by a number,
`none` is `nullptr`; `svcImpl` names the owning service. -/
structure BleCharacteristicImpl where
  properties : Nat
  uuid : BleUuid
  svcUuid : BleUuid
  description : Option (List Char)
  isLocal : Bool
  attrHandles : BleCharHandles
  dataCb : Option Nat
  cccdOfServer : List Nat
  cccdOfClient : Bool
  connHandle : Nat
  svcImpl : Option Nat
  references : List BleCharacteristicRef
  deriving DecidableEq, Repr

/-- The constructor `BleCharacteristicImpl()`: default-constructed members, then
`init()`. `mem` is the memory the record is built in; it shows through in the
members no constructor writes (`attrHandles`, the 16 bytes of the two UUIDs). -/
def BleCharacteristicImpl.new (mem : BleCharacteristicImpl) : BleCharacteristicImpl :=
  { properties := PROPERTY.NONE
    uuid := ⟨BleUuidType.SHORT, BleUuidOrder.LSB, 0, mem.uuid.fullUuid_⟩
    svcUuid := ⟨BleUuidType.SHORT, BleUuidOrder.LSB, 0, mem.svcUuid.fullUuid_⟩
    description := none
    isLocal := true
    attrHandles := mem.attrHandles
    dataCb := none
    cccdOfServer := []
    cccdOfClient := false
    connHandle := BLE_INVALID_CONN_HANDLE
    svcImpl := none
    references := [] }

/-- The constructor `BleCharacteristicImpl(desc, properties, cb)`. -/
def BleCharacteristicImpl.newDesc (mem : BleCharacteristicImpl) (desc : Option (List Char))
    (properties : Nat) (cb : Option Nat) : BleCharacteristicImpl :=
  { BleCharacteristicImpl.new mem with
    description := desc, properties := properties, dataCb := cb }

/-- The constructor `BleCharacteristicImpl(desc, properties, charUuid, svcUuid, cb)`. -/
def BleCharacteristicImpl.newFull (mem : BleCharacteristicImpl) (desc : Option (List Char))
    (properties : Nat) (charUuid svcUuid : BleUuid) (cb : Option Nat) :
    BleCharacteristicImpl :=
  { BleCharacteristicImpl.new mem with
    description := desc, properties := properties, uuid := charUuid, svcUuid := svcUuid,
    dataCb := cb }

/-- The method `BleCharacteristicImpl::addReference`. -/
def BleCharacteristicImpl.addReference (r : BleCharacteristicImpl) (characteristic : Nat)
    (stub : Bool) : BleCharacteristicImpl :=
  { r with references := r.references ++ [⟨characteristic, stub⟩] }

/-- The loop of `BleCharacteristicImpl::removeReference` at index `i`, with a
budget of iterations: `references[i]` is looked up in the list as it is now
(`none` when `i` has reached its size, which ends the loop), and a match calls
`removeOne`, which deletes the first entry equal to it. -/
def removeReferenceLoop (characteristic : Nat) :
    Nat → Nat → List BleCharacteristicRef → List BleCharacteristicRef
  | 0, _, references => references
  | fuel + 1, i, references =>
    match references[i]? with
    | none => references
    | some reference =>
      if reference.charPtr = characteristic then
        removeReferenceLoop characteristic fuel (i + 1)
          (references.eraseP (fun e => e.opEq reference))
      else removeReferenceLoop characteristic fuel (i + 1) references

/-- The method `BleCharacteristicImpl::removeReference`. The index grows by one
per iteration and the list never grows, so as many iterations as the list has
entries are enough (`removeReferenceLoop_fuel`). -/
def BleCharacteristicImpl.removeReference (r : BleCharacteristicImpl) (characteristic : Nat) :
    BleCharacteristicImpl :=
  { r with references :=
      removeReferenceLoop characteristic r.references.length 0 r.references }

/-- The loop of `isReferenceStub`: the tag of the first entry naming the handle. -/
def isReferenceStubIn (characteristic : Nat) : List BleCharacteristicRef → Bool
  | [] => false
  | reference :: rest =>
    if reference.charPtr = characteristic then reference.isStub
    else isReferenceStubIn characteristic rest

/-- The method `BleCharacteristicImpl::isReferenceStub`. -/
def BleCharacteristicImpl.isReferenceStub (r : BleCharacteristicImpl) (characteristic : Nat) :
    Bool :=
  isReferenceStubIn characteristic r.references

/-- The loop of `referenceStubCount`. -/
def stubCountIn : List BleCharacteristicRef → Nat
  | [] => 0
  | reference :: rest => (if reference.isStub then 1 else 0) + stubCountIn rest

/-- The method `BleCharacteristicImpl::referenceStubCount`. -/
def BleCharacteristicImpl.referenceStubCount (r : BleCharacteristicImpl) : Nat :=
  stubCountIn r.references

/-- The method `BleCharacteristicImpl::markReferenceAsStub`. -/
def BleCharacteristicImpl.markReferenceAsStub (r : BleCharacteristicImpl)
    (characteristic : Nat) : BleCharacteristicImpl :=
  { r with references := r.references.map (fun reference =>
      if reference.charPtr = characteristic then ⟨reference.charPtr, true⟩ else reference) }

/-- The objects the handle code works on: the records made so far (`record id` for
`id < fresh`), and for every address the member `impl_` of the handle there
(`none` is `nullptr`). A record that no handle points to any more is released;
the model keeps it in `record`, unreachable. -/
structure CharHeap where
  record : Nat → BleCharacteristicImpl
  fresh : Nat
  impl_ : Nat → Option Nat

/-- The heap with one record replaced. -/
def CharHeap.setRecord (h : CharHeap) (id : Nat) (r : BleCharacteristicImpl) : CharHeap :=
  ⟨fun k => if k = id then r else h.record k, h.fresh, h.impl_⟩

/-- The heap with the `impl_` of one handle replaced. -/
def CharHeap.setImpl (h : CharHeap) (addr : Nat) (v : Option Nat) : CharHeap :=
  ⟨h.record, h.fresh, fun k => if k = addr then v else h.impl_ k⟩

/-- The three constructors `BleCharacteristic(...)` that make a record: the handle
at address `this` gets a new record `r0` (what the matching
`BleCharacteristicImpl` constructor built) and is entered as its first
reference, not a stub. -/
def BleCharacteristic.construct (h : CharHeap) (this : Nat) (r0 : BleCharacteristicImpl) :
    CharHeap :=
  ⟨fun k => if k = h.fresh then r0.addReference this false else h.record k,
    h.fresh + 1,
    fun k => if k = this then some h.fresh else h.impl_ k⟩

/-- The copy constructor `BleCharacteristic(const BleCharacteristic&)`. -/
def BleCharacteristic.copyCtor (h : CharHeap) (this characteristic : Nat) : CharHeap :=
  match h.impl_ characteristic with
  | none => h.setImpl this none
  | some id =>
    (h.setImpl this (some id)).setRecord id
      ((h.record id).addReference this ((h.record id).isReferenceStub characteristic))

/-- The loop `for (...) if (reference.charPtr != this) reference.charPtr->impl_ = nullptr`. -/
def detachOthers (this : Nat) : List BleCharacteristicRef → CharHeap → CharHeap
  | [], h => h
  | reference :: rest, h =>
    if reference.charPtr ≠ this then detachOthers this rest (h.setImpl reference.charPtr none)
    else detachOthers this rest h

/-- The block shared by `~BleCharacteristic` and `operator=`: with a record, the
handle either detaches every other handle named in the reference list (when it
is tagged stub and the list has exactly one stub) or removes its own reference. -/
def BleCharacteristic.release (h : CharHeap) (this : Nat) : CharHeap :=
  match h.impl_ this with
  | none => h
  | some id =>
    if (h.record id).isReferenceStub this = true ∧ (h.record id).referenceStubCount = 1 then
      detachOthers this (h.record id).references h
    else h.setRecord id ((h.record id).removeReference this)

/-- The destructor `~BleCharacteristic`: the shared block, after which the member
`impl_` goes away with the handle. -/
def BleCharacteristic.dtor (h : CharHeap) (this : Nat) : CharHeap :=
  (BleCharacteristic.release h this).setImpl this none

/-- The operator `BleCharacteristic::operator=`. `none` stands for the null
dereference in `impl()->dataCb` when the source has no record at that point. -/
def BleCharacteristic.assign (h : CharHeap) (this characteristic : Nat) : Option CharHeap :=
  let preDataCb : Option Nat :=
    match h.impl_ this with
    | none => none
    | some id => (h.record id).dataCb
  let h1 := BleCharacteristic.release h this
  match h1.impl_ characteristic with
  | none => none
  | some id =>
    let r := h1.record id
    let r1 := if r.dataCb = none then { r with dataCb := preDataCb } else r
    some ((h1.setImpl this (some id)).setRecord id
      (r1.addReference this (r1.isReferenceStub characteristic)))

/-- The last four statements of `BleServiceImpl::addCharacteristic`, as far as the
heap goes: the record is tied to the service `svc`, the vector stores a copy of
the handle at the address `slot` (its storage is taken not to move), and that
copy is marked as stub. -/
def BleServiceImpl.storeCharacteristic (h : CharHeap) (svc : Nat) (characteristic slot : Nat) :
    CharHeap :=
  match h.impl_ characteristic with
  | none => h
  | some id =>
    let h1 := h.setRecord id { h.record id with svcImpl := some svc }
    let h2 := BleCharacteristic.copyCtor h1 slot characteristic
    match h2.impl_ slot with
    | none => h2
    | some id2 => h2.setRecord id2 ((h2.record id2).markReferenceAsStub slot)

/-- A record of zero bytes, used as the memory of concrete instances. -/
def mem0 : BleCharacteristicImpl :=
  { properties := 0
    uuid := ⟨BleUuidType.SHORT, BleUuidOrder.LSB, 0, List.replicate 16 0⟩
    svcUuid := ⟨BleUuidType.SHORT, BleUuidOrder.LSB, 0, List.replicate 16 0⟩
    description := none
    isLocal := false
    attrHandles := ⟨0, 0, 0, 0, 0⟩
    dataCb := none
    cccdOfServer := []
    cccdOfClient := false
    connHandle := 0
    svcImpl := none
    references := [] }

/-- The heap before any handle exists. -/
def CharHeap.empty : CharHeap := ⟨fun _ => mem0, 0, fun _ => none⟩

/-- A concrete heap: the characteristic `tx` (NOTIFY) is made at address 100 and
registered into service 7, which stores its stub copy at address 200. -/
def heapRegistered : CharHeap :=
  BleServiceImpl.storeCharacteristic
    (BleCharacteristic.construct CharHeap.empty 100
      (BleCharacteristicImpl.newDesc mem0 (some "tx".toList) PROPERTY.NOTIFY none))
    7 100 200

/-! ### `setValue` and the GATT primitives

The primitives are external: a call is recorded in a trace, its status code
comes from the environment `Hal`. `SYSTEM_ERROR_NONE` is 0 (the spec: status
code 0 is success), so `ret != SYSTEM_ERROR_NONE` is `ret ≠ 0`. -/

/-- One call of a GATT primitive with the value handed to it (`buf[0 .. len)`). -/
inductive HalCall where
  | serverSetValue (valueHandle : Nat) (value : List Byte)
  | serverNotify (connHandle valueHandle : Nat) (value : List Byte)
  | serverIndicate (connHandle valueHandle : Nat) (value : List Byte)
  | clientWriteWithResponse (connHandle valueHandle : Nat) (value : List Byte)
  | clientWriteWithoutResponse (connHandle valueHandle : Nat) (value : List Byte)
  deriving DecidableEq, Repr

/-- The status codes the primitives return: for the primary write, for the push
(notify or indicate) made in iteration `i` of the subscriber loop to a
connection handle, and for the client write. -/
structure Hal where
  serverSetValue : Int
  push : Nat → Nat → Int
  clientWrite : Int

/-- The subscriber loop of `BleCharacteristicImpl::setValue` from iteration `i` on:
whether it ran to its end (no `return 0`), and the calls it made. When neither
NOTIFY nor INDICATE is set no call is made and `ret` keeps the success code
of the primary write. -/
def pushLoop (hal : Hal) (properties valueHandle : Nat) (value : List Byte) :
    Nat → List Nat → Bool × List HalCall
  | _, [] => (true, [])
  | i, conn :: rest =>
    if properties &&& PROPERTY.NOTIFY ≠ 0 then
      if hal.push i conn ≠ 0 then (false, [HalCall.serverNotify conn valueHandle value])
      else
        ((pushLoop hal properties valueHandle value (i + 1) rest).1,
          HalCall.serverNotify conn valueHandle value ::
            (pushLoop hal properties valueHandle value (i + 1) rest).2)
    else if properties &&& PROPERTY.INDICATE ≠ 0 then
      if hal.push i conn ≠ 0 then (false, [HalCall.serverIndicate conn valueHandle value])
      else
        ((pushLoop hal properties valueHandle value (i + 1) rest).1,
          HalCall.serverIndicate conn valueHandle value ::
            (pushLoop hal properties valueHandle value (i + 1) rest).2)
    else pushLoop hal properties valueHandle value (i + 1) rest

/-- The method `BleCharacteristicImpl::setValue`: the returned length and the
calls made. `maxLen` is `BLE_MAX_CHAR_VALUE_LEN`, whose header is not among
the sources. A peer characteristic with neither WRITE nor WRITE_WO_RSP keeps
`ret = SYSTEM_ERROR_INVALID_STATE` and returns 0. -/
def BleCharacteristicImpl.setValue (maxLen : Nat) (hal : Hal) (r : BleCharacteristicImpl)
    (buf : Option (List Byte)) : Nat × List HalCall :=
  match buf with
  | none => (0, [])
  | some buf =>
    let len := if buf.length > maxLen then maxLen else buf.length
    if r.isLocal then
      if hal.serverSetValue ≠ 0 then
        (0, [HalCall.serverSetValue r.attrHandles.value_handle (buf.take len)])
      else
        ((if (pushLoop hal r.properties r.attrHandles.value_handle (buf.take len) 0
            r.cccdOfServer).1 then len else 0),
          HalCall.serverSetValue r.attrHandles.value_handle (buf.take len) ::
            (pushLoop hal r.properties r.attrHandles.value_handle (buf.take len) 0
              r.cccdOfServer).2)
    else
      if r.properties &&& PROPERTY.WRITE ≠ 0 then
        ((if hal.clientWrite ≠ 0 then 0 else len),
          [HalCall.clientWriteWithResponse r.connHandle r.attrHandles.value_handle
            (buf.take len)])
      else if r.properties &&& PROPERTY.WRITE_WO_RSP ≠ 0 then
        ((if hal.clientWrite ≠ 0 then 0 else len),
          [HalCall.clientWriteWithoutResponse r.connHandle r.attrHandles.value_handle
            (buf.take len)])
      else (0, [])

/-- The handle method `BleCharacteristic::setValue(buf, len)`. -/
def BleCharacteristic.setValue (maxLen : Nat) (hal : Hal) (h : CharHeap) (this : Nat)
    (buf : Option (List Byte)) : Nat × List HalCall :=
  match h.impl_ this with
  | none => (0, [])
  | some id => (h.record id).setValue maxLen hal buf

/-- The push call `setValue` makes for one subscriber: notify when NOTIFY is set,
otherwise indicate. -/
def pushCall (properties valueHandle : Nat) (value : List Byte) (conn : Nat) : HalCall :=
  if properties &&& PROPERTY.NOTIFY ≠ 0 then HalCall.serverNotify conn valueHandle value
  else HalCall.serverIndicate conn valueHandle value

/-- A local characteristic `tx` with NOTIFY, value handle 5 and the two
subscribers 1 and 2, as a concrete instance. -/
def txRecord : BleCharacteristicImpl :=
  { BleCharacteristicImpl.newDesc mem0 (some "tx".toList) PROPERTY.NOTIFY none with
    attrHandles := ⟨4, 5, 6, 7, 8⟩, cccdOfServer := [1, 2] }

/-- An environment in which every primitive succeeds. -/
def halOk : Hal := ⟨0, fun _ _ => 0, 0⟩

/-- An environment in which the push to connection handle 1 fails and everything
else succeeds. -/
def halPushFails : Hal := ⟨0, fun _ conn => if conn = 1 then -1 else 0, 0⟩

/-- A peer characteristic `rx` with WRITE_WO_RSP on connection 3, value handle 9, as
a concrete instance. -/
def rxPeerRecord : BleCharacteristicImpl :=
  { BleCharacteristicImpl.newDesc mem0 (some "rx".toList) PROPERTY.WRITE_WO_RSP none with
    isLocal := false, connHandle := 3, attrHandles := ⟨8, 9, 10, 11, 12⟩ }

/-! ### Services and the GATT-server model

A `BleService` handle shares its record (`BleServiceImpl`) through
`std::shared_ptr`; a server keeps the records of its services in the order of
`services`. The characteristics of a service are the addresses of the handle
copies its vector stores. -/

/-- The method `BleUuid::isValid`: `memcmp` against 16 zero bytes, converted to
`bool` (non-zero is `true`). -/
def BleUuid.isValid (u : BleUuid) : Bool :=
  if u.type_ = BleUuidType.SHORT then decide (u.shortUuid_ ≠ 0x0000)
  else !(memcmpEq u.fullUuid_ (List.replicate BLE_SIG_UUID_128BIT_LEN 0)
    BLE_SIG_UUID_128BIT_LEN)

/-- The constructor `BleUuid::BleUuid()`; `mem` is what the array `fullUuid_` holds,
which the constructor does not write. -/
def BleUuid.default (mem : List Byte) : BleUuid :=
  ⟨BleUuidType.SHORT, BleUuidOrder.LSB, 0x0000, mem⟩

/-- The constructor `BleUuid::BleUuid(const uint8_t* uuid128, uint16_t uuid16,
BleUuidOrder order)`: the 16 bytes, with `uuid16` stored in the bytes 12 and 13. -/
def BleUuid.ofBytesU16 (uuid128 : Option (List Byte)) (uuid16 : Nat) (order : BleUuidOrder) :
    BleUuid :=
  let full : List Byte :=
    match uuid128 with
    | none => List.replicate BLE_SIG_UUID_128BIT_LEN 0
    | some v => v.take BLE_SIG_UUID_128BIT_LEN
  if order = BleUuidOrder.LSB then
    ⟨BleUuidType.LONG, order, 0x0000,
      (full.set 12 (toByte (uuid16 &&& 0x00FF))).set 13 (toByte ((uuid16 >>> 8) &&& 0x00FF))⟩
  else
    ⟨BleUuidType.LONG, order, 0x0000,
      (full.set 13 (toByte (uuid16 &&& 0x00FF))).set 12 (toByte ((uuid16 >>> 8) &&& 0x00FF))⟩

/-- The method `BleCharacteristicImpl::assignUuidIfNeeded`, with the static
`uint16_t defaultUuidCharCount_` passed in and out. `order` is the default
argument of the UUID constructor (declared in a header that is not among the
sources). -/
def BleCharacteristicImpl.assignUuidIfNeeded (order : BleUuidOrder) (r : BleCharacteristicImpl)
    (defaultUuidCharCount_ : Nat) : BleCharacteristicImpl × Nat :=
  if r.uuid.isValid = false then
    ({ r with
        uuid := BleUuid.ofBytesU16 (some BLE_CTRL_REQ_SVC_UUID)
          (toU16 (defaultUuidCharCount_ + 1)) order },
      toU16 (defaultUuidCharCount_ + 1))
  else (r, defaultUuidCharCount_)

/-- The data members of `BleServiceImpl`; `addr` is the address of the record
itself (what `this` is in its methods), `characteristics` the addresses of the
handles stored in the vector. -/
structure BleServiceImpl where
  addr : Nat
  uuid : BleUuid
  startHandle : Nat
  endHandle : Nat
  characteristics : List Nat
  gattsProxy : Option Nat
  deriving DecidableEq, Repr

/-- The constructor `BleServiceImpl(const BleUuid& uuid)`, for a record made at the
address `addr`. -/
def BleServiceImpl.new (uuid : BleUuid) (addr : Nat) : BleServiceImpl :=
  ⟨addr, uuid, 0, 0, [], none⟩

/-- The records and handles of characteristics together with the static counter
`BleCharacteristicImpl::defaultUuidCharCount_`. -/
structure GattWorld where
  heap : CharHeap
  defaultUuidCharCount_ : Nat

/-- What the environment contributes to one registration call: the answer of
`ble_stack_is_initialized`, the address `ble_gap_get_device_address` delivers,
the status and the start handle of `ble_gatt_server_add_service`, the status of
`ble_gatt_server_add_characteristic` and the handles it leaves in `attrHandles`,
the address at which the vector stores the new handle copy, and the address
at which a new service record is made. -/
structure RegEnv where
  stackInitialized : Bool
  deviceAddress : Nat
  addServiceRet : Int
  startHandle : Nat
  addCharRet : Int
  attrHandles : BleCharHandles
  slot : Nat
  serviceAddr : Nat

/-- The record after `ble_gatt_server_add_characteristic` was handed
`&attrHandles`: the handles are what the primitive leaves there. -/
def BleCharacteristicImpl.setAttrHandles (r : BleCharacteristicImpl) (handles : BleCharHandles) :
    BleCharacteristicImpl :=
  { r with attrHandles := handles }

/-- The method `BleServiceImpl::contains`: some stored handle has the record of
`characteristic`. -/
def BleServiceImpl.contains (svc : BleServiceImpl) (h : CharHeap) (characteristic : Nat) : Bool :=
  match h.impl_ characteristic with
  | none => false
  | some id => svc.characteristics.any (fun stubChar => decide (h.impl_ stubChar = some id))

/-- The method `BleServiceImpl::addCharacteristic`: the status, the heap and
counter afterwards, and the service afterwards. `code` gives the numbers of
the `SYSTEM_ERROR_*` constants; a status of the HAL is returned as it is. -/
def BleServiceImpl.addCharacteristic (code : SystemError → Int) (order : BleUuidOrder)
    (env : RegEnv) (svc : BleServiceImpl) (w : GattWorld) (characteristic : Nat) :
    Int × GattWorld × BleServiceImpl :=
  match w.heap.impl_ characteristic with
  | none => (code SystemError.INVALID_ARGUMENT, w, svc)
  | some id =>
    if svc.contains w.heap characteristic = true ∨ (w.heap.record id).properties = 0 then
      (code SystemError.INVALID_ARGUMENT, w, svc)
    else if (w.heap.record id).isLocal = true then
      if env.stackInitialized = true then
        if env.addCharRet ≠ code SystemError.NONE then
          (env.addCharRet,
            ⟨w.heap.setRecord id
              (((w.heap.record id).assignUuidIfNeeded order
                w.defaultUuidCharCount_).1.setAttrHandles env.attrHandles),
              ((w.heap.record id).assignUuidIfNeeded order w.defaultUuidCharCount_).2⟩,
            svc)
        else
          (code SystemError.NONE,
            ⟨BleServiceImpl.storeCharacteristic
              (w.heap.setRecord id
                (((w.heap.record id).assignUuidIfNeeded order
                  w.defaultUuidCharCount_).1.setAttrHandles env.attrHandles))
              svc.addr characteristic env.slot,
              ((w.heap.record id).assignUuidIfNeeded order w.defaultUuidCharCount_).2⟩,
            { svc with characteristics := svc.characteristics ++ [env.slot] })
      else (code SystemError.INVALID_STATE, w, svc)
    else
      (code SystemError.NONE,
        ⟨BleServiceImpl.storeCharacteristic w.heap svc.addr characteristic env.slot,
          w.defaultUuidCharCount_⟩,
        { svc with characteristics := svc.characteristics ++ [env.slot] })

/-- The data members of `BleGattServerImpl`: the services in the order of the
vector, and the address of the device the model belongs to. -/
structure BleGattServerImpl where
  services : List BleServiceImpl
  address : Nat
  deriving DecidableEq, Repr

/-- The loop of `BleGattServerImpl::service(uuid)`: the index of the first service
whose UUID compares equal. -/
def serviceLoop (uuid : BleUuid) : List BleServiceImpl → Option Nat
  | [] => none
  | stubSvc :: rest =>
    if stubSvc.uuid.opEq uuid = true then some 0
    else (serviceLoop uuid rest).map (fun i => i + 1)

/-- The method `BleGattServerImpl::service(uuid)`; `none` is `nullptr`. -/
def BleGattServerImpl.service (g : BleGattServerImpl) (uuid : BleUuid) : Option Nat :=
  serviceLoop uuid g.services

/-- The method `BleGattServerImpl::isLocal`. -/
def BleGattServerImpl.isLocal (g : BleGattServerImpl) (env : RegEnv) : Bool :=
  decide (env.deviceAddress = g.address)

/-- The method `BleGattServerImpl::addService`. The start handle is whatever the
primitive leaves in it. -/
def BleGattServerImpl.addService (code : SystemError → Int) (env : RegEnv)
    (g : BleGattServerImpl) (svc : BleServiceImpl) : Int × BleGattServerImpl :=
  if (g.service svc.uuid).isSome = true then (code SystemError.INVALID_ARGUMENT, g)
  else if g.isLocal env = true then
    if env.stackInitialized = true then
      if env.addServiceRet ≠ code SystemError.NONE then (env.addServiceRet, g)
      else
        (code SystemError.NONE,
          { g with services := g.services ++ [{ svc with startHandle := env.startHandle }] })
    else (code SystemError.INVALID_STATE, g)
  else (code SystemError.NONE, { g with services := g.services ++ [svc] })

/-- The assignments of `BleGattServerImpl::addCharacteristic` before the service
lookup: `isLocal` is set, and on the local model an invalid service UUID is
replaced by the reserved one. -/
def prepareRecord (order : BleUuidOrder) (isLocal : Bool) (r : BleCharacteristicImpl) :
    BleCharacteristicImpl :=
  if isLocal = true ∧ r.svcUuid.isValid = false then
    { r with isLocal := isLocal,
             svcUuid := BleUuid.ofBytes (some BLE_CTRL_REQ_SVC_UUID) order }
  else { r with isLocal := isLocal }

/-- The method `BleGattServerImpl::addCharacteristic(BleCharacteristic&)`. In the
branch of a found service, the arm for an index outside the vector stands for
`stubSvc->impl() == nullptr`; in the other branch `services.last()` is the
service just appended. -/
def BleGattServerImpl.addCharacteristic (code : SystemError → Int) (order : BleUuidOrder)
    (env : RegEnv) (g : BleGattServerImpl) (w : GattWorld) (characteristic : Nat) :
    Int × GattWorld × BleGattServerImpl :=
  match w.heap.impl_ characteristic with
  | none => (code SystemError.INVALID_ARGUMENT, w, g)
  | some id =>
    let r := prepareRecord order (g.isLocal env) (w.heap.record id)
    let w1 : GattWorld := ⟨w.heap.setRecord id r, w.defaultUuidCharCount_⟩
    match g.service r.svcUuid with
    | some i =>
      match g.services[i]? with
      | none => (code SystemError.INTERNAL, w1, g)
      | some stubSvc =>
        ((stubSvc.addCharacteristic code order env w1 characteristic).1,
          (stubSvc.addCharacteristic code order env w1 characteristic).2.1,
          { g with services :=
              g.services.set i (stubSvc.addCharacteristic code order env w1 characteristic).2.2 })
    | none =>
      if (g.addService code env (BleServiceImpl.new r.svcUuid env.serviceAddr)).1 =
          code SystemError.NONE then
        match (g.addService code env
            (BleServiceImpl.new r.svcUuid env.serviceAddr)).2.services.getLast? with
        | none =>
          (code SystemError.INTERNAL, w1,
            (g.addService code env (BleServiceImpl.new r.svcUuid env.serviceAddr)).2)
        | some last =>
          ((last.addCharacteristic code order env w1 characteristic).1,
            (last.addCharacteristic code order env w1 characteristic).2.1,
            { (g.addService code env (BleServiceImpl.new r.svcUuid env.serviceAddr)).2 with
              services :=
                (g.addService code env
                  (BleServiceImpl.new r.svcUuid env.serviceAddr)).2.services.dropLast ++
                  [(last.addCharacteristic code order env w1 characteristic).2.2] })
      else
        (code SystemError.INTERNAL, w1,
          (g.addService code env (BleServiceImpl.new r.svcUuid env.serviceAddr)).2)

/-- The method `BleLocalDevice::addCharacteristic(BleCharacteristic&)`: the call is
passed to the device's own server model. -/
def BleLocalDevice.addCharacteristic (code : SystemError → Int) (order : BleUuidOrder)
    (env : RegEnv) (gattsProxy_ : BleGattServerImpl) (w : GattWorld) (characteristic : Nat) :
    Int × GattWorld × BleGattServerImpl :=
  gattsProxy_.addCharacteristic code order env w characteristic

/-- The 16-bit number held in the bytes 12 and 13 of a 128-bit UUID, read in the
byte order of the UUID (the low byte is byte 12 for LSB, byte 13 for MSB). -/
def BleUuid.suffix16 (u : BleUuid) : Nat :=
  if u.order_ = BleUuidOrder.LSB then
    (u.fullUuid_.getD 12 0).val + 256 * (u.fullUuid_.getD 13 0).val
  else (u.fullUuid_.getD 13 0).val + 256 * (u.fullUuid_.getD 12 0).val

/-- A concrete heap: three characteristics with NOTIFY and no UUID given, made at the
addresses 100, 101 and 102 (records 0, 1 and 2). -/
def heapThree : CharHeap :=
  BleCharacteristic.construct
    (BleCharacteristic.construct
      (BleCharacteristic.construct CharHeap.empty 100
        (BleCharacteristicImpl.newDesc mem0 (some "a".toList) PROPERTY.NOTIFY none))
      101 (BleCharacteristicImpl.newDesc mem0 (some "b".toList) PROPERTY.NOTIFY none))
    102 (BleCharacteristicImpl.newDesc mem0 (some "c".toList) PROPERTY.NOTIFY none)

/-- An environment in which the stack is initialized, the device address is 77,
every primitive succeeds, the handle copy is stored at `slot`, and the
attribute handles are `10 * slot + 1` to `10 * slot + 5`. -/
def envOk (slot : Nat) : RegEnv :=
  ⟨true, 77, 0, 10, 0,
    ⟨10 * slot + 1, 10 * slot + 2, 10 * slot + 3, 10 * slot + 4, 10 * slot + 5⟩,
    slot, slot + 100⟩

/-- A service with the short UUID `0x1234`, made at address 300. -/
def svcDemo : BleServiceImpl :=
  BleServiceImpl.new ⟨BleUuidType.SHORT, BleUuidOrder.LSB, 0x1234, List.replicate 16 0⟩ 300

/-- The first of three registrations into `svcDemo`, started with the counter at
`count`: the handle at 100. -/
def regFirst (count : Nat) : Int × GattWorld × BleServiceImpl :=
  svcDemo.addCharacteristic systemErrorValue BleUuidOrder.LSB (envOk 200) ⟨heapThree, count⟩ 100

/-- The second registration: the handle at 101. -/
def regSecond (count : Nat) : Int × GattWorld × BleServiceImpl :=
  (regFirst count).2.2.addCharacteristic systemErrorValue BleUuidOrder.LSB (envOk 201)
    (regFirst count).2.1 101

/-- The third registration: the handle at 102. -/
def regThird (count : Nat) : Int × GattWorld × BleServiceImpl :=
  (regSecond count).2.2.addCharacteristic systemErrorValue BleUuidOrder.LSB (envOk 202)
    (regSecond count).2.1 102

/-- The constructor `BleGattServerImpl(BleAddress& addr)`: no services yet. -/
def BleGattServerImpl.new (addr : Nat) : BleGattServerImpl := ⟨[], addr⟩

/-- One call on a GATT-server model: `addService` for a service made by
`BleService(uuid)`, or `addCharacteristic` for the handle at an address; each
with what the environment contributes to the call. -/
inductive GattOp where
  | addService (uuid : BleUuid) (env : RegEnv)
  | addCharacteristic (characteristic : Nat) (env : RegEnv)

/-- The state after one call (its status is dropped). -/
def GattOp.apply (code : SystemError → Int) (order : BleUuidOrder)
    (s : GattWorld × BleGattServerImpl) : GattOp → GattWorld × BleGattServerImpl
  | GattOp.addService uuid env =>
    (s.1, (s.2.addService code env (BleServiceImpl.new uuid env.serviceAddr)).2)
  | GattOp.addCharacteristic characteristic env =>
    ((s.2.addCharacteristic code order env s.1 characteristic).2.1,
      (s.2.addCharacteristic code order env s.1 characteristic).2.2)

/-- The state after a sequence of calls. -/
def runGatt (code : SystemError → Int) (order : BleUuidOrder)
    (s : GattWorld × BleGattServerImpl) (ops : List GattOp) : GattWorld × BleGattServerImpl :=
  ops.foldl (GattOp.apply code order) s

/-- The addresses at which the calls of a sequence store handle copies. -/
def slotsOf : List GattOp → List Nat
  | [] => []
  | GattOp.addService _ _ :: ops => slotsOf ops
  | GattOp.addCharacteristic _ env :: ops => env.slot :: slotsOf ops

/-- The service UUID of the test, `6E400001-B5A3-F393-E0A9-E50E24DCCA9E`. -/
def uartServiceUuid : BleUuid :=
  BleUuid.ofCString (List.replicate 16 0) (some "6E400001-B5A3-F393-E0A9-E50E24DCCA9E".toList)

/-- The UUID of the `rx` characteristic of the test. -/
def uartRxUuid : BleUuid :=
  BleUuid.ofCString (List.replicate 16 0) (some "6E400002-B5A3-F393-E0A9-E50E24DCCA9E".toList)

/-- The UUID of the `tx` characteristic of the test. -/
def uartTxUuid : BleUuid :=
  BleUuid.ofCString (List.replicate 16 0) (some "6E400003-B5A3-F393-E0A9-E50E24DCCA9E".toList)

/-- The two characteristics of the test: `tx` (NOTIFY) made at address 100 and `rx`
(WRITE_WO_RSP, callback 1) made at address 101, both for the service UUID of
the test. -/
def heapUart : CharHeap :=
  BleCharacteristic.construct
    (BleCharacteristic.construct CharHeap.empty 100
      (BleCharacteristicImpl.newFull mem0 (some "tx".toList) PROPERTY.NOTIFY uartTxUuid
        uartServiceUuid none))
    101
    (BleCharacteristicImpl.newFull mem0 (some "rx".toList) PROPERTY.WRITE_WO_RSP uartRxUuid
      uartServiceUuid (some 1))

/-- Two different characteristics made with one and the same explicit UUID (the
`tx` UUID), at the addresses 100 and 101, for the service UUID of the test. -/
def heapSameUuid : CharHeap :=
  BleCharacteristic.construct
    (BleCharacteristic.construct CharHeap.empty 100
      (BleCharacteristicImpl.newFull mem0 (some "tx".toList) PROPERTY.NOTIFY uartTxUuid
        uartServiceUuid none))
    101
    (BleCharacteristicImpl.newFull mem0 (some "tx2".toList) PROPERTY.NOTIFY uartTxUuid
      uartServiceUuid none)

/-- The two registrations of the test's `setup`: `tx`, then `rx`, on the local
device (address 77) with every primitive succeeding. -/
def opsUart : List GattOp :=
  [GattOp.addCharacteristic 100 (envOk 200), GattOp.addCharacteristic 101 (envOk 201)]

/-- An environment of the local device (address 77) in which the stack is not
initialized. -/
def envStackOff : RegEnv :=
  ⟨false, 77, 0, 10, 0, ⟨11, 12, 13, 14, 15⟩, 200, 300⟩

/-- No two services stored in the model have UUIDs that compare equal. -/
def UuidsDistinct (g : BleGattServerImpl) : Prop :=
  (g.services.map (fun s => s.uuid)).Pairwise
    (fun a b => a.opEq b = false ∧ b.opEq a = false)

/-- No two handles stored in the service refer to the same record. -/
def RecordsDistinct (h : CharHeap) (svc : BleServiceImpl) : Prop :=
  svc.characteristics.Pairwise (fun a b => h.impl_ a ≠ h.impl_ b)

/-- The local model (address 77) after the first registration of the test: one
service, holding `tx`. -/
def gattAfterTx : GattWorld × BleGattServerImpl :=
  runGatt systemErrorValue BleUuidOrder.LSB (⟨heapUart, 0⟩, BleGattServerImpl.new 77)
    [GattOp.addCharacteristic 100 (envOk 200)]

/-- Every handle stored in a service of the model lies at one of the addresses
`used`, has a record, and no two handles of one service have the same record. -/
def StoredOk (used : List Nat) (s : GattWorld × BleGattServerImpl) : Prop :=
  ∀ svc ∈ s.2.services,
    (∀ a ∈ svc.characteristics, a ∈ used ∧ s.1.heap.impl_ a ≠ none) ∧
      RecordsDistinct s.1.heap svc

/-- The local model (address 77) after registering the two characteristics of
`heapSameUuid`, which were made with one and the same UUID. -/
def gattSameUuid : GattWorld × BleGattServerImpl :=
  runGatt systemErrorValue BleUuidOrder.LSB (⟨heapSameUuid, 0⟩, BleGattServerImpl.new 77)
    opsUart

/-! ### Events on the GATT-server model

The payload of an event (`data`, `len`) is the list of its `len` bytes; `none`
is a null pointer. A call of a data callback is recorded with the callback
and the bytes handed to it. -/

/-- One call `dataCb(data, len)`. -/
structure CbCall where
  cb : Nat
  data : List Byte
  deriving DecidableEq, Repr

/-- The enumeration `ROLE` (declared in a header that is not among the sources; the
source names these three values). The test `role & ROLE::PERIPHERAL` is taken
to hold exactly for `PERIPHERAL`. -/
inductive ROLE where
  | INVALID
  | PERIPHERAL
  | CENTRAL
  deriving DecidableEq, Repr

/-- The members of `BlePeerDevice` that the event code reads (the class is declared
in a header that is not among the sources): the connection handle, the
address, the peer's own server model behind `gattsProxy()`, and the role. -/
structure BlePeerDevice where
  connHandle : Nat
  address : Nat
  gattsProxy_ : BleGattServerImpl
  role : ROLE
  deriving DecidableEq, Repr

/-- The method `BleCharacteristicImpl::configureCccd`: `append` adds the handle at the
end, `removeAll` deletes every entry equal to it. -/
def BleCharacteristicImpl.configureCccd (r : BleCharacteristicImpl) (handle : Nat)
    (enable : Byte) : BleCharacteristicImpl :=
  if r.isLocal = true then
    if enable ≠ 0 then { r with cccdOfServer := r.cccdOfServer ++ [handle] }
    else { r with cccdOfServer := r.cccdOfServer.filter (fun x => decide (x ≠ handle)) }
  else r

/-- The method `BleCharacteristicImpl::processReceivedData`: the record afterwards
and the callback calls made. `data[0]` of an empty payload lies outside it; the
model reads 0 there. -/
def BleCharacteristicImpl.processReceivedData (r : BleCharacteristicImpl) (attrHandle : Nat)
    (data : Option (List Byte)) (peerConnHandle : Nat) : BleCharacteristicImpl × List CbCall :=
  match data with
  | none => (r, [])
  | some d =>
    ((if r.isLocal = true ∧ attrHandle = r.attrHandles.cccd_handle then
        r.configureCccd peerConnHandle (d.getD 0 0)
      else r),
      (if attrHandle = r.attrHandles.value_handle then
        match r.dataCb with
        | none => []
        | some cb => [⟨cb, d⟩]
      else []))

/-- The test of `BleServiceImpl::characteristic(BleAttrHandle)`: one of the five
handles of the record is the attribute handle. -/
def hasAttrHandle (r : BleCharacteristicImpl) (attrHandle : Nat) : Bool :=
  decide (r.attrHandles.decl_handle = attrHandle) ||
    decide (r.attrHandles.value_handle = attrHandle) ||
    decide (r.attrHandles.user_desc_handle = attrHandle) ||
    decide (r.attrHandles.cccd_handle = attrHandle) ||
    decide (r.attrHandles.sccd_handle = attrHandle)

/-- The method `BleServiceImpl::characteristic(BleAttrHandle)`: the first stored
handle that has a record with the attribute handle; `none` is `nullptr`. -/
def BleServiceImpl.characteristic (svc : BleServiceImpl) (h : CharHeap) (attrHandle : Nat) :
    Option Nat :=
  svc.characteristics.find? (fun a =>
    match h.impl_ a with
    | none => false
    | some id => hasAttrHandle (h.record id) attrHandle)

/-- The loop of `BleGattServerImpl::gattsProcessDataWritten` over the services: the
heap afterwards and the callback calls in order. The handle that
`characteristic(attrHandle)` returns has a record. -/
def dataWrittenLoop (attrHandle : Nat) (buf : Option (List Byte)) (peerConnHandle : Nat) :
    List BleServiceImpl → CharHeap → CharHeap × List CbCall
  | [], h => (h, [])
  | svc :: rest, h =>
    match svc.characteristic h attrHandle with
    | none => dataWrittenLoop attrHandle buf peerConnHandle rest h
    | some a =>
      match h.impl_ a with
      | none => dataWrittenLoop attrHandle buf peerConnHandle rest h
      | some id =>
        ((dataWrittenLoop attrHandle buf peerConnHandle rest
            (h.setRecord id
              ((h.record id).processReceivedData attrHandle buf peerConnHandle).1)).1,
          ((h.record id).processReceivedData attrHandle buf peerConnHandle).2 ++
            (dataWrittenLoop attrHandle buf peerConnHandle rest
              (h.setRecord id
                ((h.record id).processReceivedData attrHandle buf peerConnHandle).1)).2)

/-- The method `BleGattServerImpl::gattsProcessDataWritten`. -/
def BleGattServerImpl.gattsProcessDataWritten (g : BleGattServerImpl) (h : CharHeap)
    (attrHandle : Nat) (buf : Option (List Byte)) (peer : BlePeerDevice) :
    CharHeap × List CbCall :=
  dataWrittenLoop attrHandle buf peer.connHandle g.services h

/-- The method `BleGattClientImpl::gattcProcessDataNotified`. -/
def BleGattClientImpl.gattcProcessDataNotified (h : CharHeap) (attrHandle : Nat)
    (buf : Option (List Byte)) (peer : BlePeerDevice) : CharHeap × List CbCall :=
  peer.gattsProxy_.gattsProcessDataWritten h attrHandle buf peer

/-- The inner loop of `BleGattServerImpl::gattsProcessDisconnected` over the handles
stored in one service; `none` stands for the dereference of a stored handle
without record. -/
def disconnectChars (peerConnHandle : Nat) : List Nat → CharHeap → Option CharHeap
  | [], h => some h
  | a :: rest, h =>
    match h.impl_ a with
    | none => none
    | some id =>
      disconnectChars peerConnHandle rest
        (h.setRecord id ((h.record id).configureCccd peerConnHandle 0))

/-- The outer loop of `BleGattServerImpl::gattsProcessDisconnected`. -/
def disconnectLoop (peerConnHandle : Nat) : List BleServiceImpl → CharHeap → Option CharHeap
  | [], h => some h
  | svc :: rest, h =>
    match disconnectChars peerConnHandle svc.characteristics h with
    | none => none
    | some h1 => disconnectLoop peerConnHandle rest h1

/-- The method `BleGattServerImpl::gattsProcessDisconnected`. -/
def BleGattServerImpl.gattsProcessDisconnected (g : BleGattServerImpl) (h : CharHeap)
    (peer : BlePeerDevice) : Option CharHeap :=
  disconnectLoop peer.connHandle g.services h

/-- The handles stored in the services of a list, service by service. -/
def storedHandles : List BleServiceImpl → List Nat
  | [] => []
  | svc :: rest => svc.characteristics ++ storedHandles rest

/-- Some service of the list resolves the attribute handle to a stored handle of
the record `id`. -/
def Resolved (attrHandle : Nat) (svcs : List BleServiceImpl) (h : CharHeap) (id : Nat) : Prop :=
  ∃ svc ∈ svcs, ∃ a, svc.characteristic h attrHandle = some a ∧ h.impl_ a = some id

/-- The local model (address 77) after the two registrations of the test: one
service holding `tx` (record 0, handles 2001 to 2005, stored at 200) and `rx`
(record 1, handles 2011 to 2015, stored at 201). -/
def gattUart : GattWorld × BleGattServerImpl :=
  runGatt systemErrorValue BleUuidOrder.LSB (⟨heapUart, 0⟩, BleGattServerImpl.new 77) opsUart

/-- A central with the connection handle `conn`. -/
def peerOf (conn : Nat) : BlePeerDevice :=
  ⟨conn, 1000 + conn, BleGattServerImpl.new (1000 + conn), ROLE.CENTRAL⟩

/-- The heap of `gattUart` after the peers 5 and 6 have written `01 00` to the CCCD
handle of `tx`. -/
def heapSubscribed : CharHeap :=
  (gattUart.2.gattsProcessDataWritten
    (gattUart.2.gattsProcessDataWritten gattUart.1.heap 2004 (some [1, 0]) (peerOf 5)).1
    2004 (some [1, 0]) (peerOf 6)).1

/-! ### The observer

The result array `results_` belongs to the caller; the model records every
assignment `results_[i] = device` with its index, in order, and every call of
a scan primitive. -/

/-- The members of `BleScannedDevice` that `observerProcessScanResult` writes. -/
structure BleScannedDevice where
  address : Nat
  rssi : Int
  advData : BleAdvData
  srData : BleAdvData
  deriving DecidableEq, Repr

/-- The members of `hal_ble_gap_on_scan_result_evt_t` that are read; `data` holds the
`data_len` bytes. -/
structure ScanResultEvt where
  peer_addr : Nat
  rssi : Int
  scan_response : Bool
  data : List Byte
  deriving DecidableEq, Repr

/-- A call of a scan primitive, or of the scan callback with a device. -/
inductive ScanCall where
  | setScanParameters
  | startScan
  | stopScan
  | callback (cb : Nat) (device : BleScannedDevice)
  deriving DecidableEq, Repr

/-- The data members of `BleObserver` used by the bounded scan, with the assignments
to the result array and the calls made so far. `results_` is the address of the
array, `none` is `nullptr`. -/
structure BleObserver where
  targetCount_ : Nat
  callback_ : Option Nat
  results_ : Option Nat
  count_ : Nat
  written : List (Nat × BleScannedDevice)
  calls : List ScanCall
  deriving DecidableEq, Repr

/-- The constructor `BleObserver::BleObserver()`. -/
def BleObserver.new : BleObserver := ⟨0, none, none, 0, [], []⟩

/-- The method `BleObserver::scan(BleScannedDevice* results, size_t resultCount,
const BleScanParams& params)`, to which the two shorter overloads pass on: the
value returned and the observer afterwards. -/
def BleObserver.scan (o : BleObserver) (results : Option Nat) (resultCount : Nat) :
    Nat × BleObserver :=
  (o.count_,
    { o with results_ := results, targetCount_ := resultCount,
             calls := o.calls ++ [ScanCall.setScanParameters, ScanCall.startScan] })

/-- The device that `observerProcessScanResult` builds from an event; `mem` is what
the two data arrays of the local `device` hold before the copy. -/
def deviceOf (mem : List Byte) (event : ScanResultEvt) : BleScannedDevice :=
  if event.scan_response = true then
    ⟨event.peer_addr, event.rssi, ⟨mem, 0⟩,
      ⟨memcpy mem 0 event.data 0 event.data.length, event.data.length⟩⟩
  else
    ⟨event.peer_addr, event.rssi,
      ⟨memcpy mem 0 event.data 0 event.data.length, event.data.length⟩, ⟨mem, 0⟩⟩

/-- The method `BleObserver::observerProcessScanResult`. -/
def BleObserver.observerProcessScanResult (mem : List Byte) (o : BleObserver)
    (event : ScanResultEvt) : BleObserver :=
  match o.callback_ with
  | some cb => { o with calls := o.calls ++ [ScanCall.callback cb (deviceOf mem event)] }
  | none =>
    match o.results_ with
    | none => o
    | some _ =>
      if o.count_ + 1 ≥ o.targetCount_ then
        { o with written := o.written ++ [(o.count_, deviceOf mem event)],
                 count_ := o.count_ + 1,
                 calls := o.calls ++ [ScanCall.stopScan] }
      else
        { o with written := o.written ++ [(o.count_, deviceOf mem event)],
                 count_ := o.count_ + 1 }

/-- The observer after a sequence of SCAN_RESULT events. -/
def processScanResults (mem : List Byte) (o : BleObserver) (events : List ScanResultEvt) :
    BleObserver :=
  events.foldl (BleObserver.observerProcessScanResult mem) o

/-- A scan result event from the device with address `n`, without data. -/
def scanEvt (n : Nat) : ScanResultEvt := ⟨n, -50, false, []⟩

/-- Seven scan result events, from the devices 1 to 7. -/
def sevenEvents : List ScanResultEvt :=
  [scanEvt 1, scanEvt 2, scanEvt 3, scanEvt 4, scanEvt 5, scanEvt 6, scanEvt 7]

/-- The indices `len - 1` at which the `for` loop of `BleUuid::setUuid` stores a
byte, in the order of the stores, and the value of `len` when the loop ends
(the same recursion as `setUuidLoop`, with the index of each store kept). -/
def setUuidStores : List Char → Nat → List Nat × Nat
  | [], len => ([], len)
  | c :: cs, len =>
    if 0 ≤ BleUuid.toInt c then
      match cs with
      | [] => ([subSize len 1], subSize len 1)
      | _ :: cs2 =>
        (subSize len 1 :: (setUuidStores cs2 (subSize len 1)).1,
          (setUuidStores cs2 (subSize len 1)).2)
    else setUuidStores cs len

/-- A text of 17 pairs of hexadecimal digits. -/
def seventeenPairs : List Char := "00112233445566778899AABBCCDDEEFF11".toList

/-- The method `BleObserver::scan(BleScanCallback callback)`; the overload with a
timeout differs in the scan parameters only. -/
def BleObserver.scanCallback (o : BleObserver) (callback : Option Nat) : Nat × BleObserver :=
  (o.count_,
    { o with callback_ := callback,
             calls := o.calls ++ [ScanCall.setScanParameters, ScanCall.startScan] })

/-- The number in the bytes 12 and 13 of the reserved base UUID, read in the byte
order `order`. -/
def baseSuffix (order : BleUuidOrder) : Nat :=
  (BleUuid.ofBytes (some BLE_CTRL_REQ_SVC_UUID) order).suffix16

/-- The heap of `heapRegistered` after the stub copy at 200 was destroyed (which
leaves the handle at 100 without record) and a new handle was made at 300. -/
def heapDetached : CharHeap :=
  BleCharacteristic.construct (BleCharacteristic.dtor heapRegistered 200) 300
    (BleCharacteristicImpl.newDesc mem0 (some "x".toList) PROPERTY.READ none)

/-- The heap of `gattUart` after the peer 5 has written `01 00` to the CCCD handle of
`tx` twice. -/
def heapTwiceEnabled : CharHeap :=
  (gattUart.2.gattsProcessDataWritten
    (gattUart.2.gattsProcessDataWritten gattUart.1.heap 2004 (some [1, 0]) (peerOf 5)).1
    2004 (some [1, 0]) (peerOf 5)).1

/-! ### Connection lists and the dispatcher

`BLE_MAX_PERIPHERAL_COUNT` and `BLE_MAX_CENTRAL_COUNT` are defined in a header
that is not among the sources; they are the parameters `maxPeripheral` and
`maxCentral`. A call of `ble_gap_disconnect` is recorded with the connection
handle read for it; `none` marks a handle read from a list position that is
out of range. -/

/-- The operator `BlePeerDevice::operator==`. -/
def BlePeerDevice.opEq (self device : BlePeerDevice) : Bool :=
  decide (self.connHandle = device.connHandle ∧ self.address = device.address)

/-- The connection lists of `BlePeripheral` and `BleCentral` as `BleLocalDevice`
holds them, with its own server model. -/
structure BleLocalDevice where
  centrals_ : List BlePeerDevice
  peripherals_ : List BlePeerDevice
  gattsProxy_ : BleGattServerImpl
  deriving DecidableEq, Repr

/-- The method `BlePeripheral::peripheralProcessConnected`. -/
def BlePeripheral.peripheralProcessConnected (maxPeripheral : Nat)
    (centrals_ : List BlePeerDevice) (peer : BlePeerDevice) : List BlePeerDevice :=
  if centrals_.length < maxPeripheral then centrals_ ++ [peer] else centrals_

/-- The method `BlePeripheral::peripheralProcessDisconnected`: `centrals_.clear()`. -/
def BlePeripheral.peripheralProcessDisconnected (_centrals_ : List BlePeerDevice)
    (_peer : BlePeerDevice) : List BlePeerDevice :=
  []

/-- The method `BleCentral::centralProcessConnected`. -/
def BleCentral.centralProcessConnected (maxCentral : Nat) (peripherals_ : List BlePeerDevice)
    (peer : BlePeerDevice) : List BlePeerDevice :=
  if peripherals_.length < maxCentral then peripherals_ ++ [peer] else peripherals_

/-- The method `BleCentral::centralProcessDisconnected`: `removeAll(peer)` deletes
every entry that compares equal to the peer. -/
def BleCentral.centralProcessDisconnected (peripherals_ : List BlePeerDevice)
    (peer : BlePeerDevice) : List BlePeerDevice :=
  peripherals_.filter (fun x => !(x.opEq peer))

/-- The loop of `BlePeripheral::disconnect` from index `i` with `n` iterations to go:
`centrals_.at(i)` is read from the list as it is now, and the list is cleared
in every iteration. The handles read, and the list afterwards. -/
def peripheralDisconnectLoop :
    Nat → Nat → List BlePeerDevice → List (Option Nat) × List BlePeerDevice
  | 0, _, centrals_ => ([], centrals_)
  | n + 1, i, centrals_ =>
    ((centrals_[i]?).map (fun central => central.connHandle) ::
        (peripheralDisconnectLoop n (i + 1) []).1,
      (peripheralDisconnectLoop n (i + 1) []).2)

/-- The method `BlePeripheral::disconnect`: the status, the handles given to
`ble_gap_disconnect`, and the list afterwards. -/
def BlePeripheral.disconnect (centrals_ : List BlePeerDevice) :
    SystemError × List (Option Nat) × List BlePeerDevice :=
  (SystemError.NONE,
    (peripheralDisconnectLoop centrals_.length 0 centrals_).1,
    (peripheralDisconnectLoop centrals_.length 0 centrals_).2)

/-- The method `BleCentral::disconnect(peripheral)`: the first entry with the
connection handle is disconnected and removed (`removeOne` deletes the first
entry that compares equal to it). -/
def BleCentral.disconnect (peripherals_ : List BlePeerDevice) (peripheral : BlePeerDevice) :
    SystemError × List (Option Nat) × List BlePeerDevice :=
  match peripherals_.find? (fun peer => decide (peer.connHandle = peripheral.connHandle)) with
  | none => (SystemError.NONE, [], peripherals_)
  | some peer =>
    (SystemError.NONE, [some peer.connHandle], peripherals_.eraseP (fun x => x.opEq peer))

/-- The method `BleLocalDevice::findPeerDevice`: the centrals are searched first,
then the peripherals; `none` is `nullptr`. -/
def BleLocalDevice.findPeerDevice (d : BleLocalDevice) (connHandle : Nat) :
    Option BlePeerDevice :=
  match d.centrals_.find? (fun peer => decide (peer.connHandle = connHandle)) with
  | some peer => some peer
  | none => d.peripherals_.find? (fun peer => decide (peer.connHandle = connHandle))

/-- The events CONNECTED and DISCONNECTED as far as the dispatcher reads them:
whether the local role is peripheral (`role == BLE_ROLE_PERIPHERAL`), the
connection handle and the peer address. -/
inductive BleEvt where
  | connected (localIsPeripheral : Bool) (conn_handle peer_addr : Nat)
  | disconnected (conn_handle : Nat)
  deriving DecidableEq, Repr

/-- The cases `BLE_EVT_CONNECTED` and `BLE_EVT_DISCONNECTED` of
`BleLocalDevice::onBleEvents`. `addr0` is the address a new `BlePeerDevice` has
when its constructor makes its server model; `none` stands for the
dereference of a missing record in the GATT cleanup. -/
def BleLocalDevice.onBleEvents (maxPeripheral maxCentral addr0 : Nat) (d : BleLocalDevice)
    (h : CharHeap) : BleEvt → Option (BleLocalDevice × CharHeap)
  | BleEvt.connected true conn_handle peer_addr =>
    some (⟨BlePeripheral.peripheralProcessConnected maxPeripheral d.centrals_
        ⟨conn_handle, peer_addr, BleGattServerImpl.new addr0, ROLE.CENTRAL⟩,
      d.peripherals_, d.gattsProxy_⟩, h)
  | BleEvt.connected false conn_handle peer_addr =>
    some (⟨d.centrals_,
      BleCentral.centralProcessConnected maxCentral d.peripherals_
        ⟨conn_handle, peer_addr, BleGattServerImpl.new addr0, ROLE.PERIPHERAL⟩,
      d.gattsProxy_⟩, h)
  | BleEvt.disconnected conn_handle =>
    match d.findPeerDevice conn_handle with
    | none => some (d, h)
    | some peer =>
      match d.gattsProxy_.gattsProcessDisconnected h peer with
      | none => none
      | some h2 =>
        if peer.role = ROLE.PERIPHERAL then
          some (⟨d.centrals_, BleCentral.centralProcessDisconnected d.peripherals_ peer,
            d.gattsProxy_⟩, h2)
        else
          some (⟨BlePeripheral.peripheralProcessDisconnected d.centrals_ peer, d.peripherals_,
            d.gattsProxy_⟩, h2)

/-- An event, or a call of one of the two `disconnect` methods. -/
inductive DeviceOp where
  | event (e : BleEvt)
  | peripheralDisconnect
  | centralDisconnect (peripheral : BlePeerDevice)

/-- The state after one event or call. -/
def DeviceOp.apply (maxPeripheral maxCentral addr0 : Nat) (s : BleLocalDevice × CharHeap) :
    DeviceOp → Option (BleLocalDevice × CharHeap)
  | DeviceOp.event e => s.1.onBleEvents maxPeripheral maxCentral addr0 s.2 e
  | DeviceOp.peripheralDisconnect =>
    some (⟨(BlePeripheral.disconnect s.1.centrals_).2.2, s.1.peripherals_, s.1.gattsProxy_⟩,
      s.2)
  | DeviceOp.centralDisconnect peripheral =>
    some (⟨s.1.centrals_, (BleCentral.disconnect s.1.peripherals_ peripheral).2.2,
      s.1.gattsProxy_⟩, s.2)

/-- The state after a sequence of events and calls. -/
def runDevice (maxPeripheral maxCentral addr0 : Nat) :
    List DeviceOp → BleLocalDevice × CharHeap → Option (BleLocalDevice × CharHeap)
  | [], s => some s
  | op :: ops, s =>
    match DeviceOp.apply maxPeripheral maxCentral addr0 s op with
    | none => none
    | some s2 => runDevice maxPeripheral maxCentral addr0 ops s2

/-- The local device of the test with the centrals 5 and 6 connected. -/
def deviceTwoCentrals : BleLocalDevice :=
  ⟨[peerOf 5, peerOf 6], [], gattUart.2⟩

/-! ## Auxiliary lemmas -/

theorem toByte_val (n : Nat) (h : n < 256) : (toByte n).val = n := by
  simp [toByte, Nat.mod_eq_of_lt h]

theorem subSize_eq (a b : Nat) (hb : b ≤ a) (ha : a < SIZE_MOD) : subSize a b = a - b := by
  unfold subSize
  have h1 : b % SIZE_MOD = b := Nat.mod_eq_of_lt (by omega)
  rw [h1]
  have h2 : a + SIZE_MOD - b = (a - b) + SIZE_MOD := by omega
  rw [h2, Nat.add_mod_right]
  exact Nat.mod_eq_of_lt (by omega)

theorem locateLoop_isSome (data : List Byte) (len : Nat) (type : Byte) :
    ∀ (fuel i : Nat), 1 ≤ fuel → len + 1 ≤ fuel + i →
      (locateLoop data len type fuel i).isSome = true := by
  intro fuel
  induction fuel with
  | zero => intro i h; omega
  | succ n ih =>
    intro i _ h
    simp only [locateLoop]
    split
    · split
      · split <;> rfl
      · apply ih <;> omega
    · rfl

theorem locateLoop_mono (data : List Byte) (len : Nat) (type : Byte) :
    ∀ (fuel i : Nat) (r : Option (Nat × Nat)), locateLoop data len type fuel i = some r →
      ∀ k, locateLoop data len type (fuel + k) i = some r := by
  intro fuel
  induction fuel with
  | zero => intro i r h; simp [locateLoop] at h
  | succ n ih =>
    intro i r h k
    have e : n + 1 + k = (n + k) + 1 := by omega
    rw [e]
    simp only [locateLoop] at h ⊢
    split
    · rename_i h3
      rw [if_pos h3] at h
      split
      · rename_i ht
        rw [if_pos ht] at h
        exact h
      · rename_i ht
        rw [if_neg ht] at h
        exact ih _ _ h k
    · rename_i h3
      rw [if_neg h3] at h
      exact h

theorem locateLoop_sound (data : List Byte) (len : Nat) (type : Byte) :
    ∀ (fuel i o L : Nat), locateLoop data len type fuel i = some (some (o, L)) →
      i ≤ o ∧ o + 3 ≤ len ∧ data.getD (o + 1) 0 = type ∧
        L = (data.getD o 0).val + 1 ∧ o + L ≤ len := by
  intro fuel
  induction fuel with
  | zero => intro i o L h; simp [locateLoop] at h
  | succ n ih =>
    intro i o L h
    simp only [locateLoop] at h
    split at h
    · rename_i h3
      split at h
      · rename_i ht
        split at h
        · rename_i hb
          simp only [Option.some.injEq, Prod.mk.injEq] at h
          obtain ⟨rfl, rfl⟩ := h
          exact ⟨le_refl _, h3, ht, rfl, by omega⟩
        · simp at h
      · obtain ⟨h1, h2⟩ := ih _ _ _ h
        exact ⟨by omega, h2⟩
    · simp at h

/-- With a budget of at least `len + 1` iterations the loop of `locate` exits by
itself, and its result is the one `locate` returns. -/
theorem locateLoop_eq_locate (b : BleAdvData) (type : Byte) (fuel : Nat)
    (h : b.len + 1 ≤ fuel) :
    locateLoop b.data b.len type fuel 0 = some (b.locate type) := by
  have hs := locateLoop_isSome b.data b.len type (b.len + 1) 0 (by omega) (by omega)
  obtain ⟨r, hr⟩ := Option.isSome_iff_exists.mp hs
  have hm := locateLoop_mono b.data b.len type (b.len + 1) 0 r hr (fuel - (b.len + 1))
  have e : b.len + 1 + (fuel - (b.len + 1)) = fuel := by omega
  rw [e] at hm
  rw [hm]
  simp [BleAdvData.locate, hr]

theorem locate_sound (b : BleAdvData) (type : Byte) (o L : Nat)
    (h : b.locate type = some (o, L)) :
    o + 3 ≤ b.len ∧ b.data.getD (o + 1) 0 = type ∧
      L = (b.data.getD o 0).val + 1 ∧ o + L ≤ b.len := by
  have h1 := locateLoop_eq_locate b type (b.len + 1) (le_refl _)
  rw [h] at h1
  exact (locateLoop_sound b.data b.len type _ _ _ _ h1).2

theorem encodeAds_length (e : Byte × List Byte) : (encodeAds e).length = e.2.length + 2 := by
  simp [encodeAds]

theorem encode_cons (e : Byte × List Byte) (es : List (Byte × List Byte)) :
    encode (e :: es) = encodeAds e ++ encode es := rfl

theorem encode_append (xs ys : List (Byte × List Byte)) :
    encode (xs ++ ys) = encode xs ++ encode ys := by
  induction xs with
  | nil => rfl
  | cons e es ih => simp [encode, ih, List.append_assoc]

theorem encode_length_ge (es : List (Byte × List Byte)) :
    2 * es.length ≤ (encode es).length := by
  induction es with
  | nil => simp [encode]
  | cons e es ih =>
    simp only [encode, List.length_append, encodeAds_length, List.length_cons]
    omega

theorem getD_front (front : List Byte) (x : Byte) (tl : List Byte) :
    (front ++ x :: tl).getD front.length 0 = x := by
  induction front with
  | nil => rfl
  | cons a f ih =>
    simp only [List.cons_append, List.length_cons, List.getD_cons_succ]
    exact ih

theorem getD_front_succ (front : List Byte) (x y : Byte) (tl : List Byte) :
    (front ++ x :: y :: tl).getD (front.length + 1) 0 = y := by
  induction front with
  | nil => rfl
  | cons a f ih =>
    simp only [List.cons_append, List.length_cons, List.getD_cons_succ]
    exact ih

/-- The loop of `locate` steps over a run of structures of other types, as long
as two more bytes follow the run. -/
theorem locateLoop_skip (type : Byte) :
    ∀ (pre : List (Byte × List Byte)) (front tl : List Byte) (len fuel : Nat),
      (∀ e ∈ pre, e.1 ≠ type ∧ e.2.length ≤ 254) →
      front.length + (encode pre).length + 2 ≤ len →
      locateLoop (front ++ (encode pre ++ tl)) len type (fuel + pre.length) front.length =
        locateLoop (front ++ (encode pre ++ tl)) len type fuel
          (front.length + (encode pre).length) := by
  intro pre
  induction pre with
  | nil => intro front tl len fuel _ _; simp [encode]
  | cons e es ih =>
    intro front tl len fuel hpre hlen
    have he := hpre e (List.mem_cons_self _ _)
    have hes : ∀ x ∈ es, x.1 ≠ type ∧ x.2.length ≤ 254 :=
      fun x hx => hpre x (List.mem_cons_of_mem _ hx)
    have hd : front ++ (encode (e :: es) ++ tl) =
        (front ++ encodeAds e) ++ (encode es ++ tl) := by
      simp [encode, List.append_assoc]
    have hd0 : front ++ (encode (e :: es) ++ tl) =
        front ++ toByte (e.2.length + 1) :: e.1 :: (e.2 ++ (encode es ++ tl)) := by
      simp [encode, encodeAds, List.append_assoc]
    have hl : (encode (e :: es)).length = e.2.length + 2 + (encode es).length := by
      simp [encode, encodeAds_length]
    have hf : fuel + (e :: es).length = (fuel + es.length) + 1 := by
      simp only [List.length_cons]; omega
    rw [hf, locateLoop]
    have h3 : front.length + 3 ≤ len := by omega
    rw [if_pos h3]
    have g0 : (front ++ (encode (e :: es) ++ tl)).getD front.length 0 =
        toByte (e.2.length + 1) := by rw [hd0]; exact getD_front _ _ _
    have g1 : (front ++ (encode (e :: es) ++ tl)).getD (front.length + 1) 0 = e.1 := by
      rw [hd0]; exact getD_front_succ _ _ _ _
    simp only [g0, g1]
    rw [if_neg he.1, toByte_val _ (by omega)]
    have hi : front.length + (e.2.length + 1 + 1) = (front ++ encodeAds e).length := by
      simp [encodeAds_length]
    rw [hi, hd, ih (front ++ encodeAds e) tl len fuel hes (by rw [← hi]; omega)]
    congr 1
    rw [← hi, hl]; omega

theorem locateLoop_truncated (type : Byte) (pre : List (Byte × List Byte))
    (l : Byte) (rest junk : List Byte) (len : Nat)
    (hpre : ∀ e ∈ pre, e.1 ≠ type ∧ e.2.length ≤ 254)
    (hlen2 : len = (encode pre).length + (rest.length + 2))
    (hl : rest.length + 1 < l.val) :
    (locateLoop (encode pre ++ (l :: type :: rest ++ junk)) len type (len + 1) 0).join =
      none := by
  have hge := encode_length_ge pre
  have hfuel : len + 1 = (len - pre.length) + 1 + pre.length := by omega
  have hskip := locateLoop_skip type pre [] (l :: type :: rest ++ junk) len
    ((len - pre.length) + 1) hpre (by simp only [List.length_nil]; omega)
  simp only [List.nil_append, List.length_nil, Nat.zero_add] at hskip
  rw [hfuel, hskip, locateLoop]
  by_cases h3 : (encode pre).length + 3 ≤ len
  · rw [if_pos h3]
    have g0 : (encode pre ++ (l :: type :: rest ++ junk)).getD
        (encode pre).length 0 = l := getD_front _ _ _
    have g1 : (encode pre ++ (l :: type :: rest ++ junk)).getD
        ((encode pre).length + 1) 0 = type := getD_front_succ _ _ _ _
    simp only [g0, g1]
    rw [if_pos trivial, if_neg (by omega)]
    rfl
  · rw [if_neg h3]
    rfl

/-- A structure of the wanted type that follows a run of other structures and
declares more bytes than the buffer still has makes `locate` return 0. -/
theorem locate_truncated (b : BleAdvData) (type : Byte) (pre : List (Byte × List Byte))
    (l : Byte) (rest : List Byte)
    (hpre : ∀ e ∈ pre, e.1 ≠ type ∧ e.2.length ≤ 254)
    (hdata : b.data.take b.len = encode pre ++ l :: type :: rest)
    (hlen : b.len ≤ b.data.length)
    (hl : rest.length + 1 < l.val) :
    b.locate type = none := by
  have hlen2 : b.len = (encode pre).length + (rest.length + 2) := by
    have := congrArg List.length hdata
    simp only [List.length_take, List.length_append, List.length_cons] at this
    omega
  have hd : b.data = encode pre ++ (l :: type :: rest ++ b.data.drop b.len) := by
    have := List.take_append_drop b.len b.data
    rw [hdata] at this
    simpa [List.append_assoc] using this.symm
  unfold BleAdvData.locate
  rw [hd]
  exact locateLoop_truncated type pre l rest _ b.len hpre hlen2 hl

theorem toU16_eq (n : Nat) (h : n < 65536) : toU16 n = n := Nat.mod_eq_of_lt h

theorem append_len_le (type : Byte) (buf : Option (List Byte)) (b : BleAdvData)
    (hb : b.len ≤ BLE_MAX_ADV_DATA_LEN) : (append type buf b).2.len ≤ BLE_MAX_ADV_DATA_LEN := by
  unfold append
  cases buf with
  | none => exact hb
  | some bytes =>
    simp only
    cases hloc : b.locate type with
    | none =>
      simp only
      split
      · simp only; omega
      · exact hb
    | some r =>
      obtain ⟨o, L⟩ := r
      simp only
      split
      · simp only; assumption
      · exact hb

theorem removeAds_len_le (b : BleAdvData) (type : Byte) (hb : b.len ≤ BLE_MAX_ADV_DATA_LEN) :
    (removeAds b type).len ≤ BLE_MAX_ADV_DATA_LEN := by
  unfold removeAds
  cases hloc : b.locate type with
  | none => exact hb
  | some r =>
    obtain ⟨o, L⟩ := r
    have hs := locate_sound b type o L hloc
    simp only
    rw [subSize_eq _ _ (by omega) (by unfold BLE_MAX_ADV_DATA_LEN at hb; unfold SIZE_MOD; omega)]
    omega

theorem removeFromAdvData_eq (bc : BleBroadcaster) (type : Byte) :
    bc.removeFromAdvData type =
      (SystemError.NONE, ⟨removeAds bc.advData_ type, bc.srData_⟩) := by
  unfold BleBroadcaster.removeFromAdvData removeAds
  cases bc.advData_.locate type with
  | none => rfl
  | some r => rfl

theorem removeFromScanRspData_eq (bc : BleBroadcaster) (type : Byte)
    (h : type ≠ BLE_SIG_AD_TYPE_FLAGS) :
    bc.removeFromScanRspData type =
      (SystemError.NONE, ⟨bc.advData_, removeAds bc.srData_ type⟩) := by
  unfold BleBroadcaster.removeFromScanRspData removeAds
  rw [if_neg h]
  cases bc.srData_.locate type with
  | none => rfl
  | some r => rfl

theorem apply_len_le (bc : BleBroadcaster) (op : Op)
    (h : bc.advData_.len ≤ BLE_MAX_ADV_DATA_LEN ∧ bc.srData_.len ≤ BLE_MAX_ADV_DATA_LEN) :
    (op.apply bc).advData_.len ≤ BLE_MAX_ADV_DATA_LEN ∧
      (op.apply bc).srData_.len ≤ BLE_MAX_ADV_DATA_LEN := by
  cases op with
  | appendAdvData type buf =>
    exact ⟨append_len_le type buf _ h.1, h.2⟩
  | appendScanRspData type buf =>
    simp only [Op.apply, BleBroadcaster.appendScanRspData]
    split
    · exact h
    · exact ⟨h.1, append_len_le type buf _ h.2⟩
  | removeFromAdvData type =>
    simp only [Op.apply, removeFromAdvData_eq]
    exact ⟨removeAds_len_le _ _ h.1, h.2⟩
  | removeFromScanRspData type =>
    by_cases ht : type = BLE_SIG_AD_TYPE_FLAGS
    · simp only [Op.apply, BleBroadcaster.removeFromScanRspData, if_pos ht]
      exact h
    · simp only [Op.apply, removeFromScanRspData_eq _ _ ht]
      exact ⟨h.1, removeAds_len_le _ _ h.2⟩
  | clearAdvData => exact ⟨Nat.zero_le _, h.2⟩
  | clearScanRspData => exact ⟨h.1, Nat.zero_le _⟩

theorem run_len_le (ops : List Op) :
    ∀ bc : BleBroadcaster,
      bc.advData_.len ≤ BLE_MAX_ADV_DATA_LEN ∧ bc.srData_.len ≤ BLE_MAX_ADV_DATA_LEN →
      (run bc ops).advData_.len ≤ BLE_MAX_ADV_DATA_LEN ∧
        (run bc ops).srData_.len ≤ BLE_MAX_ADV_DATA_LEN := by
  induction ops with
  | nil => intro bc h; exact h
  | cons op ops ih =>
    intro bc h
    exact ih (op.apply bc) (apply_len_le bc op h)

/-- On the wire bytes of a run of structures with non-empty data, the loop of
`locate` computes `locSpec`. -/
theorem locateLoop_encode (type : Byte) :
    ∀ (es : List (Byte × List Byte)) (front junk : List Byte) (fuel : Nat),
      (∀ e ∈ es, 1 ≤ e.2.length ∧ e.2.length ≤ 254) →
      es.length + 1 ≤ fuel →
      locateLoop (front ++ (encode es ++ junk)) (front.length + (encode es).length) type fuel
        front.length = some (locSpec type front.length es) := by
  intro es
  induction es with
  | nil =>
    intro front junk fuel _ hf
    obtain ⟨n, rfl⟩ : ∃ n, fuel = n + 1 := ⟨fuel - 1, by simp only [List.length_nil] at hf; omega⟩
    rw [locateLoop, if_neg (by simp [encode])]
    rfl
  | cons e es ih =>
    intro front junk fuel hes hf
    have he := hes e (List.mem_cons_self _ _)
    have hes2 : ∀ x ∈ es, 1 ≤ x.2.length ∧ x.2.length ≤ 254 :=
      fun x hx => hes x (List.mem_cons_of_mem _ hx)
    obtain ⟨n, rfl⟩ : ∃ n, fuel = n + 1 := ⟨fuel - 1, by simp only [List.length_cons] at hf; omega⟩
    have hd : front ++ (encode (e :: es) ++ junk) =
        (front ++ encodeAds e) ++ (encode es ++ junk) := by
      simp [encode, List.append_assoc]
    have hd0 : front ++ (encode (e :: es) ++ junk) =
        front ++ toByte (e.2.length + 1) :: e.1 :: (e.2 ++ (encode es ++ junk)) := by
      simp [encode, encodeAds, List.append_assoc]
    have hl : (encode (e :: es)).length = e.2.length + 2 + (encode es).length := by
      simp [encode, encodeAds_length]
    have g0 : (front ++ (encode (e :: es) ++ junk)).getD front.length 0 =
        toByte (e.2.length + 1) := by rw [hd0]; exact getD_front _ _ _
    have g1 : (front ++ (encode (e :: es) ++ junk)).getD (front.length + 1) 0 = e.1 := by
      rw [hd0]; exact getD_front_succ _ _ _ _
    rw [locateLoop, if_pos (by omega)]
    simp only [g0, g1]
    rw [toByte_val _ (by omega)]
    by_cases ht : e.1 = type
    · rw [if_pos ht, if_pos (by omega)]
      simp [locSpec, ht]
    · rw [if_neg ht]
      have hi : front.length + (e.2.length + 1 + 1) = (front ++ encodeAds e).length := by
        simp [encodeAds_length]
      have hlen : front.length + (encode (e :: es)).length =
          (front ++ encodeAds e).length + (encode es).length := by
        rw [← hi, hl]; omega
      rw [hi, hd, hlen, ih (front ++ encodeAds e) junk n hes2
        (by simp only [List.length_cons] at hf; omega)]
      simp only [locSpec, if_neg ht, ← hi]

theorem holds_data (b : BleAdvData) (es : List (Byte × List Byte)) (h : Holds b es) :
    b.data = encode es ++ b.data.drop b.len := by
  have := List.take_append_drop b.len b.data
  rw [h.2] at this
  exact this.symm

/-- A buffer holding a run of structures with non-empty data: `locate` returns
what `locSpec` says. -/
theorem holds_locate (b : BleAdvData) (es : List (Byte × List Byte)) (type : Byte)
    (hes : ∀ e ∈ es, 1 ≤ e.2.length ∧ e.2.length ≤ 254) (h : Holds b es) :
    b.locate type = locSpec type 0 es := by
  have hd := holds_data b es h
  obtain ⟨data, len⟩ := b
  unfold Holds at h
  obtain ⟨h1, h2⟩ := h
  simp only at h1 h2 hd
  generalize data.drop len = junk at hd
  subst hd
  subst h1
  have key := locateLoop_encode type es [] junk ((encode es).length + 1) hes
    (by have := encode_length_ge es; omega)
  simp only [List.nil_append, List.length_nil, Nat.zero_add] at key
  simp only [BleAdvData.locate, key, Option.join, Option.bind, id]

theorem locSpec_append (type : Byte) :
    ∀ (pre rest : List (Byte × List Byte)) (base : Nat), (∀ e ∈ pre, e.1 ≠ type) →
      locSpec type base (pre ++ rest) = locSpec type (base + (encode pre).length) rest := by
  intro pre
  induction pre with
  | nil => intro rest base _; simp [encode]
  | cons e es ih =>
    intro rest base h
    have he := h e (List.mem_cons_self _ _)
    simp only [List.cons_append, locSpec, if_neg he, List.append_eq]
    rw [ih rest _ (fun x hx => h x (List.mem_cons_of_mem _ hx))]
    simp only [encode, List.length_append, encodeAds_length]
    congr 1
    omega

theorem locSpec_absent (type : Byte) :
    ∀ (es : List (Byte × List Byte)) (base : Nat), (∀ e ∈ es, e.1 ≠ type) →
      locSpec type base es = none := by
  intro es
  induction es with
  | nil => intro base _; rfl
  | cons e es ih =>
    intro base h
    simp only [locSpec, if_neg (h e (List.mem_cons_self _ _))]
    exact ih _ (fun x hx => h x (List.mem_cons_of_mem _ hx))

theorem findAds_append (type : Byte) :
    ∀ (pre rest : List (Byte × List Byte)), (∀ e ∈ pre, e.1 ≠ type) →
      findAds type (pre ++ rest) = findAds type rest := by
  intro pre
  induction pre with
  | nil => intro rest _; rfl
  | cons e es ih =>
    intro rest h
    simp only [List.cons_append, findAds, if_neg (h e (List.mem_cons_self _ _)), List.append_eq]
    exact ih rest (fun x hx => h x (List.mem_cons_of_mem _ hx))

theorem findAds_absent (type : Byte) :
    ∀ (es : List (Byte × List Byte)), (∀ e ∈ es, e.1 ≠ type) → findAds type es = none := by
  intro es
  induction es with
  | nil => intro _; rfl
  | cons e es ih =>
    intro h
    simp only [findAds, if_neg (h e (List.mem_cons_self _ _))]
    exact ih (fun x hx => h x (List.mem_cons_of_mem _ hx))

/-- A run either has no structure of the given type, or splits at the first one. -/
theorem split_first (type : Byte) :
    ∀ (es : List (Byte × List Byte)),
      (∀ e ∈ es, e.1 ≠ type) ∨
      ∃ pre d post, es = pre ++ (type, d) :: post ∧ ∀ e ∈ pre, e.1 ≠ type := by
  intro es
  induction es with
  | nil => left; intro e he; cases he
  | cons e es ih =>
    by_cases ht : e.1 = type
    · right
      refine ⟨[], e.2, es, ?_, ?_⟩
      · obtain ⟨t, d⟩ := e
        simp only at ht
        subst ht
        rfl
      · intro x hx; cases hx
    · rcases ih with h | ⟨pre, d, post, h1, h2⟩
      · left
        intro x hx
        rcases List.mem_cons.mp hx with rfl | hx
        · exact ht
        · exact h x hx
      · right
        refine ⟨e :: pre, d, post, by rw [h1]; rfl, ?_⟩
        intro x hx
        rcases List.mem_cons.mp hx with rfl | hx
        · exact ht
        · exact h2 x hx

theorem holds_data_junk (b : BleAdvData) (es : List (Byte × List Byte)) (h : Holds b es) :
    ∃ junk, b.data = encode es ++ junk :=
  ⟨b.data.drop b.len, holds_data b es h⟩

theorem holds_fetch (b : BleAdvData) (es : List (Byte × List Byte)) (type : Byte)
    (buf : Option (List Byte)) (cap : Nat)
    (hes : ∀ e ∈ es, 1 ≤ e.2.length ∧ e.2.length ≤ 254) (h : Holds b es) :
    b.fetch type buf cap = fetchSpec es type buf cap := by
  obtain ⟨junk, hd⟩ := holds_data_junk b es h
  unfold BleAdvData.fetch fetchSpec
  rw [holds_locate b es type hes h]
  rcases split_first type es with habs | ⟨pre, d, post, rfl, hpre⟩
  · rw [locSpec_absent _ _ _ habs, findAds_absent _ _ habs]
  · have hdlen : d.length ≤ 254 := (hes (type, d) (by simp)).2
    rw [locSpec_append _ _ _ _ hpre, findAds_append _ _ _ hpre]
    simp only [locSpec, findAds, if_true]
    have hsub : subSize (d.length + 2) 2 = d.length := by
      rw [subSize_eq _ _ (by omega) (by unfold SIZE_MOD; omega)]; omega
    rw [hsub]
    have hd2 : b.data = encode pre ++ (toByte (d.length + 1) :: type ::
        (d ++ (encode post ++ junk))) := by
      rw [hd]
      simp [encode_append, encode, encodeAds, List.append_assoc]
    have hn : (if cap > d.length then d.length else cap) ≤ d.length := by
      split <;> omega
    have hm : ∀ out : List Byte,
        memcpy out 0 b.data (0 + (encode pre).length + 2)
          (if cap > d.length then d.length else cap) =
        memcpy out 0 d 0 (if cap > d.length then d.length else cap) := by
      intro out
      unfold memcpy
      have e1 : 0 + (encode pre).length + 2 = (encode pre).length + 2 := by omega
      rw [hd2, e1, List.drop_append, List.drop_zero]
      simp only [List.drop_succ_cons, List.drop_zero]
      rw [List.take_append_of_le_length hn]
    simp only [hm]

/-- Removing the structure of type `type` from a buffer that holds the run
`pre ++ (type, d) :: post` leaves a buffer that holds `pre ++ post`. -/
theorem holds_removeAds (b : BleAdvData) (pre post : List (Byte × List Byte)) (type : Byte)
    (d : List Byte)
    (hes : ∀ e ∈ pre ++ (type, d) :: post, 1 ≤ e.2.length ∧ e.2.length ≤ 254)
    (hpre : ∀ e ∈ pre, e.1 ≠ type)
    (hlen : b.len ≤ BLE_MAX_ADV_DATA_LEN)
    (h : Holds b (pre ++ (type, d) :: post)) :
    Holds (removeAds b type) (pre ++ post) ∧
      (removeAds b type).len + (d.length + 2) = b.len := by
  obtain ⟨junk, hd⟩ := holds_data_junk b _ h
  have hloc := holds_locate b _ type hes h
  rw [locSpec_append _ _ _ _ hpre] at hloc
  simp only [locSpec, if_true, Nat.zero_add] at hloc
  have hb31 : b.len ≤ 31 := hlen
  have hblen : b.len = (encode pre).length + (d.length + 2) + (encode post).length := by
    rw [h.1]
    simp [encode_append, encode, encodeAds_length]
    omega
  have hd2 : b.data = encode pre ++ (encodeAds (type, d) ++ (encode post ++ junk)) := by
    rw [hd]
    simp [encode_append, encode, List.append_assoc]
  unfold removeAds
  rw [hloc]
  simp only
  have h32 : b.len < SIZE_MOD := by unfold SIZE_MOD; omega
  have s1 : subSize b.len (d.length + 2) = b.len - (d.length + 2) :=
    subSize_eq _ _ (by omega) h32
  have s2 : subSize b.len (encode pre).length = b.len - (encode pre).length :=
    subSize_eq _ _ (by omega) h32
  have s3 : subSize (b.len - (encode pre).length) (d.length + 2) =
      b.len - (encode pre).length - (d.length + 2) :=
    subSize_eq _ _ (by omega) (by omega)
  have s4 : toU16 (b.len - (encode pre).length - (d.length + 2)) = (encode post).length := by
    rw [toU16_eq _ (by omega)]; omega
  rw [s1, s2, s3, s4]
  refine ⟨⟨?_, ?_⟩, ?_⟩
  · simp only [encode_append, List.length_append]
    omega
  · simp only
    rw [hd2]
    unfold memcpy
    have t1 : List.take (encode pre).length
        (encode pre ++ (encodeAds (type, d) ++ (encode post ++ junk))) = encode pre :=
      List.take_left _ _
    have t2 : List.drop ((encode pre).length + (d.length + 2))
        (encode pre ++ (encodeAds (type, d) ++ (encode post ++ junk))) =
        encode post ++ junk := by
      rw [List.drop_append]
      exact List.drop_left' (encodeAds_length _)
    rw [t1, t2, List.take_left, ← List.append_assoc, encode_append]
    apply List.take_left'
    simp only [List.length_append]
    omega
  · omega

theorem encode_length_mem (es : List (Byte × List Byte)) (e : Byte × List Byte)
    (h : e ∈ es) : e.2.length + 2 ≤ (encode es).length := by
  induction es with
  | nil => cases h
  | cons x xs ih =>
    simp only [encode, List.length_append, encodeAds_length]
    rcases List.mem_cons.mp h with rfl | hx
    · omega
    · have := ih hx
      omega

theorem wellFormed_bounds (es : List (Byte × List Byte)) (h : WellFormed es) :
    ∀ e ∈ es, 1 ≤ e.2.length ∧ e.2.length ≤ 254 := by
  intro e he
  have h1 := h.2.1 e he
  have h2 := encode_length_mem es e he
  have h3 : (encode es).length ≤ 31 := h.2.2
  exact ⟨h1, by omega⟩

theorem findAds_erase (type U : Byte) (d : List Byte) (hU : U ≠ type) :
    ∀ (pre post : List (Byte × List Byte)),
      findAds U (pre ++ (type, d) :: post) = findAds U (pre ++ post) := by
  intro pre
  induction pre with
  | nil =>
    intro post
    simp only [List.nil_append, findAds]
    rw [if_neg (fun h => hU h.symm)]
  | cons e es ih =>
    intro post
    simp only [List.cons_append, findAds, List.append_eq]
    rw [ih post]

/-- On a buffer holding a well-formed run, the shared body of the two remove
functions deletes exactly the structure of the given type. -/
theorem removeAds_deletes (b : BleAdvData) (es : List (Byte × List Byte)) (type : Byte)
    (hwf : WellFormed es) (h : Holds b es) :
    DeletedExactly b (removeAds b type) es type := by
  have hes := wellFormed_bounds es hwf
  have hlen : b.len ≤ BLE_MAX_ADV_DATA_LEN := by rw [h.1]; exact hwf.2.2
  rcases split_first type es with habs | ⟨pre, d, post, rfl, hpre⟩
  · have hloc : b.locate type = none := by
      rw [holds_locate b es type hes h, locSpec_absent _ _ _ habs]
    have hrm : removeAds b type = b := by
      unfold removeAds; rw [hloc]
    rw [hrm]
    refine ⟨?_, ?_, ?_, ?_⟩
    · intro buf cap
      rw [holds_fetch b es type buf cap hes h]
      unfold fetchSpec
      rw [findAds_absent _ _ habs]
    · rw [findAds_absent _ _ habs]
      rfl
    · intro U _ buf cap
      rfl
    · intro _
      rfl
  · have hnd : (List.map Prod.fst (pre ++ (type, d) :: post)).Nodup := hwf.1
    rw [List.map_append, List.map_cons] at hnd
    have hpost : ∀ e ∈ post, e.1 ≠ type := by
      intro e he heq
      have h1 := (List.nodup_cons.mp (List.nodup_append.mp hnd).2.1).1
      exact h1 (List.mem_map.mpr ⟨e, he, heq⟩)
    have hall : ∀ e ∈ pre ++ post, e.1 ≠ type := by
      intro e he
      rcases List.mem_append.mp he with hp | hp
      · exact hpre e hp
      · exact hpost e hp
    have hes2 : ∀ e ∈ pre ++ post, 1 ≤ e.2.length ∧ e.2.length ≤ 254 := by
      intro e he
      apply hes
      rcases List.mem_append.mp he with hp | hp
      · exact List.mem_append_left _ hp
      · exact List.mem_append_right _ (List.mem_cons_of_mem _ hp)
    obtain ⟨hh, hl⟩ := holds_removeAds b pre post type d hes hpre hlen h
    refine ⟨?_, ?_, ?_, ?_⟩
    · intro buf cap
      rw [holds_fetch _ _ type buf cap hes2 hh]
      unfold fetchSpec
      rw [findAds_absent _ _ hall]
    · rw [findAds_append _ _ _ hpre]
      simp only [findAds, if_true]
      exact hl
    · intro U hU buf cap
      rw [holds_fetch _ _ U buf cap hes2 hh, holds_fetch _ _ U buf cap hes h]
      unfold fetchSpec
      rw [findAds_erase type U d hU]
    · intro habs
      exact absurd rfl (habs (type, d) (by simp))

/-- Appending a structure of a new type with non-empty data to a buffer that
holds a well-formed run succeeds and yields a buffer that holds the longer run. -/
theorem append_new_holds (b : BleAdvData) (es : List (Byte × List Byte)) (type : Byte)
    (d : List Byte) (hwf : WellFormed (es ++ [(type, d)])) (h : Holds b es)
    (hdl : b.data.length = BLE_MAX_ADV_DATA_LEN) :
    (append type (some d) b).1 = SystemError.NONE ∧
      Holds (append type (some d) b).2 (es ++ [(type, d)]) ∧
      (append type (some d) b).2.data.length = BLE_MAX_ADV_DATA_LEN := by
  have hall := wellFormed_bounds _ hwf
  have hes : ∀ e ∈ es, 1 ≤ e.2.length ∧ e.2.length ≤ 254 :=
    fun e he => hall e (List.mem_append_left _ he)
  have hnd : (List.map Prod.fst (es ++ [(type, d)])).Nodup := hwf.1
  rw [List.map_append] at hnd
  have hnew : ∀ e ∈ es, e.1 ≠ type := by
    intro e he heq
    have hdis := (List.nodup_append.mp hnd).2.2
    exact hdis (List.mem_map.mpr ⟨e, he, heq⟩) (by simp)
  have htot : (encode es).length + (d.length + 2) ≤ 31 := by
    have := hwf.2.2
    simp only [encode_append, encode, List.length_append, encodeAds_length,
      List.append_nil] at this
    exact this
  have hloc : b.locate type = none := by
    rw [holds_locate b es type hes h, locSpec_absent _ _ _ hnew]
  obtain ⟨junk, hd⟩ := holds_data_junk b es h
  have hlen : b.len = (encode es).length := h.1
  have hj : junk.length = 31 - (encode es).length := by
    have := congrArg List.length hd
    rw [hdl, List.length_append] at this
    unfold BLE_MAX_ADV_DATA_LEN at this
    omega
  obtain ⟨j0, j1, rest, rfl⟩ : ∃ j0 j1 rest, junk = j0 :: j1 :: rest := by
    match junk, hj with
    | [], hj => simp only [List.length_nil] at hj; omega
    | [_], hj => simp only [List.length_cons, List.length_nil] at hj; omega
    | j0 :: j1 :: rest, _ => exact ⟨j0, j1, rest, rfl⟩
  simp only [List.length_cons] at hj
  have hset : ((b.data.set b.len (toByte (d.length + 1))).set (b.len + 1) type) =
      encode es ++ toByte (d.length + 1) :: type :: rest := by
    rw [hd, hlen, List.set_append_right _ _ (le_refl _), Nat.sub_self, List.set_cons_zero,
      List.set_append_right _ _ (by omega)]
    have e1 : (encode es).length + 1 - (encode es).length = 1 := by omega
    rw [e1]
    rfl
  have hres : append type (some d) b = (SystemError.NONE,
      ⟨encode es ++ (toByte (d.length + 1) :: type :: (d ++ rest.drop d.length)),
        b.len + 1 + 1 + d.length⟩) := by
    unfold append
    simp only
    rw [hloc]
    simp only
    rw [if_pos (by unfold BLE_MAX_ADV_DATA_LEN; omega), hset]
    congr 2
    unfold memcpy
    rw [hlen]
    have t1 : List.take ((encode es).length + 1 + 1)
        (encode es ++ toByte (d.length + 1) :: type :: rest) =
        encode es ++ [toByte (d.length + 1), type] := by
      have e2 : encode es ++ toByte (d.length + 1) :: type :: rest =
          (encode es ++ [toByte (d.length + 1), type]) ++ rest := by simp
      rw [e2]
      exact List.take_left' (by simp)
    have t2 : List.drop ((encode es).length + 1 + 1 + d.length)
        (encode es ++ toByte (d.length + 1) :: type :: rest) = rest.drop d.length := by
      have e3 : (encode es).length + 1 + 1 + d.length = (encode es).length + (d.length + 2) := by
        omega
      rw [e3, List.drop_append]
      rfl
    rw [t1, t2, List.drop_zero, List.take_length]
    simp
  rw [hres]
  refine ⟨rfl, ⟨?_, ?_⟩, ?_⟩
  · simp only [encode_append, encode, List.length_append, encodeAds_length, List.append_nil]
    omega
  · simp only
    have e4 : encode es ++ toByte (d.length + 1) :: type :: (d ++ List.drop d.length rest) =
        encode (es ++ [(type, d)]) ++ List.drop d.length rest := by
      simp [encode_append, encode, encodeAds]
    rw [e4]
    apply List.take_left'
    simp only [encode_append, encode, List.length_append, encodeAds_length, List.append_nil]
    omega
  · simp only [List.length_append, List.length_cons, List.length_drop]
    unfold BLE_MAX_ADV_DATA_LEN
    omega

/-- Appending, to an empty buffer, structures of pairwise distinct types with
non-empty data that together fit in 31 bytes: every call succeeds and the
buffer then holds exactly that run. -/
theorem appendAll_holds :
    ∀ (todo done : List (Byte × List Byte)) (b : BleAdvData),
      WellFormed (done ++ todo) → Holds b done →
      b.data.length = BLE_MAX_ADV_DATA_LEN →
      (appendAll todo b).1 = true ∧ Holds (appendAll todo b).2 (done ++ todo) := by
  intro todo
  induction todo with
  | nil =>
    intro done b _ h _
    simpa [appendAll] using h
  | cons e es ih =>
    intro done b hwf h hdl
    obtain ⟨t, d⟩ := e
    have hwf1 : WellFormed (done ++ [(t, d)]) := by
      have e1 : done ++ (t, d) :: es = (done ++ [(t, d)]) ++ es := by simp
      rw [e1] at hwf
      refine ⟨?_, ?_, ?_⟩
      · have := hwf.1
        rw [List.map_append] at this
        exact (List.nodup_append.mp this).1
      · intro x hx
        exact hwf.2.1 x (List.mem_append_left _ hx)
      · have := hwf.2.2
        rw [encode_append, List.length_append] at this
        exact le_trans (Nat.le_add_right _ _) this
    obtain ⟨h1, h2, h3⟩ := append_new_holds b done t d hwf1 h hdl
    have e1 : done ++ (t, d) :: es = (done ++ [(t, d)]) ++ es := by simp
    have hrec := ih (done ++ [(t, d)]) (append t (some d) b).2 (by rw [← e1]; exact hwf) h2 h3
    simp only [appendAll]
    rw [e1]
    exact ⟨by simp [h1, hrec.1], hrec.2⟩

/-- When `locate` reports a structure of total size at least 2, `fetch` returns
its data length and copies the front of its data, as much as the capacity allows. -/
theorem fetch_of_locate (b : BleAdvData) (type : Byte) (o L : Nat) (buf : Option (List Byte))
    (cap : Nat) (h : b.locate type = some (o, L)) (hL : 2 ≤ L) :
    b.fetch type buf cap =
      (L - 2, buf.map (fun out => memcpy out 0 b.data (o + 2) (min cap (L - 2)))) := by
  have hs := locate_sound b type o L h
  have hlt : (b.data.getD o 0).val < 256 := (b.data.getD o 0).isLt
  unfold BleAdvData.fetch
  rw [h]
  simp only
  rw [subSize_eq _ _ hL (by unfold SIZE_MOD; omega)]
  have hmin : (if cap > L - 2 then L - 2 else cap) = min cap (L - 2) := by
    split <;> omega
  rw [hmin]

/-- When `locate` reports nothing, `fetch` returns 0 and leaves `buf` alone. -/
theorem fetch_of_absent (b : BleAdvData) (type : Byte) (buf : Option (List Byte)) (cap : Nat)
    (h : b.locate type = none) : b.fetch type buf cap = (0, buf) := by
  unfold BleAdvData.fetch
  rw [h]

/-! ### UUID lemmas -/

theorem memcmpEq_iff (a b : List Byte) (n : Nat) :
    memcmpEq a b n = true ↔ ∀ j, j < n → a.getD j 0 = b.getD j 0 := by
  unfold memcmpEq
  rw [List.all_eq_true]
  constructor
  · intro h j hj
    have := h j (List.mem_range.mpr hj)
    exact beq_iff_eq.mp this
  · intro h j hj
    exact beq_iff_eq.mpr (h j (List.mem_range.mp hj))

theorem toInt_lt (c : Char) : BleUuid.toInt c < 16 := by
  unfold BleUuid.toInt
  have h0 : '0'.toNat = 48 := rfl
  have h9 : '9'.toNat = 57 := rfl
  have ha : 'a'.toNat = 97 := rfl
  have hf : 'f'.toNat = 102 := rfl
  have hA : 'A'.toNat = 65 := rfl
  have hF : 'F'.toNat = 70 := rfl
  rw [h0, h9, ha, hf, hA, hF]
  split
  · omega
  · split
    · omega
    · split <;> omega

theorem toInt_toNat_lt (c : Char) : (BleUuid.toInt c).toNat < 16 := by
  have := toInt_lt c
  omega

theorem shift_or_eq : ∀ h, h < 16 → ∀ l, l < 16 → h <<< 4 ||| l = 16 * h + l := by
  decide

theorem shift_eq (h : Nat) : h <<< 4 = 16 * h := by
  rw [Nat.shiftLeft_eq]; omega

theorem zeroFill_eq (len : Nat) :
    ∀ a : List Byte, len ≤ a.length → zeroFill a len = List.replicate len 0 ++ a.drop len := by
  induction len with
  | zero => intro a _; simp [zeroFill]
  | succ n ih =>
    intro a h
    rw [zeroFill, ih _ (by rw [List.length_set]; omega)]
    have hs : (a.set n 0).drop n = 0 :: a.drop (n + 1) := by
      rw [List.set_eq_take_append_cons_drop, if_pos (by omega)]
      exact List.drop_left' (by rw [List.length_take]; omega)
    rw [hs, List.replicate_succ']
    simp

theorem set_last_free (a : List Byte) (len : Nat) (b : Byte) (h1 : 1 ≤ len)
    (h2 : len ≤ a.length) :
    a.set (len - 1) b = a.take (len - 1) ++ b :: a.drop len := by
  rw [List.set_eq_take_append_cons_drop, if_pos (by omega)]
  have : len - 1 + 1 = len := by omega
  rw [this]

theorem setUuidLoop_sep (c : Char) (cs : List Char) (a : List Byte) (len : Nat)
    (h : BleUuid.toInt c < 0) : setUuidLoop (c :: cs) a len = setUuidLoop cs a len := by
  cases cs with
  | nil => rw [setUuidLoop.eq_2, if_neg (by omega)]
  | cons c2 cs2 => rw [setUuidLoop.eq_3, if_neg (by omega)]

theorem setUuidLoop_pair (h l : Char) (cs : List Char) (a : List Byte) (len : Nat)
    (hh : 0 ≤ BleUuid.toInt h) (hl : 0 ≤ BleUuid.toInt l) :
    setUuidLoop (h :: l :: cs) a len =
      setUuidLoop cs
        (a.set (subSize len 1)
          (toByte (16 * (BleUuid.toInt h).toNat + (BleUuid.toInt l).toNat)))
        (subSize len 1) := by
  rw [setUuidLoop.eq_3, if_pos hh, if_pos hl,
    shift_or_eq _ (toInt_toNat_lt h) _ (toInt_toNat_lt l)]

theorem setUuidLoop_seps (seps : List Char) :
    ∀ (a : List Byte) (len : Nat), (∀ c ∈ seps, BleUuid.toInt c < 0) →
      setUuidLoop seps a len = (a, len) := by
  induction seps with
  | nil => intro a len _; rfl
  | cons c cs ih =>
    intro a len h
    rw [setUuidLoop_sep c cs a len (h c (List.mem_cons_self _ _))]
    exact ih a len (fun x hx => h x (List.mem_cons_of_mem _ hx))

theorem setUuidLoop_tail (h : Char) (seps : List Char) (a : List Byte) (len : Nat)
    (hh : 0 ≤ BleUuid.toInt h) (hs : ∀ c ∈ seps, BleUuid.toInt c < 0) :
    setUuidLoop (h :: seps) a len =
      (a.set (subSize len 1) (toByte (16 * (BleUuid.toInt h).toNat)), subSize len 1) := by
  cases seps with
  | nil => rw [setUuidLoop.eq_2, if_pos hh, shift_eq]
  | cons c cs =>
    have hc := hs c (List.mem_cons_self _ _)
    rw [setUuidLoop.eq_3, if_pos hh, if_neg (by omega), shift_eq]
    exact setUuidLoop_seps cs _ _ (fun x hx => hs x (List.mem_cons_of_mem _ hx))

/-- The loop of `setUuid` over a run of tokens: each pair is stored one index
below the previous one, separators leave the state as it is. -/
theorem setUuidLoop_tokens :
    ∀ (ts : List UuidToken) (rest : List Char) (a : List Byte) (len : Nat),
      (∀ t ∈ ts, t.Ok) → (pairBytes ts).length ≤ len → len ≤ a.length → len < SIZE_MOD →
      setUuidLoop (tokenText ts ++ rest) a len =
        setUuidLoop rest
          (a.take (len - (pairBytes ts).length) ++ ((pairBytes ts).reverse ++ a.drop len))
          (len - (pairBytes ts).length) := by
  intro ts
  induction ts with
  | nil =>
    intro rest a len _ _ _ _
    simp [tokenText, pairBytes]
  | cons t ts ih =>
    intro rest a len hok hk hlen hsz
    have hts : ∀ x ∈ ts, x.Ok := fun x hx => hok x (List.mem_cons_of_mem _ hx)
    have ht := hok t (List.mem_cons_self _ _)
    cases t with
    | sep c =>
      have hc : BleUuid.toInt c < 0 := ht
      simp only [tokenText, UuidToken.chars, pairBytes, List.cons_append, List.nil_append]
      rw [setUuidLoop_sep c _ a len hc]
      exact ih rest a len hts hk hlen hsz
    | pair h l =>
      have hp : 0 ≤ BleUuid.toInt h ∧ 0 ≤ BleUuid.toInt l := ht
      simp only [tokenText, UuidToken.chars, pairBytes, List.cons_append, List.nil_append,
        List.length_cons] at hk ⊢
      rw [setUuidLoop_pair h l _ a len hp.1 hp.2,
        subSize_eq len 1 (by omega) hsz, set_last_free a len _ (by omega) hlen]
      rw [ih rest _ (len - 1) hts (by omega)
        (by simp only [List.length_append, List.length_take, List.length_cons,
              List.length_drop]; omega) (by omega)]
      have e1 : len - 1 - (pairBytes ts).length = len - ((pairBytes ts).length + 1) := by omega
      have t1 : List.take (len - ((pairBytes ts).length + 1))
          (List.take (len - 1) a ++
            toByte (16 * (BleUuid.toInt h).toNat + (BleUuid.toInt l).toNat) :: List.drop len a) =
          List.take (len - ((pairBytes ts).length + 1)) a := by
        rw [List.take_append_of_le_length (by rw [List.length_take]; omega), List.take_take]
        congr 1
        omega
      have t2 : List.drop (len - 1)
          (List.take (len - 1) a ++
            toByte (16 * (BleUuid.toInt h).toNat + (BleUuid.toInt l).toNat) :: List.drop len a) =
          toByte (16 * (BleUuid.toInt h).toNat + (BleUuid.toInt l).toNat) :: List.drop len a :=
        List.drop_left' (by rw [List.length_take]; omega)
      rw [e1, t1, t2]
      simp [List.reverse_cons, List.append_assoc]

/-- Closed form of `setUuid` on a text made of pairs, separators between them and
an optional trailing digit: the bytes are stored from index 15 downwards, the
bytes below them are zero. -/
theorem setUuid_closed (u : BleUuid) (ts : List UuidToken) (tail : List Char)
    (hlen : u.fullUuid_.length = BLE_SIG_UUID_128BIT_LEN)
    (hok : ∀ t ∈ ts, t.Ok) (htail : TailOk tail)
    (hk : (pairBytes ts).length + (tailBytes tail).length ≤ BLE_SIG_UUID_128BIT_LEN) :
    u.setUuid (tokenText ts ++ tail) =
      ⟨u.type_, u.order_, u.shortUuid_,
        List.replicate
            (BLE_SIG_UUID_128BIT_LEN - ((pairBytes ts).length + (tailBytes tail).length)) 0 ++
          (pairBytes ts ++ tailBytes tail).reverse⟩ := by
  have h16 : BLE_SIG_UUID_128BIT_LEN = 16 := rfl
  rw [h16] at hlen hk ⊢
  unfold BleUuid.setUuid
  rw [h16, setUuidLoop_tokens ts tail u.fullUuid_ 16 hok (by omega) (by omega)
    (by unfold SIZE_MOD; omega)]
  have hd : List.drop 16 u.fullUuid_ = [] := List.drop_of_length_le (by omega)
  rw [hd, List.append_nil]
  cases tail with
  | nil =>
    simp only [tailBytes, List.length_nil, Nat.add_zero, List.append_nil] at hk ⊢
    rw [setUuidLoop.eq_1]
    simp only
    rw [zeroFill_eq _ _ (by simp only [List.length_append, List.length_take]; omega)]
    congr 2
    exact List.drop_left' (by rw [List.length_take]; omega)
  | cons h seps =>
    have ht : 0 ≤ BleUuid.toInt h ∧ ∀ c ∈ seps, BleUuid.toInt c < 0 := htail
    simp only [tailBytes, List.length_cons, List.length_nil] at hk ⊢
    rw [setUuidLoop_tail h seps _ _ ht.1 ht.2]
    simp only
    rw [subSize_eq _ 1 (by omega) (by unfold SIZE_MOD; omega),
      set_last_free _ _ _ (by omega)
        (by simp only [List.length_append, List.length_take, List.length_reverse]; omega),
      zeroFill_eq _ _ (by
        simp only [List.length_append, List.length_take, List.length_cons, List.length_drop,
          List.length_reverse]; omega)]
    have e1 : 16 - (pairBytes ts).length - 1 = 16 - ((pairBytes ts).length + (0 + 1)) := by omega
    rw [e1]
    congr 2
    rw [List.drop_left' (by
      simp only [List.length_take, List.length_append, List.length_reverse]; omega)]
    rw [List.drop_left' (by rw [List.length_take]; omega)]
    simp

/-- Deleting the characters that are no digits from a token text gives the text
of the pairs alone. -/
theorem filter_tokenText (ts : List UuidToken) (hok : ∀ t ∈ ts, t.Ok) :
    ∃ ps : List UuidToken, (∀ t ∈ ps, t.Ok) ∧ pairBytes ps = pairBytes ts ∧
      (tokenText ts).filter isHexDigit = tokenText ps := by
  induction ts with
  | nil => exact ⟨[], ⟨fun t ht => absurd ht (List.not_mem_nil t), rfl, rfl⟩⟩
  | cons t ts ih =>
    obtain ⟨ps, h1, h2, h3⟩ := ih (fun x hx => hok x (List.mem_cons_of_mem _ hx))
    have ht := hok t (List.mem_cons_self _ _)
    cases t with
    | sep c =>
      have hc : BleUuid.toInt c < 0 := ht
      refine ⟨ps, h1, h2, ?_⟩
      have : isHexDigit c = false := by
        unfold isHexDigit
        exact decide_eq_false (by omega)
      simp [tokenText, UuidToken.chars, List.filter_cons, this, h3]
    | pair h l =>
      have hp : 0 ≤ BleUuid.toInt h ∧ 0 ≤ BleUuid.toInt l := ht
      refine ⟨UuidToken.pair h l :: ps, ?_, ?_, ?_⟩
      · intro x hx
        rcases List.mem_cons.mp hx with rfl | hx
        · exact hp
        · exact h1 x hx
      · simp [pairBytes, h2]
      · have e1 : isHexDigit h = true := by unfold isHexDigit; exact decide_eq_true hp.1
        have e2 : isHexDigit l = true := by unfold isHexDigit; exact decide_eq_true hp.2
        simp [tokenText, UuidToken.chars, List.filter_cons, e1, e2, h3]

theorem filter_tail (tail : List Char) (h : TailOk tail) :
    TailOk (tail.filter isHexDigit) ∧ tailBytes (tail.filter isHexDigit) = tailBytes tail := by
  cases tail with
  | nil => exact ⟨trivial, rfl⟩
  | cons c seps =>
    have ht : 0 ≤ BleUuid.toInt c ∧ ∀ x ∈ seps, BleUuid.toInt x < 0 := h
    have e1 : isHexDigit c = true := by unfold isHexDigit; exact decide_eq_true ht.1
    have e2 : seps.filter isHexDigit = [] := by
      rw [List.filter_eq_nil_iff]
      intro x hx
      have := ht.2 x hx
      unfold isHexDigit
      simp only [decide_eq_true_eq]
      omega
    rw [List.filter_cons, if_pos e1, e2]
    exact ⟨⟨ht.1, fun x hx => absurd hx (List.not_mem_nil x)⟩, rfl⟩

/-! ### Lemmas on reference lists and handles -/

theorem removeReferenceLoop_none (c : Nat) :
    ∀ (fuel i : Nat) (refs : List BleCharacteristicRef),
      (∀ e ∈ refs, e.charPtr ≠ c) → removeReferenceLoop c fuel i refs = refs := by
  intro fuel
  induction fuel with
  | zero => intro i refs _; rfl
  | succ n ih =>
    intro i refs h
    rw [removeReferenceLoop]
    cases hi : refs[i]? with
    | none => rfl
    | some e =>
      simp only
      have he : e ∈ refs := List.getElem?_mem hi
      rw [if_neg (h e he)]
      exact ih (i + 1) refs h

theorem eraseP_named (pre post : List BleCharacteristicRef) (e : BleCharacteristicRef)
    (hpre : ∀ x ∈ pre, x.charPtr ≠ e.charPtr) :
    (pre ++ e :: post).eraseP (fun x => x.opEq e) = pre ++ post := by
  rw [List.eraseP_append_right]
  · rw [List.eraseP_cons_of_pos]
    simp [BleCharacteristicRef.opEq]
  · intro x hx
    have := hpre x hx
    simp only [BleCharacteristicRef.opEq, decide_eq_true_eq]
    exact fun h => this h.symm

/-- The loop of `removeReference` on a list that names the handle exactly once
deletes that entry and nothing else. -/
theorem removeReferenceLoop_once (c : Nat) (pre post : List BleCharacteristicRef)
    (e : BleCharacteristicRef) (he : e.charPtr = c)
    (hpre : ∀ x ∈ pre, x.charPtr ≠ c) (hpost : ∀ x ∈ post, x.charPtr ≠ c) :
    ∀ (fuel i : Nat), i ≤ pre.length → pre.length - i < fuel →
      removeReferenceLoop c fuel i (pre ++ e :: post) = pre ++ post := by
  intro fuel
  induction fuel with
  | zero => intro i _ h; omega
  | succ n ih =>
    intro i hi hf
    rw [removeReferenceLoop]
    rcases Nat.lt_or_ge i pre.length with hlt | hge
    · have hget : (pre ++ e :: post)[i]? = pre[i]? := List.getElem?_append_left hlt
      have hsome : pre[i]? = some pre[i] := List.getElem?_eq_getElem hlt
      rw [hget, hsome]
      simp only
      rw [if_neg (hpre _ (List.getElem_mem hlt))]
      exact ih (i + 1) (by omega) (by omega)
    · have hie : i = pre.length := by omega
      have hget : (pre ++ e :: post)[i]? = some e := by
        rw [hie, List.getElem?_append_right (le_refl _)]
        simp
      rw [hget]
      simp only
      rw [if_pos he, eraseP_named pre post e (by rw [he]; exact hpre)]
      apply removeReferenceLoop_none
      intro x hx
      rcases List.mem_append.mp hx with h | h
      · exact hpre x h
      · exact hpost x h

/-- Once the index has reached the size of the list the loop of `removeReference`
is over, so a larger budget changes nothing. -/
theorem removeReferenceLoop_fuel (c : Nat) :
    ∀ (fuel i : Nat) (refs : List BleCharacteristicRef), refs.length ≤ fuel + i →
      ∀ k, removeReferenceLoop c (fuel + k) i refs = removeReferenceLoop c fuel i refs := by
  intro fuel
  induction fuel with
  | zero =>
    intro i refs h k
    rw [Nat.zero_add]
    cases k with
    | zero => rfl
    | succ k =>
      rw [removeReferenceLoop, removeReferenceLoop]
      have : refs[i]? = none := List.getElem?_eq_none (by omega)
      rw [this]
  | succ n ih =>
    intro i refs h k
    have e : n + 1 + k = (n + k) + 1 := by omega
    rw [e, removeReferenceLoop, removeReferenceLoop]
    cases hi : refs[i]? with
    | none => rfl
    | some x =>
      simp only
      split
      · apply ih
        have := @List.length_eraseP_le _ (fun e => e.opEq x) refs
        omega
      · apply ih
        omega

theorem isReferenceStubIn_append (c : Nat) (pre rest : List BleCharacteristicRef)
    (hpre : ∀ x ∈ pre, x.charPtr ≠ c) :
    isReferenceStubIn c (pre ++ rest) = isReferenceStubIn c rest := by
  induction pre with
  | nil => rfl
  | cons x xs ih =>
    simp only [List.cons_append, isReferenceStubIn]
    rw [if_neg (hpre x (List.mem_cons_self _ _))]
    exact ih (fun y hy => hpre y (List.mem_cons_of_mem _ hy))

theorem isReferenceStubIn_absent (c : Nat) (refs : List BleCharacteristicRef)
    (h : ∀ x ∈ refs, x.charPtr ≠ c) : isReferenceStubIn c refs = false := by
  induction refs with
  | nil => rfl
  | cons x xs ih =>
    simp only [isReferenceStubIn]
    rw [if_neg (h x (List.mem_cons_self _ _))]
    exact ih (fun y hy => h y (List.mem_cons_of_mem _ hy))

theorem stubCountIn_append (a b : List BleCharacteristicRef) :
    stubCountIn (a ++ b) = stubCountIn a + stubCountIn b := by
  induction a with
  | nil => simp [stubCountIn]
  | cons x xs ih =>
    simp only [List.cons_append, stubCountIn, List.append_eq, ih]
    omega

/-- A stub entry in the list makes the stub count positive. -/
theorem stubCountIn_pos (refs : List BleCharacteristicRef) (e : BleCharacteristicRef)
    (he : e ∈ refs) (hs : e.isStub = true) : 1 ≤ stubCountIn refs := by
  induction refs with
  | nil => cases he
  | cons x xs ih =>
    simp only [stubCountIn]
    rcases List.mem_cons.mp he with rfl | h
    · rw [if_pos hs]; omega
    · have := ih h
      omega

/-- When the first entry naming a handle is a stub, some entry naming it is one. -/
theorem isReferenceStubIn_true (c : Nat) (refs : List BleCharacteristicRef)
    (h : isReferenceStubIn c refs = true) :
    ∃ e ∈ refs, e.charPtr = c ∧ e.isStub = true := by
  induction refs with
  | nil => cases h
  | cons x xs ih =>
    simp only [isReferenceStubIn] at h
    by_cases hx : x.charPtr = c
    · rw [if_pos hx] at h
      exact ⟨x, List.mem_cons_self _ _, hx, h⟩
    · rw [if_neg hx] at h
      obtain ⟨e, he, h1, h2⟩ := ih h
      exact ⟨e, List.mem_cons_of_mem _ he, h1, h2⟩

theorem detachOthers_record (this : Nat) :
    ∀ (refs : List BleCharacteristicRef) (h : CharHeap),
      (detachOthers this refs h).record = h.record ∧
        (detachOthers this refs h).fresh = h.fresh := by
  intro refs
  induction refs with
  | nil => intro h; exact ⟨rfl, rfl⟩
  | cons x xs ih =>
    intro h
    simp only [detachOthers]
    split
    · exact ih _
    · exact ih _

/-- After the detaching loop a handle has no record when the list names it and it
is not `this`; every other handle keeps what it had. -/
theorem detachOthers_impl (this : Nat) :
    ∀ (refs : List BleCharacteristicRef) (h : CharHeap) (g : Nat),
      (detachOthers this refs h).impl_ g =
        if g ≠ this ∧ ∃ e ∈ refs, e.charPtr = g then none else h.impl_ g := by
  intro refs
  induction refs with
  | nil =>
    intro h g
    simp [detachOthers]
  | cons x xs ih =>
    intro h g
    simp only [detachOthers]
    by_cases hx : x.charPtr = this
    · rw [if_neg (by simpa using hx), ih]
      by_cases hg : g ≠ this ∧ ∃ e ∈ xs, e.charPtr = g
      · rw [if_pos hg, if_pos ⟨hg.1, by
          obtain ⟨e, he, h1⟩ := hg.2
          exact ⟨e, List.mem_cons_of_mem _ he, h1⟩⟩]
      · rw [if_neg hg, if_neg]
        rintro ⟨h1, e, he, h2⟩
        rcases List.mem_cons.mp he with rfl | he
        · exact h1 (h2 ▸ hx)
        · exact hg ⟨h1, e, he, h2⟩
    · rw [if_pos hx, ih]
      by_cases hg : g ≠ this ∧ ∃ e ∈ xs, e.charPtr = g
      · rw [if_pos hg, if_pos ⟨hg.1, by
          obtain ⟨e, he, h1⟩ := hg.2
          exact ⟨e, List.mem_cons_of_mem _ he, h1⟩⟩]
      · rw [if_neg hg]
        by_cases hgx : g = x.charPtr
        · rw [if_pos ⟨by rw [hgx]; exact hx, x, List.mem_cons_self _ _, hgx.symm⟩]
          simp [CharHeap.setImpl, hgx]
        · rw [if_neg]
          · simp [CharHeap.setImpl, hgx]
          · rintro ⟨h1, e, he, h2⟩
            rcases List.mem_cons.mp he with rfl | he
            · exact hgx h2.symm
            · exact hg ⟨h1, e, he, h2⟩

/-- A list that names a handle at most once either does not name it, or splits
around the one entry that does. -/
theorem split_named (c : Nat) :
    ∀ refs : List BleCharacteristicRef,
      refs.countP (fun e => decide (e.charPtr = c)) ≤ 1 →
      (∀ e ∈ refs, e.charPtr ≠ c) ∨
      ∃ pre e post, refs = pre ++ e :: post ∧ e.charPtr = c ∧
        (∀ x ∈ pre, x.charPtr ≠ c) ∧ (∀ x ∈ post, x.charPtr ≠ c) := by
  intro refs
  induction refs with
  | nil => intro _; left; intro e he; cases he
  | cons x xs ih =>
    intro h
    rw [List.countP_cons] at h
    by_cases hx : x.charPtr = c
    · right
      have h0 : xs.countP (fun e => decide (e.charPtr = c)) = 0 := by
        simp only [hx, decide_True, if_true] at h
        omega
      rw [List.countP_eq_zero] at h0
      refine ⟨[], x, xs, rfl, hx, fun y hy => absurd hy (List.not_mem_nil y), ?_⟩
      intro y hy
      have := h0 y hy
      simpa using this
    · have h1 : xs.countP (fun e => decide (e.charPtr = c)) ≤ 1 := by omega
      rcases ih h1 with hn | ⟨pre, e, post, h2, h3, h4, h5⟩
      · left
        intro y hy
        rcases List.mem_cons.mp hy with rfl | hy
        · exact hx
        · exact hn y hy
      · right
        refine ⟨x :: pre, e, post, by rw [h2]; rfl, h3, ?_, h5⟩
        intro y hy
        rcases List.mem_cons.mp hy with rfl | hy
        · exact hx
        · exact h4 y hy

theorem filter_not_named (c : Nat) (l : List BleCharacteristicRef)
    (h : ∀ x ∈ l, x.charPtr ≠ c) : l.filter (fun e => decide (e.charPtr ≠ c)) = l := by
  rw [List.filter_eq_self]
  intro x hx
  exact decide_eq_true (h x hx)

/-- On a list that names the handle at most once, `removeReference` leaves exactly
the entries that do not name it. -/
theorem removeReference_once (r : BleCharacteristicImpl) (c : Nat)
    (honce : r.references.countP (fun e => decide (e.charPtr = c)) ≤ 1) :
    (r.removeReference c).references =
      r.references.filter (fun e => decide (e.charPtr ≠ c)) := by
  unfold BleCharacteristicImpl.removeReference
  simp only
  rcases split_named c r.references honce with hn | ⟨pre, e, post, h1, h2, h3, h4⟩
  · rw [removeReferenceLoop_none c _ _ _ hn, filter_not_named c _ hn]
  · rw [h1, removeReferenceLoop_once c pre post e h2 h3 h4 _ 0 (Nat.zero_le _)
      (by simp only [List.length_append, List.length_cons]; omega)]
    rw [List.filter_append, List.filter_cons, filter_not_named c pre h3,
      filter_not_named c post h4, if_neg (by simp [h2])]

/-- On a list that names the handle at most once, `isReferenceStub` is true exactly
when the list has a stub entry naming the handle. -/
theorem isReferenceStub_once (refs : List BleCharacteristicRef) (c : Nat)
    (honce : refs.countP (fun e => decide (e.charPtr = c)) ≤ 1) :
    isReferenceStubIn c refs = true ↔ ∃ e ∈ refs, e.charPtr = c ∧ e.isStub = true := by
  constructor
  · exact isReferenceStubIn_true c refs
  · rintro ⟨e, he, h1, h2⟩
    rcases split_named c refs honce with hn | ⟨pre, x, post, h3, h4, h5, h6⟩
    · exact absurd h1 (hn e he)
    · rw [h3] at he ⊢
      rw [isReferenceStubIn_append c pre _ h5]
      simp only [isReferenceStubIn]
      rw [if_pos h4]
      rcases List.mem_append.mp he with hp | hp
      · exact absurd h1 (h5 e hp)
      · rcases List.mem_cons.mp hp with rfl | hq
        · exact h2
        · exact absurd h1 (h6 e hq)

/-- Copy-constructing a handle `b` from a handle `a` that has a record enters `b`
at the end of the reference list with the tag of `a`; destroying `b` again
restores the record. -/
theorem copy_dtor_restores (h : CharHeap) (a b id : Nat) (ha : h.impl_ a = some id)
    (hab : a ≠ b) (hb : ∀ e ∈ (h.record id).references, e.charPtr ≠ b) :
    ((BleCharacteristic.copyCtor h b a).record id).references =
        (h.record id).references ++ [⟨b, (h.record id).isReferenceStub a⟩] ∧
      (BleCharacteristic.copyCtor h b a).impl_ b = some id ∧
      (BleCharacteristic.copyCtor h b a).impl_ a = some id ∧
      (BleCharacteristic.dtor (BleCharacteristic.copyCtor h b a) b).record id = h.record id ∧
      (BleCharacteristic.dtor (BleCharacteristic.copyCtor h b a) b).impl_ a = some id ∧
      (BleCharacteristic.dtor (BleCharacteristic.copyCtor h b a) b).impl_ b = none := by
  have hcopy : BleCharacteristic.copyCtor h b a =
      (h.setImpl b (some id)).setRecord id
        ((h.record id).addReference b ((h.record id).isReferenceStub a)) := by
    unfold BleCharacteristic.copyCtor
    rw [ha]
  have hrec : ((h.setImpl b (some id)).setRecord id
      ((h.record id).addReference b ((h.record id).isReferenceStub a))).record id =
      (h.record id).addReference b ((h.record id).isReferenceStub a) := by
    simp [CharHeap.setRecord]
  have himplb : ((h.setImpl b (some id)).setRecord id
      ((h.record id).addReference b ((h.record id).isReferenceStub a))).impl_ b = some id := by
    simp [CharHeap.setRecord, CharHeap.setImpl]
  have himpla : ((h.setImpl b (some id)).setRecord id
      ((h.record id).addReference b ((h.record id).isReferenceStub a))).impl_ a = some id := by
    simp [CharHeap.setRecord, CharHeap.setImpl, hab, ha]
  have hcond : ¬ (((h.record id).addReference b
        ((h.record id).isReferenceStub a)).isReferenceStub b = true ∧
      ((h.record id).addReference b
        ((h.record id).isReferenceStub a)).referenceStubCount = 1) := by
    rintro ⟨h1, h2⟩
    simp only [BleCharacteristicImpl.isReferenceStub, BleCharacteristicImpl.addReference,
      BleCharacteristicImpl.referenceStubCount] at h1 h2
    rw [isReferenceStubIn_append b _ _ hb] at h1
    simp only [isReferenceStubIn, if_true] at h1
    obtain ⟨e, he, _, hs⟩ := isReferenceStubIn_true a _ h1
    have hpos := stubCountIn_pos _ e he hs
    rw [stubCountIn_append, h1] at h2
    simp only [stubCountIn, if_true] at h2
    omega
  have hrem : (((h.record id).addReference b
      ((h.record id).isReferenceStub a)).removeReference b) = h.record id := by
    unfold BleCharacteristicImpl.removeReference BleCharacteristicImpl.addReference
    simp only
    rw [removeReferenceLoop_once b (h.record id).references [] _ rfl hb
      (fun x hx => absurd hx (List.not_mem_nil x)) _ 0 (Nat.zero_le _)
      (by simp only [List.length_append, List.length_cons, List.length_nil]; omega)]
    simp
  have hdtor : BleCharacteristic.dtor (BleCharacteristic.copyCtor h b a) b =
      (((h.setImpl b (some id)).setRecord id
        ((h.record id).addReference b ((h.record id).isReferenceStub a))).setRecord id
          (h.record id)).setImpl b none := by
    unfold BleCharacteristic.dtor BleCharacteristic.release
    rw [hcopy, himplb]
    simp only
    rw [hrec, if_neg hcond, hrem]
  refine ⟨?_, ?_, ?_, ?_, ?_, ?_⟩
  · rw [hcopy, hrec]; rfl
  · rw [hcopy]; exact himplb
  · rw [hcopy]; exact himpla
  · rw [hdtor]; simp [CharHeap.setRecord, CharHeap.setImpl]
  · rw [hdtor]; simp [CharHeap.setRecord, CharHeap.setImpl, hab, ha]
  · rw [hdtor]; simp [CharHeap.setRecord, CharHeap.setImpl]

theorem release_detach_eq (h : CharHeap) (this id : Nat) (hatt : h.impl_ this = some id)
    (hc : (h.record id).isReferenceStub this = true ∧ (h.record id).referenceStubCount = 1) :
    BleCharacteristic.release h this = detachOthers this (h.record id).references h := by
  unfold BleCharacteristic.release
  rw [hatt]
  simp only
  rw [if_pos hc]

theorem release_remove_eq (h : CharHeap) (this id : Nat) (hatt : h.impl_ this = some id)
    (hc : ¬ ((h.record id).isReferenceStub this = true ∧
      (h.record id).referenceStubCount = 1)) :
    BleCharacteristic.release h this =
      h.setRecord id ((h.record id).removeReference this) := by
  unfold BleCharacteristic.release
  rw [hatt]
  simp only
  rw [if_neg hc]

/-- A completed assignment leaves the `impl_` of every handle other than its
target as the shared first block left it. -/
theorem assign_impl_frame (h : CharHeap) (this src : Nat) (h1 : CharHeap)
    (he : BleCharacteristic.assign h this src = some h1) (g : Nat) (hg : g ≠ this) :
    h1.impl_ g = (BleCharacteristic.release h this).impl_ g := by
  unfold BleCharacteristic.assign at he
  simp only at he
  cases hs : (BleCharacteristic.release h this).impl_ src with
  | none => rw [hs] at he; cases he
  | some id2 =>
    rw [hs] at he
    simp only [Option.some.injEq] at he
    rw [← he]
    simp [CharHeap.setRecord, CharHeap.setImpl, hg]

/-- A completed assignment changes the reference list of a record at most by one
new entry for its target at the end. -/
theorem assign_refs (h : CharHeap) (this src : Nat) (h1 : CharHeap)
    (he : BleCharacteristic.assign h this src = some h1) (id : Nat) :
    (h1.record id).references = ((BleCharacteristic.release h this).record id).references ∨
      ∃ tag, (h1.record id).references =
        ((BleCharacteristic.release h this).record id).references ++ [⟨this, tag⟩] := by
  unfold BleCharacteristic.assign at he
  simp only at he
  cases hs : (BleCharacteristic.release h this).impl_ src with
  | none => rw [hs] at he; cases he
  | some id2 =>
    rw [hs] at he
    simp only [Option.some.injEq] at he
    rw [← he]
    by_cases hid : id = id2
    · right
      subst hid
      simp only [CharHeap.setRecord, CharHeap.setImpl, if_true,
        BleCharacteristicImpl.addReference]
      split
      · exact ⟨_, rfl⟩
      · exact ⟨_, rfl⟩
    · left
      simp [CharHeap.setRecord, CharHeap.setImpl, hid]

/-! ### The subscriber loop of `setValue` -/

/-- With NOTIFY or INDICATE set, when the pushes of the first `k` iterations
succeed and the push of iteration `k` (if there is one) fails, the loop calls
the push primitive for the first `k + 1` subscribers in order and runs to its
end exactly when `k` is the number of subscribers. -/
theorem pushLoop_prefix (hal : Hal) (properties valueHandle : Nat) (value : List Byte)
    (hprop : properties &&& PROPERTY.NOTIFY ≠ 0 ∨ properties &&& PROPERTY.INDICATE ≠ 0) :
    ∀ (subs : List Nat) (i k : Nat), k ≤ subs.length →
      (∀ j, j < k → hal.push (i + j) (subs.getD j 0) = 0) →
      (k < subs.length → hal.push (i + k) (subs.getD k 0) ≠ 0) →
      pushLoop hal properties valueHandle value i subs =
        (decide (k = subs.length),
          (subs.take (k + 1)).map (pushCall properties valueHandle value)) := by
  intro subs
  induction subs with
  | nil =>
    intro i k hk _ _
    have : k = 0 := by simpa using hk
    subst this
    simp [pushLoop]
  | cons conn rest ih =>
    intro i k hk hok hfail
    cases k with
    | zero =>
      have hf : hal.push i conn ≠ 0 := by simpa using hfail (by simp)
      by_cases hn : properties &&& PROPERTY.NOTIFY ≠ 0
      · simp [pushLoop, pushCall, hn, hf]
      · have hi : properties &&& PROPERTY.INDICATE ≠ 0 := hprop.resolve_left hn
        simp [pushLoop, pushCall, hn, hi, hf]
    | succ k =>
      have h0 : hal.push i conn = 0 := by simpa using hok 0 (by omega)
      have hk2 : k ≤ rest.length := by simpa using hk
      have hrec := ih (i + 1) k hk2
        (fun j hj => by
          have := hok (j + 1) (by omega)
          simpa [Nat.add_assoc, Nat.add_comm 1 j] using this)
        (fun hlt => by
          have := hfail (by simpa using hlt)
          simpa [Nat.add_assoc, Nat.add_comm 1 k] using this)
      by_cases hn : properties &&& PROPERTY.NOTIFY ≠ 0
      · simp [pushLoop, pushCall, hn, h0, hrec]
      · have hi : properties &&& PROPERTY.INDICATE ≠ 0 := hprop.resolve_left hn
        simp [pushLoop, pushCall, hn, hi, h0, hrec]

/-- When every push succeeds the loop runs to its end. -/
theorem pushLoop_ok (hal : Hal) (properties valueHandle : Nat) (value : List Byte) :
    ∀ (subs : List Nat) (i : Nat),
      (∀ j, j < subs.length → hal.push (i + j) (subs.getD j 0) = 0) →
      (pushLoop hal properties valueHandle value i subs).1 = true := by
  intro subs
  induction subs with
  | nil => intro i _; simp [pushLoop]
  | cons conn rest ih =>
    intro i hok
    have h0 : hal.push i conn = 0 := by simpa using hok 0 (by simp)
    have hrec := ih (i + 1) (fun j hj => by
      have := hok (j + 1) (by simpa using hj)
      simpa [Nat.add_assoc, Nat.add_comm 1 j] using this)
    by_cases hn : properties &&& PROPERTY.NOTIFY ≠ 0
    · simp [pushLoop, hn, h0, hrec]
    · by_cases hi : properties &&& PROPERTY.INDICATE ≠ 0
      · simp [pushLoop, hn, hi, h0, hrec]
      · simp [pushLoop, hn, hi, hrec]

/-- With NOTIFY or INDICATE set, when the push of some iteration fails the loop
does not run to its end. -/
theorem pushLoop_fail (hal : Hal) (properties valueHandle : Nat) (value : List Byte)
    (hprop : properties &&& PROPERTY.NOTIFY ≠ 0 ∨ properties &&& PROPERTY.INDICATE ≠ 0) :
    ∀ (subs : List Nat) (i : Nat),
      (∃ j, j < subs.length ∧ hal.push (i + j) (subs.getD j 0) ≠ 0) →
      (pushLoop hal properties valueHandle value i subs).1 = false := by
  intro subs
  induction subs with
  | nil => intro i ⟨j, hj, _⟩; simp at hj
  | cons conn rest ih =>
    intro i ⟨j, hj, hf⟩
    by_cases h0 : hal.push i conn = 0
    · have hrec : (pushLoop hal properties valueHandle value (i + 1) rest).1 = false := by
        apply ih
        cases j with
        | zero => exact absurd (by simpa using h0) hf
        | succ j =>
          refine ⟨j, by simpa using hj, ?_⟩
          simpa [Nat.add_assoc, Nat.add_comm 1 j] using hf
      by_cases hn : properties &&& PROPERTY.NOTIFY ≠ 0
      · simp [pushLoop, hn, h0, hrec]
      · have hi : properties &&& PROPERTY.INDICATE ≠ 0 := hprop.resolve_left hn
        simp [pushLoop, hn, hi, h0, hrec]
    · by_cases hn : properties &&& PROPERTY.NOTIFY ≠ 0
      · simp [pushLoop, hn, h0]
      · have hi : properties &&& PROPERTY.INDICATE ≠ 0 := hprop.resolve_left hn
        simp [pushLoop, hn, hi, h0]

/-- Every call of the subscriber loop is a push. -/
theorem pushLoop_calls (hal : Hal) (properties valueHandle : Nat) (value : List Byte) :
    ∀ (subs : List Nat) (i : Nat) (c : HalCall),
      c ∈ (pushLoop hal properties valueHandle value i subs).2 →
      ∃ conn, conn ∈ subs ∧ c = pushCall properties valueHandle value conn := by
  intro subs
  induction subs with
  | nil => intro i c hc; simp [pushLoop] at hc
  | cons conn rest ih =>
    intro i c hc
    by_cases hn : properties &&& PROPERTY.NOTIFY ≠ 0
    · by_cases h0 : hal.push i conn = 0
      · simp only [pushLoop, hn, h0, if_true, ne_eq, not_true_eq_false, if_false,
          not_false_eq_true, List.mem_cons] at hc
        rcases hc with hc | hc
        · exact ⟨conn, by simp, by simp [pushCall, hn, hc]⟩
        · obtain ⟨x, hx, hxc⟩ := ih (i + 1) c hc
          exact ⟨x, by simp [hx], hxc⟩
      · simp only [pushLoop, hn, h0, if_true, ne_eq, not_false_eq_true,
          List.mem_singleton] at hc
        exact ⟨conn, by simp, by simp [pushCall, hn, hc]⟩
    · by_cases hi : properties &&& PROPERTY.INDICATE ≠ 0
      · by_cases h0 : hal.push i conn = 0
        · simp only [pushLoop, hn, hi, h0, if_true, ne_eq, not_true_eq_false, if_false,
            not_false_eq_true, List.mem_cons] at hc
          rcases hc with hc | hc
          · exact ⟨conn, by simp, by simp [pushCall, hn, hc]⟩
          · obtain ⟨x, hx, hxc⟩ := ih (i + 1) c hc
            exact ⟨x, by simp [hx], hxc⟩
        · simp only [pushLoop, hn, hi, h0, if_true, if_false, ne_eq, not_false_eq_true,
            List.mem_singleton] at hc
          exact ⟨conn, by simp, by simp [pushCall, hn, hc]⟩
      · simp only [pushLoop, hn, hi, if_false] at hc
        obtain ⟨x, hx, hxc⟩ := ih (i + 1) c hc
        exact ⟨x, by simp [hx], hxc⟩

/-- With neither NOTIFY nor INDICATE set the loop makes no call and runs to its
end. -/
theorem pushLoop_noprop (hal : Hal) (properties valueHandle : Nat) (value : List Byte)
    (hn : ¬ properties &&& PROPERTY.NOTIFY ≠ 0) (hi : ¬ properties &&& PROPERTY.INDICATE ≠ 0) :
    ∀ (subs : List Nat) (i : Nat),
      pushLoop hal properties valueHandle value i subs = (true, []) := by
  intro subs
  induction subs with
  | nil => intro i; simp [pushLoop]
  | cons conn rest ih =>
    intro i
    simp only [pushLoop, hn, hi, if_false]
    exact ih (i + 1)

/-- The length cap of `setValue` is the minimum. -/
theorem cap_eq_min (a m : Nat) : (if a > m then m else a) = min a m := by
  split <;> omega

/-! ### Lemmas on registration -/

/-- Storing a handle copy changes `impl_` at the slot only. -/
theorem storeCharacteristic_impl (h : CharHeap) (svc c slot id : Nat)
    (hc : h.impl_ c = some id) (a : Nat) :
    (BleServiceImpl.storeCharacteristic h svc c slot).impl_ a =
      if a = slot then some id else h.impl_ a := by
  simp only [BleServiceImpl.storeCharacteristic, hc, BleCharacteristic.copyCtor,
    CharHeap.setRecord, CharHeap.setImpl, if_true]

/-- Storing a handle copy leaves every record but the one of the handle as it was. -/
theorem storeCharacteristic_other (h : CharHeap) (svc c slot id : Nat)
    (hc : h.impl_ c = some id) (k : Nat) (hk : k ≠ id) :
    (BleServiceImpl.storeCharacteristic h svc c slot).record k = h.record k := by
  simp [BleServiceImpl.storeCharacteristic, hc, BleCharacteristic.copyCtor,
    CharHeap.setRecord, CharHeap.setImpl, hk]

/-- Storing a handle copy changes `svcImpl` and the reference list of the record and
nothing else in it. -/
theorem storeCharacteristic_record (h : CharHeap) (svc c slot id : Nat)
    (hc : h.impl_ c = some id) :
    ∃ refs, (BleServiceImpl.storeCharacteristic h svc c slot).record id =
      { h.record id with svcImpl := some svc, references := refs } := by
  simp [BleServiceImpl.storeCharacteristic, hc, BleCharacteristic.copyCtor,
    CharHeap.setRecord, CharHeap.setImpl, BleCharacteristicImpl.addReference,
    BleCharacteristicImpl.markReferenceAsStub]

theorem and_255 (n : Nat) : n &&& 0x00FF = n % 256 :=
  Nat.and_pow_two_sub_one_eq_mod n 8

theorem shr_8 (n : Nat) : n >>> 8 = n / 256 := by
  rw [Nat.shiftRight_eq_div_pow]

/-- The UUID made from the reserved base and a 16-bit number, written out. -/
theorem ofBytesU16_base (s : Nat) (order : BleUuidOrder) :
    BleUuid.ofBytesU16 (some BLE_CTRL_REQ_SVC_UUID) s order =
      ⟨BleUuidType.LONG, order, 0,
        if order = BleUuidOrder.LSB then
          [0xfc, 0x36, 0x6f, 0x54, 0x30, 0x80, 0xf4, 0x94, 0xa8, 0x48, 0x4e, 0x5c,
            toByte (s % 256), toByte (s / 256 % 256), 0xa9, 0x6f]
        else
          [0xfc, 0x36, 0x6f, 0x54, 0x30, 0x80, 0xf4, 0x94, 0xa8, 0x48, 0x4e, 0x5c,
            toByte (s / 256 % 256), toByte (s % 256), 0xa9, 0x6f]⟩ := by
  cases order <;>
    simp [BleUuid.ofBytesU16, BLE_CTRL_REQ_SVC_UUID, BLE_SIG_UUID_128BIT_LEN, and_255, shr_8]

/-- The number stored in the bytes 12 and 13 is read back. -/
theorem ofBytesU16_suffix (s : Nat) (order : BleUuidOrder) (hs : s < 65536) :
    (BleUuid.ofBytesU16 (some BLE_CTRL_REQ_SVC_UUID) s order).suffix16 = s := by
  rw [ofBytesU16_base]
  have h1 : (toByte (s % 256)).val = s % 256 := toByte_val _ (Nat.mod_lt _ (by decide))
  have h2 : (toByte (s / 256 % 256)).val = s / 256 % 256 :=
    toByte_val _ (Nat.mod_lt _ (by decide))
  cases order <;> simp [BleUuid.suffix16, h1, h2] <;> omega

/-- Two 128-bit UUIDs that compare equal hold the same number in the bytes 12 and
13. -/
theorem opEq_suffix (a b : BleUuid) (h : a.opEq b = true) (ha : a.type_ = BleUuidType.LONG) :
    a.suffix16 = b.suffix16 := by
  unfold BleUuid.opEq at h
  by_cases hc : a.type_ = b.type_ ∧ a.order_ = b.order_
  · rw [if_pos hc, if_neg (by rw [ha]; decide), memcmpEq_iff] at h
    have h12 := h 12 (by decide)
    have h13 := h 13 (by decide)
    simp only [BleUuid.suffix16, ← hc.2, h12, h13]
  · rw [if_neg hc] at h
    cases h

/-- The comparison `==` of UUIDs does not depend on the side. -/
theorem opEq_comm (a b : BleUuid) : a.opEq b = b.opEq a := by
  have hm : memcmpEq a.fullUuid_ b.fullUuid_ BLE_SIG_UUID_128BIT_LEN =
      memcmpEq b.fullUuid_ a.fullUuid_ BLE_SIG_UUID_128BIT_LEN := by
    rw [Bool.eq_iff_iff, memcmpEq_iff, memcmpEq_iff]
    exact ⟨fun h j hj => (h j hj).symm, fun h j hj => (h j hj).symm⟩
  unfold BleUuid.opEq
  by_cases hc : a.type_ = b.type_ ∧ a.order_ = b.order_
  · have hc2 : b.type_ = a.type_ ∧ b.order_ = a.order_ := ⟨hc.1.symm, hc.2.symm⟩
    rw [if_pos hc, if_pos hc2, hm, ← hc.1]
    by_cases ht : a.type_ = BleUuidType.SHORT
    · rw [if_pos ht, if_pos ht]
      exact decide_eq_decide.mpr ⟨fun h => h.symm, fun h => h.symm⟩
    · rw [if_neg ht, if_neg ht]
  · have hc2 : ¬ (b.type_ = a.type_ ∧ b.order_ = a.order_) :=
      fun h => hc ⟨h.1.symm, h.2.symm⟩
    rw [if_neg hc, if_neg hc2]

/-- What a successful `BleServiceImpl::addCharacteristic` of a local characteristic
does: the checks passed, the UUID of the record is the one
`assignUuidIfNeeded` leaves, the counter is the one it leaves, no other record
changes, `impl_` changes at the slot only, and the slot is appended to the
characteristic list. -/
theorem addCharacteristic_registered (code : SystemError → Int) (order : BleUuidOrder)
    (env : RegEnv) (svc : BleServiceImpl) (w : GattWorld) (c id : Nat)
    (hcode : ∀ e, e ≠ SystemError.NONE → code e ≠ code SystemError.NONE)
    (hc : w.heap.impl_ c = some id) (hl : (w.heap.record id).isLocal = true)
    (hret : (svc.addCharacteristic code order env w c).1 = code SystemError.NONE) :
    (svc.addCharacteristic code order env w c).2.1.defaultUuidCharCount_ =
        ((w.heap.record id).assignUuidIfNeeded order w.defaultUuidCharCount_).2 ∧
      ((svc.addCharacteristic code order env w c).2.1.heap.record id).uuid =
        ((w.heap.record id).assignUuidIfNeeded order w.defaultUuidCharCount_).1.uuid ∧
      (∀ k, k ≠ id →
        (svc.addCharacteristic code order env w c).2.1.heap.record k = w.heap.record k) ∧
      (∀ a, (svc.addCharacteristic code order env w c).2.1.heap.impl_ a =
        if a = env.slot then some id else w.heap.impl_ a) ∧
      (svc.addCharacteristic code order env w c).2.2 =
        { svc with characteristics := svc.characteristics ++ [env.slot] } ∧
      svc.contains w.heap c = false ∧ (w.heap.record id).properties ≠ 0 ∧
      env.stackInitialized = true ∧ env.addCharRet = code SystemError.NONE := by
  by_cases hchk : svc.contains w.heap c = true ∨ (w.heap.record id).properties = 0
  · simp only [BleServiceImpl.addCharacteristic, hc, if_pos hchk] at hret
    exact absurd hret (hcode _ (by decide))
  · by_cases hs : env.stackInitialized = true
    · by_cases hr : env.addCharRet ≠ code SystemError.NONE
      · simp only [BleServiceImpl.addCharacteristic, hc, if_neg hchk, hl, hs, if_true,
          if_pos hr] at hret
        exact absurd hret hr
      · have hr2 : env.addCharRet = code SystemError.NONE := not_not.mp hr
        have hi : (w.heap.setRecord id (((w.heap.record id).assignUuidIfNeeded order
            w.defaultUuidCharCount_).1.setAttrHandles env.attrHandles)).impl_ c = some id := hc
        simp only [BleServiceImpl.addCharacteristic, hc, if_neg hchk, hl, hs, if_true,
          if_neg hr]
        refine ⟨trivial, ?_, ?_, ?_, trivial, ?_, ?_, trivial, hr2⟩
        · obtain ⟨refs, hrec⟩ := storeCharacteristic_record _ svc.addr c env.slot id hi
          rw [hrec]
          simp [CharHeap.setRecord, BleCharacteristicImpl.setAttrHandles]
        · intro k hk
          rw [storeCharacteristic_other _ svc.addr c env.slot id hi k hk]
          simp [CharHeap.setRecord, hk]
        · intro a
          rw [storeCharacteristic_impl _ svc.addr c env.slot id hi a]
          rfl
        · simpa using fun h => hchk (Or.inl h)
        · exact fun h => hchk (Or.inr h)
    · simp only [BleServiceImpl.addCharacteristic, hc, if_neg hchk, hl, hs, if_true] at hret
      simp at hret
      exact absurd hret (hcode _ (by decide))

/-- In the concrete numbering only `SYSTEM_ERROR_NONE` has the number of success. -/
theorem systemErrorValue_ne (e : SystemError) (he : e ≠ SystemError.NONE) :
    systemErrorValue e ≠ systemErrorValue SystemError.NONE := by
  cases e <;> first | exact absurd rfl he | decide

/-! ### Lemmas on the GATT-server model -/

/-- A service found by `service(uuid)` is in the vector and its UUID compares equal. -/
theorem serviceLoop_some (uuid : BleUuid) :
    ∀ (l : List BleServiceImpl) (i : Nat), serviceLoop uuid l = some i →
      ∃ s, l[i]? = some s ∧ s.uuid.opEq uuid = true := by
  intro l
  induction l with
  | nil => intro i h; simp [serviceLoop] at h
  | cons s rest ih =>
    intro i h
    by_cases hs : s.uuid.opEq uuid = true
    · simp only [serviceLoop, hs, if_true, Option.some.injEq] at h
      subst h
      exact ⟨s, by simp, hs⟩
    · rw [serviceLoop, if_neg hs] at h
      cases hr : serviceLoop uuid rest with
      | none => rw [hr] at h; cases h
      | some j =>
        rw [hr] at h
        simp only [Option.map_some', Option.some.injEq] at h
        subst h
        obtain ⟨t, ht, hto⟩ := ih j hr
        exact ⟨t, by simpa using ht, hto⟩

/-- The lookup `service(uuid)` fails exactly when no service has an equal UUID. -/
theorem serviceLoop_none (uuid : BleUuid) :
    ∀ (l : List BleServiceImpl), serviceLoop uuid l = none ↔
      ∀ s ∈ l, s.uuid.opEq uuid = false := by
  intro l
  induction l with
  | nil => simp [serviceLoop]
  | cons s rest ih =>
    by_cases hs : s.uuid.opEq uuid = true
    · simp [serviceLoop, hs]
    · have hs2 : s.uuid.opEq uuid = false := by simpa using hs
      simp [serviceLoop, hs2, ih]

/-- A service that `contains` rejects nothing of has no stored handle with the
record of the characteristic. -/
theorem contains_false (svc : BleServiceImpl) (h : CharHeap) (c id : Nat)
    (hc : h.impl_ c = some id) (hf : svc.contains h c = false) :
    ∀ a ∈ svc.characteristics, h.impl_ a ≠ some id := by
  intro a ha
  simp only [BleServiceImpl.contains, hc, List.any_eq_false, decide_eq_true_eq] at hf
  exact hf a ha

/-- The two outcomes of `BleServiceImpl::addCharacteristic` for the service and the
handles: nothing stored, or the slot appended with the record of the
characteristic, which no stored handle had. -/
theorem addCharacteristic_cases (code : SystemError → Int) (order : BleUuidOrder)
    (env : RegEnv) (svc : BleServiceImpl) (w : GattWorld) (c : Nat) :
    ((svc.addCharacteristic code order env w c).2.2 = svc ∧
        (svc.addCharacteristic code order env w c).2.1.heap.impl_ = w.heap.impl_) ∨
      (∃ id, w.heap.impl_ c = some id ∧ svc.contains w.heap c = false ∧
        (svc.addCharacteristic code order env w c).2.2 =
          { svc with characteristics := svc.characteristics ++ [env.slot] } ∧
        ∀ a, (svc.addCharacteristic code order env w c).2.1.heap.impl_ a =
          if a = env.slot then some id else w.heap.impl_ a) := by
  cases hc : w.heap.impl_ c with
  | none => left; simp only [BleServiceImpl.addCharacteristic, hc, and_self]
  | some id =>
    by_cases hchk : svc.contains w.heap c = true ∨ (w.heap.record id).properties = 0
    · left; simp only [BleServiceImpl.addCharacteristic, hc, if_pos hchk, and_self]
    · have hcf : svc.contains w.heap c = false := by
        simpa using fun h => hchk (Or.inl h)
      by_cases hl : (w.heap.record id).isLocal = true
      · by_cases hs : env.stackInitialized = true
        · by_cases hr : env.addCharRet ≠ code SystemError.NONE
          · left
            simp only [BleServiceImpl.addCharacteristic, hc, if_neg hchk, hl, hs, if_true,
              if_pos hr, true_and]
            rfl
          · right
            refine ⟨id, rfl, hcf, ?_, ?_⟩
            · simp only [BleServiceImpl.addCharacteristic, hc, if_neg hchk, hl, hs, if_true,
                if_neg hr]
            · intro a
              have hi : (w.heap.setRecord id (((w.heap.record id).assignUuidIfNeeded order
                  w.defaultUuidCharCount_).1.setAttrHandles env.attrHandles)).impl_ c =
                  some id := hc
              simp only [BleServiceImpl.addCharacteristic, hc, if_neg hchk, hl, hs, if_true,
                if_neg hr]
              rw [storeCharacteristic_impl _ svc.addr c env.slot id hi a]
              rfl
        · left
          simp only [BleServiceImpl.addCharacteristic, hc, if_neg hchk, hl, hs, if_true]
          simp
      · right
        refine ⟨id, rfl, hcf, ?_, ?_⟩
        · simp only [BleServiceImpl.addCharacteristic, hc, if_neg hchk, hl]
          simp
        · intro a
          simp only [BleServiceImpl.addCharacteristic, hc, if_neg hchk, hl]
          simp only [Bool.false_eq_true, if_false]
          rw [storeCharacteristic_impl _ svc.addr c env.slot id hc a]

/-- A successful `BleServiceImpl::addCharacteristic` appends the slot. -/
theorem addCharacteristic_stored (code : SystemError → Int) (order : BleUuidOrder)
    (env : RegEnv) (svc : BleServiceImpl) (w : GattWorld) (c : Nat)
    (hcode : ∀ e, e ≠ SystemError.NONE → code e ≠ code SystemError.NONE)
    (hret : (svc.addCharacteristic code order env w c).1 = code SystemError.NONE) :
    (svc.addCharacteristic code order env w c).2.2 =
      { svc with characteristics := svc.characteristics ++ [env.slot] } := by
  cases hc : w.heap.impl_ c with
  | none =>
    simp only [BleServiceImpl.addCharacteristic, hc] at hret
    exact absurd hret (hcode _ (by decide))
  | some id =>
    by_cases hchk : svc.contains w.heap c = true ∨ (w.heap.record id).properties = 0
    · simp only [BleServiceImpl.addCharacteristic, hc, if_pos hchk] at hret
      exact absurd hret (hcode _ (by decide))
    · by_cases hl : (w.heap.record id).isLocal = true
      · by_cases hs : env.stackInitialized = true
        · by_cases hr : env.addCharRet ≠ code SystemError.NONE
          · simp only [BleServiceImpl.addCharacteristic, hc, if_neg hchk, hl, hs, if_true,
              if_pos hr] at hret
            exact absurd hret hr
          · simp only [BleServiceImpl.addCharacteristic, hc, if_neg hchk, hl, hs, if_true,
              if_neg hr]
        · simp only [BleServiceImpl.addCharacteristic, hc, if_neg hchk, hl, hs, if_true] at hret
          simp at hret
          exact absurd hret (hcode _ (by decide))
      · simp only [BleServiceImpl.addCharacteristic, hc, if_neg hchk, hl]
        simp

/-- Putting back the element found at an index leaves a list as it is. -/
theorem set_getElem?_self {α : Type} (a : α) :
    ∀ (l : List α) (i : Nat), l[i]? = some a → l.set i a = l := by
  intro l
  induction l with
  | nil => intro i _; rfl
  | cons x xs ih =>
    intro i h
    cases i with
    | zero =>
      simp only [List.getElem?_cons_zero, Option.some.injEq] at h
      rw [List.set_cons_zero, h]
    | succ j =>
      simp only [List.getElem?_cons_succ] at h
      rw [List.set_cons_succ, ih j h]

/-- The two outcomes of `BleGattServerImpl::addService`: a status other than success
and the model unchanged, or success and one service appended whose UUID was not
present. -/
theorem addService_result (code : SystemError → Int) (env : RegEnv) (g : BleGattServerImpl)
    (svc : BleServiceImpl)
    (hcode : ∀ e, e ≠ SystemError.NONE → code e ≠ code SystemError.NONE) :
    ((g.addService code env svc).1 ≠ code SystemError.NONE ∧ (g.addService code env svc).2 = g) ∨
      ((g.addService code env svc).1 = code SystemError.NONE ∧
        serviceLoop svc.uuid g.services = none ∧
        ∃ new : BleServiceImpl, new.uuid = svc.uuid ∧
          new.characteristics = svc.characteristics ∧
          (g.addService code env svc).2 = ⟨g.services ++ [new], g.address⟩) := by
  cases hs : serviceLoop svc.uuid g.services with
  | some i =>
    left
    simp only [BleGattServerImpl.addService, BleGattServerImpl.service, hs, Option.isSome_some,
      if_true, and_true]
    exact hcode _ (by decide)
  | none =>
    by_cases hl : g.isLocal env = true
    · by_cases hst : env.stackInitialized = true
      · by_cases hr : env.addServiceRet ≠ code SystemError.NONE
        · left
          simp only [BleGattServerImpl.addService, BleGattServerImpl.service, hs,
            Option.isSome_none, Bool.false_eq_true, if_false, hl, hst, if_true, if_pos hr,
            and_true]
          exact hr
        · right
          simp only [BleGattServerImpl.addService, BleGattServerImpl.service, hs,
            Option.isSome_none, Bool.false_eq_true, if_false, hl, hst, if_true, if_neg hr,
            true_and]
          exact ⟨{ svc with startHandle := env.startHandle }, rfl, rfl, rfl⟩
      · left
        simp only [BleGattServerImpl.addService, BleGattServerImpl.service, hs,
          Option.isSome_none, Bool.false_eq_true, if_false, hl, hst, if_true, and_true]
        exact hcode _ (by decide)
    · right
      simp only [BleGattServerImpl.addService, BleGattServerImpl.service, hs,
        Option.isSome_none, Bool.false_eq_true, if_false, hl, true_and]
      exact ⟨svc, rfl, rfl, rfl⟩

/-- The outcomes of `BleGattServerImpl::addCharacteristic` for the services and the
handles: (a) nothing stored; (b) the slot appended to the service found for the
service UUID, no stored handle of which had the record; (c) a new service with
a UUID not yet present appended, without characteristic; (d) such a service
appended with the slot as its one characteristic. -/
theorem gatt_addCharacteristic_shape (code : SystemError → Int) (order : BleUuidOrder)
    (env : RegEnv) (g : BleGattServerImpl) (w : GattWorld) (c : Nat)
    (hcode : ∀ e, e ≠ SystemError.NONE → code e ≠ code SystemError.NONE) :
    (g.addCharacteristic code order env w c).2.2.address = g.address ∧
    (((g.addCharacteristic code order env w c).2.2.services = g.services ∧
        (g.addCharacteristic code order env w c).2.1.heap.impl_ = w.heap.impl_) ∨
      (∃ i stub id, g.services[i]? = some stub ∧ w.heap.impl_ c = some id ∧
        (∀ a ∈ stub.characteristics, w.heap.impl_ a ≠ some id) ∧
        (g.addCharacteristic code order env w c).2.2.services =
          g.services.set i { stub with characteristics := stub.characteristics ++ [env.slot] } ∧
        ∀ a, (g.addCharacteristic code order env w c).2.1.heap.impl_ a =
          if a = env.slot then some id else w.heap.impl_ a) ∨
      (∃ new : BleServiceImpl, serviceLoop new.uuid g.services = none ∧
        new.characteristics = [] ∧
        (g.addCharacteristic code order env w c).2.2.services = g.services ++ [new] ∧
        (g.addCharacteristic code order env w c).2.1.heap.impl_ = w.heap.impl_) ∨
      (∃ (new : BleServiceImpl) (id : Nat), serviceLoop new.uuid g.services = none ∧
        new.characteristics = [] ∧ w.heap.impl_ c = some id ∧
        (g.addCharacteristic code order env w c).2.2.services =
          g.services ++ [{ new with characteristics := [env.slot] }] ∧
        ∀ a, (g.addCharacteristic code order env w c).2.1.heap.impl_ a =
          if a = env.slot then some id else w.heap.impl_ a)) := by
  cases hc : w.heap.impl_ c with
  | none =>
    simp only [BleGattServerImpl.addCharacteristic, hc, true_and]
    left; trivial
  | some id =>
    cases hsvc : g.service (prepareRecord order (g.isLocal env) (w.heap.record id)).svcUuid with
    | some i =>
      obtain ⟨stub, hstub, -⟩ := serviceLoop_some _ g.services i hsvc
      simp only [BleGattServerImpl.addCharacteristic, hc, hsvc, hstub, true_and]
      rcases addCharacteristic_cases code order env stub
        ⟨w.heap.setRecord id (prepareRecord order (g.isLocal env) (w.heap.record id)),
          w.defaultUuidCharCount_⟩ c with ⟨h1, h2⟩ | ⟨id2, h1, h2, h3, h4⟩
      · left
        rw [h1, h2]
        exact ⟨set_getElem?_self _ _ _ hstub, rfl⟩
      · right; left
        have hid : id2 = id := by
          have : w.heap.impl_ c = some id2 := h1
          rw [hc] at this
          exact (Option.some.inj this).symm
        subst hid
        refine ⟨i, stub, id2, hstub, rfl, ?_, ?_, ?_⟩
        · exact contains_false stub _ c id2 h1 h2
        · rw [h3]
        · intro a
          rw [h4 a]
          rfl
    | none =>
      have hnew : serviceLoop
          (BleServiceImpl.new (prepareRecord order (g.isLocal env) (w.heap.record id)).svcUuid
            env.serviceAddr).uuid g.services = none := hsvc
      rcases addService_result code env g
        (BleServiceImpl.new (prepareRecord order (g.isLocal env) (w.heap.record id)).svcUuid
          env.serviceAddr) hcode with ⟨h1, h2⟩ | ⟨h1, h2, new, hn1, hn2, hn3⟩
      · simp only [BleGattServerImpl.addCharacteristic, hc, hsvc, if_neg h1, h2, true_and]
        left; rfl
      · have hl : (g.services ++ [new]).getLast? = some new := by simp
        have hd : (g.services ++ [new]).dropLast = g.services := by simp
        have hnc : new.characteristics = [] := hn2
        have hnu : serviceLoop new.uuid g.services = none := by rw [hn1]; exact hnew
        simp only [BleGattServerImpl.addCharacteristic, hc, hsvc, if_pos h1, hn3, hl, hd,
          true_and]
        rcases addCharacteristic_cases code order env new
          ⟨w.heap.setRecord id (prepareRecord order (g.isLocal env) (w.heap.record id)),
            w.defaultUuidCharCount_⟩ c with ⟨k1, k2⟩ | ⟨id2, k1, k2, k3, k4⟩
        · right; right; left
          refine ⟨new, hnu, hnc, ?_, ?_⟩
          · rw [k1]
          · rw [k2]; rfl
        · right; right; right
          have hid : id2 = id := by
            have : w.heap.impl_ c = some id2 := k1
            rw [hc] at this
            exact (Option.some.inj this).symm
          subst hid
          refine ⟨new, id2, hnu, hnc, rfl, ?_, ?_⟩
          · rw [k3, hnc]
            rfl
          · intro a
            rw [k4 a]
            rfl

/-- Past the checks, a local characteristic is refused with invalid-state while the
stack is not initialized, and nothing changes. -/
theorem addCharacteristic_not_initialized (code : SystemError → Int) (order : BleUuidOrder)
    (env : RegEnv) (svc : BleServiceImpl) (w : GattWorld) (c id : Nat)
    (hc : w.heap.impl_ c = some id) (hp : (w.heap.record id).properties ≠ 0)
    (hcf : svc.contains w.heap c = false) (hl : (w.heap.record id).isLocal = true)
    (hs : env.stackInitialized = false) :
    svc.addCharacteristic code order env w c = (code SystemError.INVALID_STATE, w, svc) := by
  have hchk : ¬ (svc.contains w.heap c = true ∨ (w.heap.record id).properties = 0) := by
    simp [hcf, hp]
  simp only [BleServiceImpl.addCharacteristic, hc, if_neg hchk, hl, hs, if_true]
  simp

/-- An element found at an index is a member. -/
theorem mem_of_getElem?_some {α : Type} (l : List α) (i : Nat) (a : α) (h : l[i]? = some a) :
    a ∈ l := by
  obtain ⟨hi, ha⟩ := List.getElem?_eq_some.mp h
  rw [← ha]
  exact List.getElem_mem hi

/-- The property `prepareRecord` keeps `properties` and sets `isLocal`. -/
theorem prepareRecord_fields (order : BleUuidOrder) (l : Bool) (r : BleCharacteristicImpl) :
    (prepareRecord order l r).properties = r.properties ∧
      (prepareRecord order l r).isLocal = l := by
  unfold prepareRecord
  split <;> exact ⟨rfl, rfl⟩

/-- One call keeps the UUIDs of the stored services pairwise unequal. -/
theorem apply_uuids_distinct (code : SystemError → Int) (order : BleUuidOrder)
    (hcode : ∀ e, e ≠ SystemError.NONE → code e ≠ code SystemError.NONE)
    (s : GattWorld × BleGattServerImpl) (op : GattOp) (h : UuidsDistinct s.2) :
    UuidsDistinct (GattOp.apply code order s op).2 := by
  have happ : ∀ new : BleServiceImpl, serviceLoop new.uuid s.2.services = none →
      List.Pairwise (fun a b : BleUuid => a.opEq b = false ∧ b.opEq a = false)
        ((s.2.services ++ [new]).map (fun t => t.uuid)) := by
    intro new hn
    rw [List.map_append, List.pairwise_append]
    refine ⟨h, by simp, ?_⟩
    intro a ha b hb
    simp only [List.map_cons, List.map_nil, List.mem_singleton] at hb
    subst hb
    obtain ⟨t, ht, rfl⟩ := List.mem_map.mp ha
    have := (serviceLoop_none new.uuid s.2.services).mp hn t ht
    exact ⟨this, by rw [opEq_comm]; exact this⟩
  cases op with
  | addService uuid env =>
    rcases addService_result code env s.2 (BleServiceImpl.new uuid env.serviceAddr) hcode with
      ⟨-, h2⟩ | ⟨-, h2, new, hn1, -, hn3⟩
    · simp only [GattOp.apply, h2]; exact h
    · simp only [GattOp.apply, hn3, UuidsDistinct]
      exact happ new (by rw [hn1]; exact h2)
  | addCharacteristic c env =>
    obtain ⟨-, hshape⟩ := gatt_addCharacteristic_shape code order env s.2 s.1 c hcode
    simp only [GattOp.apply, UuidsDistinct]
    rcases hshape with ⟨h1, -⟩ | ⟨i, stub, id, h1, -, -, h4, -⟩ | ⟨new, h1, -, h3, -⟩ |
      ⟨new, id, h1, -, -, h4, -⟩
    · rw [h1]; exact h
    · rw [h4, List.map_set]
      have : (s.2.services.map (fun t => t.uuid))[i]? = some stub.uuid := by
        rw [List.getElem?_map, h1]; rfl
      rw [set_getElem?_self _ _ _ this]
      exact h
    · rw [h3]; exact happ new h1
    · rw [h4]
      exact happ { new with characteristics := [env.slot] } h1

/-- Every sequence of calls keeps the UUIDs of the stored services pairwise unequal. -/
theorem runGatt_uuids_distinct (code : SystemError → Int) (order : BleUuidOrder)
    (hcode : ∀ e, e ≠ SystemError.NONE → code e ≠ code SystemError.NONE) :
    ∀ (ops : List GattOp) (s : GattWorld × BleGattServerImpl), UuidsDistinct s.2 →
      UuidsDistinct (runGatt code order s ops).2 := by
  intro ops
  induction ops with
  | nil => intro s h; exact h
  | cons op rest ih =>
    intro s h
    exact ih _ (apply_uuids_distinct code order hcode s op h)

/-- A service stays in order when the handles at the used addresses keep their
records. -/
theorem svc_kept (h h2 : CharHeap) (used used2 : List Nat) (svc : BleServiceImpl)
    (hsame : ∀ a ∈ used, h2.impl_ a = h.impl_ a) (hsub : ∀ a ∈ used, a ∈ used2)
    (hs : (∀ a ∈ svc.characteristics, a ∈ used ∧ h.impl_ a ≠ none) ∧ RecordsDistinct h svc) :
    (∀ a ∈ svc.characteristics, a ∈ used2 ∧ h2.impl_ a ≠ none) ∧ RecordsDistinct h2 svc := by
  constructor
  · intro a ha
    obtain ⟨hu, hn⟩ := hs.1 a ha
    exact ⟨hsub a hu, by rw [hsame a hu]; exact hn⟩
  · unfold RecordsDistinct
    refine List.Pairwise.imp_of_mem ?_ hs.2
    intro a b ha hb hab
    rw [hsame a (hs.1 a ha).1, hsame b (hs.1 b hb).1]
    exact hab

/-- A service stays in order when a slot with a record that none of its handles had
is appended. -/
theorem svc_extended (h h2 : CharHeap) (used used2 : List Nat) (svc : BleServiceImpl)
    (slot id : Nat)
    (hsame : ∀ a ∈ used, h2.impl_ a = h.impl_ a) (hsub : ∀ a ∈ used, a ∈ used2)
    (hs : (∀ a ∈ svc.characteristics, a ∈ used ∧ h.impl_ a ≠ none) ∧ RecordsDistinct h svc)
    (hslot : h2.impl_ slot = some id) (hin : slot ∈ used2)
    (hno : ∀ a ∈ svc.characteristics, h.impl_ a ≠ some id) :
    (∀ a ∈ svc.characteristics ++ [slot], a ∈ used2 ∧ h2.impl_ a ≠ none) ∧
      RecordsDistinct h2 { svc with characteristics := svc.characteristics ++ [slot] } := by
  obtain ⟨k1, k2⟩ := svc_kept h h2 used used2 svc hsame hsub hs
  constructor
  · intro a ha
    rcases List.mem_append.mp ha with ha | ha
    · exact k1 a ha
    · simp only [List.mem_singleton] at ha
      subst ha
      exact ⟨hin, by rw [hslot]; simp⟩
  · unfold RecordsDistinct
    simp only
    rw [List.pairwise_append]
    refine ⟨k2, by simp, ?_⟩
    intro a ha b hb
    simp only [List.mem_singleton] at hb
    subst hb
    rw [hslot, hsame a (hs.1 a ha).1]
    exact hno a ha

/-- The slots of a sequence, call by call. -/
theorem slotsOf_cons (op : GattOp) (ops : List GattOp) :
    slotsOf (op :: ops) = slotsOf [op] ++ slotsOf ops := by
  cases op <;> rfl

/-- One call that stores at an address not used so far keeps the stored handles in
order. -/
theorem apply_storedOk (code : SystemError → Int) (order : BleUuidOrder)
    (hcode : ∀ e, e ≠ SystemError.NONE → code e ≠ code SystemError.NONE)
    (used : List Nat) (s : GattWorld × BleGattServerImpl) (op : GattOp)
    (h : StoredOk used s) (hfresh : ∀ x ∈ slotsOf [op], x ∉ used) :
    StoredOk (slotsOf [op] ++ used) (GattOp.apply code order s op) := by
  cases op with
  | addService uuid env =>
    have hs : slotsOf [GattOp.addService uuid env] ++ used = used := rfl
    rw [hs]
    intro svc hsvc
    simp only [GattOp.apply] at hsvc ⊢
    rcases addService_result code env s.2 (BleServiceImpl.new uuid env.serviceAddr) hcode with
      ⟨-, h2⟩ | ⟨-, -, new, -, hn2, hn3⟩
    · rw [h2] at hsvc
      exact h svc hsvc
    · rw [hn3] at hsvc
      simp only [List.mem_append, List.mem_singleton] at hsvc
      rcases hsvc with hsvc | hsvc
      · exact h svc hsvc
      · subst hsvc
        have hnil : svc.characteristics = [] := hn2
        refine ⟨?_, ?_⟩
        · intro a ha; rw [hnil] at ha; cases ha
        · unfold RecordsDistinct; rw [hnil]; exact List.Pairwise.nil
  | addCharacteristic c env =>
    have hslot : env.slot ∉ used := hfresh env.slot (by simp [slotsOf])
    have hsub : ∀ a ∈ used, a ∈ slotsOf [GattOp.addCharacteristic c env] ++ used :=
      fun a ha => List.mem_append_right _ ha
    have hin : env.slot ∈ slotsOf [GattOp.addCharacteristic c env] ++ used := by
      simp [slotsOf]
    obtain ⟨-, hshape⟩ := gatt_addCharacteristic_shape code order env s.2 s.1 c hcode
    intro svc hsvc
    simp only [GattOp.apply] at hsvc ⊢
    rcases hshape with ⟨h1, h2⟩ | ⟨i, stub, id, h1, -, h3, h4, h5⟩ | ⟨new, -, h2, h3, h4⟩ |
      ⟨new, id, -, h2, -, h4, h5⟩
    · rw [h1] at hsvc
      exact svc_kept s.1.heap _ used _ svc (fun a _ => by rw [h2]) hsub (h svc hsvc)
    · have hsame : ∀ a ∈ used, (s.2.addCharacteristic code order env s.1 c).2.1.heap.impl_ a =
          s.1.heap.impl_ a := by
        intro a ha
        rw [h5 a, if_neg (fun (e : a = env.slot) => hslot (e ▸ ha))]
      rw [h4] at hsvc
      rcases List.mem_or_eq_of_mem_set hsvc with hsvc | hsvc
      · exact svc_kept s.1.heap _ used _ svc hsame hsub (h svc hsvc)
      · subst hsvc
        exact svc_extended s.1.heap _ used _ stub env.slot id hsame hsub
          (h stub (mem_of_getElem?_some _ _ _ h1)) (by rw [h5, if_pos rfl]) hin h3
    · rw [h3] at hsvc
      rcases List.mem_append.mp hsvc with hsvc | hsvc
      · exact svc_kept s.1.heap _ used _ svc (fun a _ => by rw [h4]) hsub (h svc hsvc)
      · simp only [List.mem_singleton] at hsvc
        subst hsvc
        refine ⟨?_, ?_⟩
        · intro a ha; rw [h2] at ha; cases ha
        · unfold RecordsDistinct; rw [h2]; exact List.Pairwise.nil
    · have hsame : ∀ a ∈ used, (s.2.addCharacteristic code order env s.1 c).2.1.heap.impl_ a =
          s.1.heap.impl_ a := by
        intro a ha
        rw [h5 a, if_neg (fun (e : a = env.slot) => hslot (e ▸ ha))]
      rw [h4] at hsvc
      rcases List.mem_append.mp hsvc with hsvc | hsvc
      · exact svc_kept s.1.heap _ used _ svc hsame hsub (h svc hsvc)
      · simp only [List.mem_singleton] at hsvc
        subst hsvc
        refine ⟨?_, ?_⟩
        · intro a ha
          simp only [List.mem_singleton] at ha
          subst ha
          exact ⟨hin, by rw [h5, if_pos rfl]; simp⟩
        · unfold RecordsDistinct; exact List.pairwise_singleton _ _

/-- Every sequence of calls that store at pairwise different addresses not used so
far keeps the stored handles in order. -/
theorem runGatt_storedOk (code : SystemError → Int) (order : BleUuidOrder)
    (hcode : ∀ e, e ≠ SystemError.NONE → code e ≠ code SystemError.NONE) :
    ∀ (ops : List GattOp) (used : List Nat) (s : GattWorld × BleGattServerImpl),
      StoredOk used s → (slotsOf ops).Nodup → (∀ x ∈ slotsOf ops, x ∉ used) →
      ∃ used2, StoredOk used2 (runGatt code order s ops) := by
  intro ops
  induction ops with
  | nil => intro used s h _ _; exact ⟨used, h⟩
  | cons op rest ih =>
    intro used s h hnd hfresh
    rw [slotsOf_cons] at hnd hfresh
    obtain ⟨hn1, hn2, hdis⟩ := List.nodup_append.mp hnd
    refine ih (slotsOf [op] ++ used) _
      (apply_storedOk code order hcode used s op h
        (fun x hx => hfresh x (List.mem_append_left _ hx))) hn2 ?_
    intro x hx hx2
    rcases List.mem_append.mp hx2 with hx2 | hx2
    · exact hdis hx2 hx
    · exact hfresh x (List.mem_append_right _ hx) hx2

/-! ### Lemmas on events -/

/-- The record that processing received data leaves. -/
theorem processReceivedData_fst (r : BleCharacteristicImpl) (attr : Nat) (d : List Byte)
    (p : Nat) :
    (r.processReceivedData attr (some d) p).1 =
      if r.isLocal = true ∧ attr = r.attrHandles.cccd_handle then
        r.configureCccd p (d.getD 0 0)
      else r := rfl

/-- Processing received data changes nothing in a record but the subscriber list,
and in that list only the membership of the peer's connection handle. -/
theorem processReceivedData_kept (r : BleCharacteristicImpl) (attr : Nat) (d : List Byte)
    (p : Nat) :
    (r.processReceivedData attr (some d) p).1.attrHandles = r.attrHandles ∧
      (r.processReceivedData attr (some d) p).1.isLocal = r.isLocal ∧
      (r.processReceivedData attr (some d) p).1.dataCb = r.dataCb ∧
      ∀ q, q ≠ p →
        (q ∈ (r.processReceivedData attr (some d) p).1.cccdOfServer ↔ q ∈ r.cccdOfServer) := by
  rw [processReceivedData_fst]
  by_cases hc : r.isLocal = true ∧ attr = r.attrHandles.cccd_handle
  · rw [if_pos hc]
    unfold BleCharacteristicImpl.configureCccd
    rw [if_pos hc.1]
    by_cases he : d.getD 0 0 ≠ 0
    · rw [if_pos he]
      refine ⟨rfl, rfl, rfl, ?_⟩
      intro q hq
      simp [hq]
    · rw [if_neg he]
      refine ⟨rfl, rfl, rfl, ?_⟩
      intro q hq
      simp [hq]
  · rw [if_neg hc]
    exact ⟨rfl, rfl, rfl, fun q _ => Iff.rfl⟩

/-- A write to the CCCD handle of a local record makes the peer's connection handle
a member exactly when the first byte is not zero. -/
theorem processReceivedData_cccd (r : BleCharacteristicImpl) (attr : Nat) (d : List Byte)
    (p : Nat) (hl : r.isLocal = true) (ha : attr = r.attrHandles.cccd_handle) :
    p ∈ (r.processReceivedData attr (some d) p).1.cccdOfServer ↔ d.getD 0 0 ≠ 0 := by
  have hc : r.isLocal = true ∧ attr = r.attrHandles.cccd_handle := ⟨hl, ha⟩
  rw [processReceivedData_fst, if_pos hc]
  unfold BleCharacteristicImpl.configureCccd
  rw [if_pos hl]
  by_cases he : d.getD 0 0 ≠ 0
  · rw [if_pos he]
    simp only [List.mem_append, List.mem_singleton, or_true, true_iff]
    exact he
  · rw [if_neg he]
    simp only [List.mem_filter, ne_eq, not_true_eq_false, decide_False, Bool.false_eq_true,
      and_false, false_iff]
    exact he

/-- The calls made for one record: the callback with the payload when the attribute
handle is the value handle and a callback is registered. -/
theorem processReceivedData_calls (r : BleCharacteristicImpl) (attr : Nat) (d : List Byte)
    (p : Nat) :
    (r.processReceivedData attr (some d) p).2 =
      if attr = r.attrHandles.value_handle then
        match r.dataCb with
        | none => []
        | some cb => [⟨cb, d⟩]
      else [] := rfl

/-- The handle that `characteristic(attrHandle)` returns is stored in the service
and has a record with the attribute handle. -/
theorem characteristic_some (svc : BleServiceImpl) (h : CharHeap) (attr a : Nat)
    (hs : svc.characteristic h attr = some a) :
    a ∈ svc.characteristics ∧
      ∃ id, h.impl_ a = some id ∧ hasAttrHandle (h.record id) attr = true := by
  unfold BleServiceImpl.characteristic at hs
  refine ⟨List.mem_of_find?_eq_some hs, ?_⟩
  have := List.find?_some hs
  cases hi : h.impl_ a with
  | none => rw [hi] at this; cases this
  | some id => rw [hi] at this; exact ⟨id, rfl, this⟩

/-- The lookup `characteristic(attrHandle)` depends on the handles and on the
attribute handles of the records only. -/
theorem characteristic_congr (svc : BleServiceImpl) (h h1 : CharHeap) (attr : Nat)
    (hi : h1.impl_ = h.impl_)
    (ha : ∀ id, (h1.record id).attrHandles = (h.record id).attrHandles) :
    svc.characteristic h1 attr = svc.characteristic h attr := by
  unfold BleServiceImpl.characteristic
  congr 1
  funext a
  rw [hi]
  cases h.impl_ a with
  | none => rfl
  | some id => simp only [hasAttrHandle, ha id]

/-- Resolution does not change under such a change of the heap. -/
theorem resolved_congr (attr : Nat) (svcs : List BleServiceImpl) (h h1 : CharHeap) (id : Nat)
    (hi : h1.impl_ = h.impl_)
    (ha : ∀ id, (h1.record id).attrHandles = (h.record id).attrHandles) :
    Resolved attr svcs h1 id ↔ Resolved attr svcs h id := by
  unfold Resolved
  constructor
  · rintro ⟨svc, hs, a, h1a, h2a⟩
    exact ⟨svc, hs, a, by rw [← characteristic_congr svc h h1 attr hi ha]; exact h1a,
      by rw [← hi]; exact h2a⟩
  · rintro ⟨svc, hs, a, h1a, h2a⟩
    exact ⟨svc, hs, a, by rw [characteristic_congr svc h h1 attr hi ha]; exact h1a,
      by rw [hi]; exact h2a⟩

/-- Resolution by a list whose first service resolves nothing. -/
theorem resolved_cons_none (attr : Nat) (svc : BleServiceImpl) (rest : List BleServiceImpl)
    (h : CharHeap) (id : Nat) (hn : svc.characteristic h attr = none) :
    Resolved attr (svc :: rest) h id ↔ Resolved attr rest h id := by
  unfold Resolved
  constructor
  · rintro ⟨s, hs, a, h1a, h2a⟩
    rcases List.mem_cons.mp hs with hs | hs
    · subst hs; rw [hn] at h1a; cases h1a
    · exact ⟨s, hs, a, h1a, h2a⟩
  · rintro ⟨s, hs, a, h1a, h2a⟩
    exact ⟨s, List.mem_cons_of_mem _ hs, a, h1a, h2a⟩

/-- Resolution by a list whose first service resolves to the record `i0`. -/
theorem resolved_cons_some (attr : Nat) (svc : BleServiceImpl) (rest : List BleServiceImpl)
    (h : CharHeap) (id a i0 : Nat) (hs : svc.characteristic h attr = some a)
    (hi : h.impl_ a = some i0) :
    Resolved attr (svc :: rest) h id ↔ id = i0 ∨ Resolved attr rest h id := by
  unfold Resolved
  constructor
  · rintro ⟨s, hs2, b, h1b, h2b⟩
    rcases List.mem_cons.mp hs2 with hs2 | hs2
    · subst hs2
      rw [hs] at h1b
      have hba : a = b := Option.some.inj h1b
      subst hba
      rw [hi] at h2b
      exact Or.inl (Option.some.inj h2b).symm
    · exact Or.inr ⟨s, hs2, b, h1b, h2b⟩
  · rintro (hid | ⟨s, hs2, b, h1b, h2b⟩)
    · subst hid
      exact ⟨svc, List.mem_cons_self _ _, a, hs, hi⟩
    · exact ⟨s, List.mem_cons_of_mem _ hs2, b, h1b, h2b⟩

/-- What `gattsProcessDataWritten` does, for a payload `d` and the connection handle
`p` of the peer. (1) No handle changes. (2) In every record the attribute
handles, `isLocal` and the callback stay, and so does the membership of every
connection handle other than `p` in the subscriber list. (3) A record that no
service resolves the attribute handle to stays as it is. (4) For a local
record whose CCCD handle is the attribute handle and which some service
resolves the handle to, `p` is a subscriber afterwards exactly when the first
byte is not zero. (5) The callback of a resolved record whose value handle is
the attribute handle is called with the payload. (6) Every call made is such
a call. -/
theorem dataWrittenLoop_spec (attr : Nat) (d : List Byte) (p : Nat) :
    ∀ (svcs : List BleServiceImpl) (h : CharHeap),
      (dataWrittenLoop attr (some d) p svcs h).1.impl_ = h.impl_ ∧
      (∀ id,
        ((dataWrittenLoop attr (some d) p svcs h).1.record id).attrHandles =
            (h.record id).attrHandles ∧
          ((dataWrittenLoop attr (some d) p svcs h).1.record id).isLocal =
            (h.record id).isLocal ∧
          ((dataWrittenLoop attr (some d) p svcs h).1.record id).dataCb =
            (h.record id).dataCb ∧
          ∀ q, q ≠ p →
            (q ∈ ((dataWrittenLoop attr (some d) p svcs h).1.record id).cccdOfServer ↔
              q ∈ (h.record id).cccdOfServer)) ∧
      (∀ id, ¬ Resolved attr svcs h id →
        (dataWrittenLoop attr (some d) p svcs h).1.record id = h.record id) ∧
      (∀ id, (h.record id).isLocal = true → attr = (h.record id).attrHandles.cccd_handle →
        (Resolved attr svcs h id ∨ (p ∈ (h.record id).cccdOfServer ↔ d.getD 0 0 ≠ 0)) →
        (p ∈ ((dataWrittenLoop attr (some d) p svcs h).1.record id).cccdOfServer ↔
          d.getD 0 0 ≠ 0)) ∧
      (∀ id cb, Resolved attr svcs h id → attr = (h.record id).attrHandles.value_handle →
        (h.record id).dataCb = some cb →
        (⟨cb, d⟩ : CbCall) ∈ (dataWrittenLoop attr (some d) p svcs h).2) ∧
      (∀ call ∈ (dataWrittenLoop attr (some d) p svcs h).2,
        call.data = d ∧ ∃ id, Resolved attr svcs h id ∧
          attr = (h.record id).attrHandles.value_handle ∧
          (h.record id).dataCb = some call.cb) := by
  intro svcs
  induction svcs with
  | nil =>
    intro h
    refine ⟨rfl, fun id => ⟨rfl, rfl, rfl, fun q _ => Iff.rfl⟩, fun id _ => rfl, ?_, ?_, ?_⟩
    · intro id _ _ hor
      rcases hor with ⟨s, hs, -⟩ | hr
      · cases hs
      · exact hr
    · intro id cb ⟨s, hs, _⟩
      cases hs
    · intro call hc
      cases hc
  | cons svc rest ih =>
    intro h
    cases hs : svc.characteristic h attr with
    | none =>
      have e : dataWrittenLoop attr (some d) p (svc :: rest) h =
          dataWrittenLoop attr (some d) p rest h := by
        simp only [dataWrittenLoop, hs]
      rw [e]
      obtain ⟨i1, i2, i3, i4, i5, i6⟩ := ih h
      refine ⟨i1, i2, ?_, ?_, ?_, ?_⟩
      · intro id hn
        exact i3 id (fun hr => hn ((resolved_cons_none attr svc rest h id hs).mpr hr))
      · intro id hl ha hor
        refine i4 id hl ha ?_
        rcases hor with hr | hr
        · exact Or.inl ((resolved_cons_none attr svc rest h id hs).mp hr)
        · exact Or.inr hr
      · intro id cb hr
        exact i5 id cb ((resolved_cons_none attr svc rest h id hs).mp hr)
      · intro call hc
        obtain ⟨c1, id, c2, c3⟩ := i6 call hc
        exact ⟨c1, id, (resolved_cons_none attr svc rest h id hs).mpr c2, c3⟩
    | some a =>
      obtain ⟨-, i0, hi0, -⟩ := characteristic_some svc h attr a hs
      have e : dataWrittenLoop attr (some d) p (svc :: rest) h =
          ((dataWrittenLoop attr (some d) p rest
              (h.setRecord i0 ((h.record i0).processReceivedData attr (some d) p).1)).1,
            ((h.record i0).processReceivedData attr (some d) p).2 ++
              (dataWrittenLoop attr (some d) p rest
                (h.setRecord i0 ((h.record i0).processReceivedData attr (some d) p).1)).2) := by
        simp only [dataWrittenLoop, hs, hi0]
      rw [e]
      obtain ⟨k1, k2, k3, k4⟩ := processReceivedData_kept (h.record i0) attr d p
      have kc := processReceivedData_calls (h.record i0) attr d p
      obtain ⟨h1, hh1⟩ : ∃ h1, h1 =
          h.setRecord i0 ((h.record i0).processReceivedData attr (some d) p).1 := ⟨_, rfl⟩
      rw [← hh1]
      have himpl : h1.impl_ = h.impl_ := by rw [hh1]; rfl
      have hrec0 : h1.record i0 = ((h.record i0).processReceivedData attr (some d) p).1 := by
        rw [hh1]; simp [CharHeap.setRecord]
      have hrec : ∀ id, id ≠ i0 → h1.record id = h.record id := by
        intro id hid; rw [hh1]; simp [CharHeap.setRecord, hid]
      have hattr : ∀ id, (h1.record id).attrHandles = (h.record id).attrHandles := by
        intro id
        by_cases hid : id = i0
        · subst hid; rw [hrec0, k1]
        · rw [hrec id hid]
      have hloc : ∀ id, (h1.record id).isLocal = (h.record id).isLocal := by
        intro id
        by_cases hid : id = i0
        · subst hid; rw [hrec0, k2]
        · rw [hrec id hid]
      have hcb : ∀ id, (h1.record id).dataCb = (h.record id).dataCb := by
        intro id
        by_cases hid : id = i0
        · subst hid; rw [hrec0, k3]
        · rw [hrec id hid]
      have hmem : ∀ id q, q ≠ p →
          (q ∈ (h1.record id).cccdOfServer ↔ q ∈ (h.record id).cccdOfServer) := by
        intro id q hq
        by_cases hid : id = i0
        · subst hid; rw [hrec0]; exact k4 q hq
        · rw [hrec id hid]
      have hres : ∀ id, Resolved attr rest h1 id ↔ Resolved attr rest h id :=
        fun id => resolved_congr attr rest h h1 id himpl hattr
      have hcons : ∀ id, Resolved attr (svc :: rest) h id ↔
          id = i0 ∨ Resolved attr rest h id :=
        fun id => resolved_cons_some attr svc rest h id a i0 hs hi0
      obtain ⟨i1, i2, i3, i4, i5, i6⟩ := ih h1
      refine ⟨by rw [i1, himpl], ?_, ?_, ?_, ?_, ?_⟩
      · intro id
        obtain ⟨j1, j2, j3, j4⟩ := i2 id
        exact ⟨by rw [j1, hattr], by rw [j2, hloc], by rw [j3, hcb],
          fun q hq => (j4 q hq).trans (hmem id q hq)⟩
      · intro id hn
        have hne : id ≠ i0 := fun hid => hn ((hcons id).mpr (Or.inl hid))
        rw [i3 id (fun hr => hn ((hcons id).mpr (Or.inr ((hres id).mp hr)))), hrec id hne]
      · intro id hl ha hor
        refine i4 id (by rw [hloc, hl]) (by rw [hattr]; exact ha) ?_
        by_cases hid : id = i0
        · subst hid
          right
          rw [hrec0]
          exact processReceivedData_cccd (h.record id) attr d p hl ha
        · rcases hor with hr | hr
          · rcases (hcons id).mp hr with hr | hr
            · exact absurd hr hid
            · exact Or.inl ((hres id).mpr hr)
          · right; rw [hrec id hid]; exact hr
      · intro id cb hr ha hc
        rcases (hcons id).mp hr with hr | hr
        · subst hr
          rw [kc, if_pos ha, hc]
          exact List.mem_append_left _ (List.mem_singleton.mpr rfl)
        · exact List.mem_append_right _
            (i5 id cb ((hres id).mpr hr) (by rw [hattr]; exact ha) (by rw [hcb]; exact hc))
      · intro call hc
        rcases List.mem_append.mp hc with hc | hc
        · rw [kc] at hc
          by_cases ha : attr = (h.record i0).attrHandles.value_handle
          · rw [if_pos ha] at hc
            cases hcb0 : (h.record i0).dataCb with
            | none => rw [hcb0] at hc; cases hc
            | some cb =>
              rw [hcb0] at hc
              simp only [List.mem_singleton] at hc
              subst hc
              exact ⟨rfl, i0, (hcons i0).mpr (Or.inl rfl), ha, hcb0⟩
          · rw [if_neg ha] at hc; cases hc
        · obtain ⟨c1, id, c2, c3, c4⟩ := i6 call hc
          exact ⟨c1, id, (hcons id).mpr (Or.inr ((hres id).mp c2)), by rw [← hattr]; exact c3,
            by rw [← hcb]; exact c4⟩

/-- A stored handle whose record has the attribute handle, in a service where only
that record has it, is what the service resolves the handle to. -/
theorem characteristic_of_unique (svc : BleServiceImpl) (h : CharHeap) (attr a id : Nat)
    (ha : a ∈ svc.characteristics) (hid : h.impl_ a = some id)
    (hh : hasAttrHandle (h.record id) attr = true)
    (huniq : ∀ b ∈ svc.characteristics, ∀ id2, h.impl_ b = some id2 →
      hasAttrHandle (h.record id2) attr = true → id2 = id) :
    ∃ b, svc.characteristic h attr = some b ∧ h.impl_ b = some id := by
  cases hs : svc.characteristic h attr with
  | none =>
    unfold BleServiceImpl.characteristic at hs
    have := List.find?_eq_none.mp hs a ha
    rw [hid] at this
    exact absurd hh this
  | some b =>
    obtain ⟨hb, id2, h1, h2⟩ := characteristic_some svc h attr b hs
    exact ⟨b, rfl, by rw [h1, huniq b hb id2 h1 h2]⟩

/-- Disabling the CCCD for a connection handle twice is disabling it once. -/
theorem configureCccd_idem (r : BleCharacteristicImpl) (p : Nat) :
    (r.configureCccd p 0).configureCccd p 0 = r.configureCccd p 0 := by
  unfold BleCharacteristicImpl.configureCccd
  by_cases hl : r.isLocal = true
  · simp [hl, List.filter_filter]
  · simp [hl]

/-- The inner loop of `gattsProcessDisconnected`: when every handle of the list has a
record the loop runs through, no handle changes, and a record is changed, by
disabling the CCCD for the peer, exactly when a handle of the list has it. -/
theorem disconnectChars_spec (p : Nat) :
    ∀ (as : List Nat) (h : CharHeap), (∀ a ∈ as, h.impl_ a ≠ none) →
      ∃ h2, disconnectChars p as h = some h2 ∧ h2.impl_ = h.impl_ ∧
        ∀ id, h2.record id =
          if some id ∈ as.map h.impl_ then (h.record id).configureCccd p 0 else h.record id := by
  intro as
  induction as with
  | nil => intro h _; exact ⟨h, rfl, rfl, fun id => by simp⟩
  | cons a rest ih =>
    intro h hall
    cases hi : h.impl_ a with
    | none => exact absurd hi (hall a (List.mem_cons_self _ _))
    | some i0 =>
      obtain ⟨h2, e1, e2, e3⟩ := ih (h.setRecord i0 ((h.record i0).configureCccd p 0))
        (fun b hb => hall b (List.mem_cons_of_mem _ hb))
      refine ⟨h2, ?_, ?_, ?_⟩
      · simp only [disconnectChars, hi]; exact e1
      · rw [e2]; rfl
      · intro id
        rw [e3 id]
        have himpl : (h.setRecord i0 ((h.record i0).configureCccd p 0)).impl_ = h.impl_ := rfl
        rw [himpl]
        by_cases hid : id = i0
        · subst hid
          have hrec : (h.setRecord id ((h.record id).configureCccd p 0)).record id =
              (h.record id).configureCccd p 0 := by simp [CharHeap.setRecord]
          rw [hrec, configureCccd_idem]
          simp [hi]
        · have hrec : (h.setRecord i0 ((h.record i0).configureCccd p 0)).record id =
              h.record id := by simp [CharHeap.setRecord, hid]
          have hne : some id ≠ some i0 := fun e => hid (Option.some.inj e)
          rw [hrec]
          simp [hi, hne]

/-- The inner loop over two lists one after the other. -/
theorem disconnectChars_append (p : Nat) :
    ∀ (as bs : List Nat) (h : CharHeap),
      disconnectChars p (as ++ bs) h =
        match disconnectChars p as h with
        | none => none
        | some h1 => disconnectChars p bs h1 := by
  intro as
  induction as with
  | nil => intro bs h; rfl
  | cons a rest ih =>
    intro bs h
    cases hi : h.impl_ a with
    | none => simp only [List.cons_append, disconnectChars, hi]
    | some i0 =>
      simp only [List.cons_append, disconnectChars, hi]
      exact ih bs _

/-- The two loops of `gattsProcessDisconnected` are one loop over all stored handles. -/
theorem disconnectLoop_eq (p : Nat) :
    ∀ (svcs : List BleServiceImpl) (h : CharHeap),
      disconnectLoop p svcs h = disconnectChars p (storedHandles svcs) h := by
  intro svcs
  induction svcs with
  | nil => intro h; rfl
  | cons svc rest ih =>
    intro h
    rw [storedHandles, disconnectChars_append, disconnectLoop]
    cases disconnectChars p svc.characteristics h with
    | none => rfl
    | some h1 => exact ih h1

/-- Every call of `setValue` on a local record is the primary write or a push to a
connection handle of its subscriber list. -/
theorem setValue_calls (maxLen : Nat) (hal : Hal) (r : BleCharacteristicImpl) (buf : List Byte)
    (hl : r.isLocal = true) :
    ∀ call ∈ (r.setValue maxLen hal (some buf)).2,
      call = HalCall.serverSetValue r.attrHandles.value_handle
          (buf.take (min buf.length maxLen)) ∨
        ∃ conn ∈ r.cccdOfServer,
          call = pushCall r.properties r.attrHandles.value_handle
            (buf.take (min buf.length maxLen)) conn := by
  intro call hc
  by_cases hp : hal.serverSetValue ≠ 0
  · simp only [BleCharacteristicImpl.setValue, hl, if_true, cap_eq_min, if_pos hp,
      List.mem_singleton] at hc
    exact Or.inl hc
  · simp only [BleCharacteristicImpl.setValue, hl, if_true, cap_eq_min, if_neg hp,
      List.mem_cons] at hc
    rcases hc with hc | hc
    · exact Or.inl hc
    · exact Or.inr (pushLoop_calls hal _ _ _ r.cccdOfServer 0 call hc)

/-! ### Lemmas on the observer -/

/-- Without callback and with a result array, every event is stored at the next
index and counted, whatever the target count is. -/
theorem processScanResults_count (mem : List Byte) :
    ∀ (events : List ScanResultEvt) (o : BleObserver) (r : Nat),
      o.callback_ = none → o.results_ = some r →
      (processScanResults mem o events).count_ = o.count_ + events.length ∧
        (processScanResults mem o events).written.map Prod.fst =
          o.written.map Prod.fst ++ List.range' o.count_ events.length := by
  intro events
  induction events with
  | nil => intro o r _ _; simp [processScanResults]
  | cons e rest ih =>
    intro o r hc hr
    have hstep : (BleObserver.observerProcessScanResult mem o e).callback_ = none ∧
        (BleObserver.observerProcessScanResult mem o e).results_ = some r ∧
        (BleObserver.observerProcessScanResult mem o e).count_ = o.count_ + 1 ∧
        (BleObserver.observerProcessScanResult mem o e).written.map Prod.fst =
          o.written.map Prod.fst ++ [o.count_] := by
      unfold BleObserver.observerProcessScanResult
      rw [hc, hr]
      simp only
      split <;> simp [hc, hr]
    obtain ⟨s1, s2, s3, s4⟩ := hstep
    obtain ⟨i1, i2⟩ := ih (BleObserver.observerProcessScanResult mem o e) r s1 s2
    have e1 : processScanResults mem o (e :: rest) =
        processScanResults mem (BleObserver.observerProcessScanResult mem o e) rest := rfl
    rw [e1, i1, i2, s3, s4]
    constructor
    · simp only [List.length_cons]; omega
    · simp [List.range'_succ]

/-! ### Lemmas for the observer modes, the subscriber list and the default UUIDs -/

/-- With a callback set, every event is passed to it and nothing else changes. -/
theorem processScanResults_callback (mem : List Byte) (cb : Nat) :
    ∀ (events : List ScanResultEvt) (o : BleObserver), o.callback_ = some cb →
      processScanResults mem o events =
        { o with calls := o.calls ++
            events.map (fun e => ScanCall.callback cb (deviceOf mem e)) } := by
  intro events
  induction events with
  | nil => intro o _; simp [processScanResults]
  | cons e rest ih =>
    intro o hc
    have e1 : processScanResults mem o (e :: rest) =
        processScanResults mem (BleObserver.observerProcessScanResult mem o e) rest := rfl
    have e2 : BleObserver.observerProcessScanResult mem o e =
        { o with calls := o.calls ++ [ScanCall.callback cb (deviceOf mem e)] } := by
      unfold BleObserver.observerProcessScanResult
      rw [hc]
    rw [e1, e2,
      ih { o with calls := o.calls ++ [ScanCall.callback cb (deviceOf mem e)] } hc]
    simp

/-- Without a callback, the only calls that events add are calls of the stop-scan
primitive. -/
theorem processScanResults_no_callback (mem : List Byte) :
    ∀ (events : List ScanResultEvt) (o : BleObserver), o.callback_ = none →
      ∀ c ∈ (processScanResults mem o events).calls, c ∈ o.calls ∨ c = ScanCall.stopScan := by
  intro events
  induction events with
  | nil => intro o _ c hc; exact Or.inl hc
  | cons e rest ih =>
    intro o hcb c hc
    have e1 : processScanResults mem o (e :: rest) =
        processScanResults mem (BleObserver.observerProcessScanResult mem o e) rest := rfl
    rw [e1] at hc
    have hstep : (BleObserver.observerProcessScanResult mem o e).callback_ = none ∧
        ∀ x ∈ (BleObserver.observerProcessScanResult mem o e).calls,
          x ∈ o.calls ∨ x = ScanCall.stopScan := by
      unfold BleObserver.observerProcessScanResult
      rw [hcb]
      cases o.results_ with
      | none => exact ⟨hcb, fun x hx => Or.inl hx⟩
      | some r =>
        simp only
        split
        · refine ⟨rfl, fun x hx => ?_⟩
          simp only [List.mem_append, List.mem_singleton] at hx
          exact hx
        · exact ⟨rfl, fun x hx => Or.inl hx⟩
    rcases ih _ hstep.1 c hc with h1 | h1
    · exact hstep.2 c h1
    · exact Or.inr h1

/-- The comparison `==` of a UUID with itself holds. -/
theorem opEq_self (a : BleUuid) : a.opEq a = true := by
  unfold BleUuid.opEq
  rw [if_pos ⟨rfl, rfl⟩]
  by_cases ht : a.type_ = BleUuidType.SHORT
  · rw [if_pos ht]; simp
  · rw [if_neg ht, memcmpEq_iff]
    intro j _; rfl

/-- The reserved base UUID is itself the base with the number of its bytes 12 and
13 stored there. -/
theorem ofBytes_base (order : BleUuidOrder) :
    BleUuid.ofBytes (some BLE_CTRL_REQ_SVC_UUID) order =
      BleUuid.ofBytesU16 (some BLE_CTRL_REQ_SVC_UUID) (baseSuffix order) order := by
  cases order <;> decide

/-- The number in the bytes 12 and 13 of the base: 1 read as LSB, 256 read as MSB. -/
theorem baseSuffix_lt (order : BleUuidOrder) : baseSuffix order < 65536 := by
  cases order <;> decide

/-- Two UUIDs made from the base compare equal exactly when the numbers stored are
the same. -/
theorem ofBytesU16_opEq (a b : Nat) (order : BleUuidOrder) (ha : a < 65536) (hb : b < 65536) :
    (BleUuid.ofBytesU16 (some BLE_CTRL_REQ_SVC_UUID) a order).opEq
      (BleUuid.ofBytesU16 (some BLE_CTRL_REQ_SVC_UUID) b order) = decide (a = b) := by
  by_cases hab : a = b
  · subst hab
    rw [opEq_self]
    simp
  · have hlong : (BleUuid.ofBytesU16 (some BLE_CTRL_REQ_SVC_UUID) a order).type_ =
        BleUuidType.LONG := by rw [ofBytesU16_base]
    cases hq : (BleUuid.ofBytesU16 (some BLE_CTRL_REQ_SVC_UUID) a order).opEq
        (BleUuid.ofBytesU16 (some BLE_CTRL_REQ_SVC_UUID) b order) with
    | false => simp [hab]
    | true =>
      have := opEq_suffix _ _ hq hlong
      rw [ofBytesU16_suffix a order ha, ofBytesU16_suffix b order hb] at this
      exact absurd this hab

/-! ### Lemmas on the connection lists -/

/-- On the cleared list every further iteration of `BlePeripheral::disconnect` reads
out of range. -/
theorem peripheralDisconnectLoop_nil :
    ∀ (n i : Nat), peripheralDisconnectLoop n i [] = (List.replicate n none, []) := by
  intro n
  induction n with
  | zero => intro i; rfl
  | succ n ih =>
    intro i
    simp only [peripheralDisconnectLoop, ih, List.replicate_succ]
    rfl

/-- The list that `BlePeripheral::disconnect` leaves is not longer than before. -/
theorem peripheral_disconnect_length (centrals_ : List BlePeerDevice) :
    (BlePeripheral.disconnect centrals_).2.2.length ≤ centrals_.length := by
  unfold BlePeripheral.disconnect
  cases centrals_ with
  | nil => simp [peripheralDisconnectLoop]
  | cons c rest =>
    simp only [List.length_cons, peripheralDisconnectLoop, peripheralDisconnectLoop_nil]
    simp

/-- The list that `BleCentral::disconnect` leaves is not longer than before. -/
theorem central_disconnect_length (peripherals_ : List BlePeerDevice)
    (peripheral : BlePeerDevice) :
    (BleCentral.disconnect peripherals_ peripheral).2.2.length ≤ peripherals_.length := by
  unfold BleCentral.disconnect
  split
  · exact Nat.le_refl _
  · exact @List.length_eraseP_le _ _ peripherals_

/-- The GATT cleanup runs through and changes no handle when every stored handle has
a record. -/
theorem gattsProcessDisconnected_some (g : BleGattServerImpl) (h : CharHeap)
    (peer : BlePeerDevice) (hstored : ∀ a ∈ storedHandles g.services, h.impl_ a ≠ none) :
    ∃ h2, g.gattsProcessDisconnected h peer = some h2 ∧ h2.impl_ = h.impl_ := by
  obtain ⟨h2, e1, e2, -⟩ :=
    disconnectChars_spec peer.connHandle (storedHandles g.services) h hstored
  refine ⟨h2, ?_, e2⟩
  unfold BleGattServerImpl.gattsProcessDisconnected
  rw [disconnectLoop_eq]
  exact e1

/-- One event or call keeps both lists within their maxima, the server model as it
is and every handle where it points; it completes when every stored handle has
a record. -/
theorem apply_bounded (maxPeripheral maxCentral addr0 : Nat) (s : BleLocalDevice × CharHeap)
    (op : DeviceOp)
    (hc : s.1.centrals_.length ≤ maxPeripheral) (hp : s.1.peripherals_.length ≤ maxCentral)
    (hstored : ∀ a ∈ storedHandles s.1.gattsProxy_.services, s.2.impl_ a ≠ none) :
    ∃ s2, DeviceOp.apply maxPeripheral maxCentral addr0 s op = some s2 ∧
      s2.1.centrals_.length ≤ maxPeripheral ∧ s2.1.peripherals_.length ≤ maxCentral ∧
      s2.1.gattsProxy_ = s.1.gattsProxy_ ∧ s2.2.impl_ = s.2.impl_ := by
  cases op with
  | event e =>
    cases e with
    | connected isP conn addr =>
      cases isP with
      | true =>
        refine ⟨_, rfl, ?_, hp, rfl, rfl⟩
        simp only [BlePeripheral.peripheralProcessConnected]
        split
        · simp only [List.length_append, List.length_singleton]; omega
        · exact hc
      | false =>
        refine ⟨_, rfl, hc, ?_, rfl, rfl⟩
        simp only [BleCentral.centralProcessConnected]
        split
        · simp only [List.length_append, List.length_singleton]; omega
        · exact hp
    | disconnected conn =>
      cases hf : s.1.findPeerDevice conn with
      | none =>
        refine ⟨s, ?_, hc, hp, rfl, rfl⟩
        simp only [DeviceOp.apply, BleLocalDevice.onBleEvents, hf]
      | some peer =>
        obtain ⟨h2, e1, e2⟩ := gattsProcessDisconnected_some s.1.gattsProxy_ s.2 peer hstored
        by_cases hr : peer.role = ROLE.PERIPHERAL
        · refine ⟨(⟨s.1.centrals_, BleCentral.centralProcessDisconnected s.1.peripherals_ peer,
            s.1.gattsProxy_⟩, h2), ?_, hc, ?_, rfl, e2⟩
          · simp only [DeviceOp.apply, BleLocalDevice.onBleEvents, hf, e1, if_pos hr]
          · exact Nat.le_trans (List.length_filter_le _ _) hp
        · refine ⟨(⟨BlePeripheral.peripheralProcessDisconnected s.1.centrals_ peer,
            s.1.peripherals_, s.1.gattsProxy_⟩, h2), ?_, ?_, hp, rfl, e2⟩
          · simp only [DeviceOp.apply, BleLocalDevice.onBleEvents, hf, e1, if_neg hr]
          · exact Nat.zero_le _
  | peripheralDisconnect =>
    exact ⟨_, rfl, Nat.le_trans (peripheral_disconnect_length _) hc, hp, rfl, rfl⟩
  | centralDisconnect peripheral =>
    exact ⟨_, rfl, hc, Nat.le_trans (central_disconnect_length _ _) hp, rfl, rfl⟩

/-- Every sequence of events and calls completes and keeps both lists within their
maxima. -/
theorem runDevice_bounded (maxPeripheral maxCentral addr0 : Nat) :
    ∀ (ops : List DeviceOp) (s : BleLocalDevice × CharHeap),
      s.1.centrals_.length ≤ maxPeripheral → s.1.peripherals_.length ≤ maxCentral →
      (∀ a ∈ storedHandles s.1.gattsProxy_.services, s.2.impl_ a ≠ none) →
      ∃ s2, runDevice maxPeripheral maxCentral addr0 ops s = some s2 ∧
        s2.1.centrals_.length ≤ maxPeripheral ∧ s2.1.peripherals_.length ≤ maxCentral := by
  intro ops
  induction ops with
  | nil => intro s hc hp _; exact ⟨s, rfl, hc, hp⟩
  | cons op rest ih =>
    intro s hc hp hstored
    obtain ⟨s1, e1, c1, p1, g1, i1⟩ :=
      apply_bounded maxPeripheral maxCentral addr0 s op hc hp hstored
    obtain ⟨s2, e2, c2, p2⟩ := ih s1 c1 p1 (by rw [g1, i1]; exact hstored)
    exact ⟨s2, by simp only [runDevice, e1]; exact e2, c2, p2⟩

/-! ## The claims -/

/-- C1 (evaluation at the failing input): on an empty buffer the calls
`append(9, [170])`, `append(255, [187])`, `append(9, [204])` all return
`SYSTEM_ERROR_NONE`; the third one updates the first structure in place while
another structure follows it. Afterwards the 6 bytes in use are
`2, 2, 204, 187, 255, 187` and `fetch(9)` returns 0 and copies nothing, where
the most recent value of type 9 has one byte, 204. -/
theorem fetch_after_update_in_place :
    appendAll [(9, [170]), (255, [187]), (9, [204])] (BleAdvData.init zeros31) =
        (true, ⟨[2, 2, 204, 187, 255, 187] ++ List.replicate 25 0, 6⟩) ∧
      (appendAll [(9, [170]), (255, [187]), (9, [204])] (BleAdvData.init zeros31)).2.fetch 9
        (some zeros31) 31 = (0, some zeros31) := by
  decide

/-- C2 (evaluation at the failing input): the buffer holding the structures
(9, [170]) and (255, [187]) is well formed and `fetch(255)` delivers one byte,
187; the update `append(9, [204])`, of equal size, returns
`SYSTEM_ERROR_NONE`, and afterwards `fetch(255)` returns 0: the block that
follows the updated structure was moved to `offset + len` instead of
`offset + len + 2` and then overwritten. -/
theorem update_in_place_damages_follower :
    WellFormed [(9, [170]), (255, [187])] ∧
      Holds ⟨[2, 9, 170, 2, 255, 187] ++ List.replicate 25 0, 6⟩ [(9, [170]), (255, [187])] ∧
      (BleAdvData.mk ([2, 9, 170, 2, 255, 187] ++ List.replicate 25 0) 6).fetch 255
        (some [0]) 1 = (1, some [187]) ∧
      append 9 (some [204]) ⟨[2, 9, 170, 2, 255, 187] ++ List.replicate 25 0, 6⟩ =
        (SystemError.NONE, ⟨[2, 2, 204, 187, 255, 187] ++ List.replicate 25 0, 6⟩) ∧
      (append 9 (some [204]) ⟨[2, 9, 170, 2, 255, 187] ++ List.replicate 25 0, 6⟩).2.fetch 255
        (some [0]) 1 = (0, some [0]) := by
  decide

/-- C3 (evaluation at the failing input): on an empty buffer `append(9, [])` and
then `append(9, [5])` both return `SYSTEM_ERROR_NONE`, and the buffer then
holds two structures of type 9, `1, 9` and `2, 9, 5`, in 5 bytes, where a
single structure with the value `[5]` takes 3: `locate` only looks at offsets
`i` with `i + 3 ≤ len` and so does not see a final structure without data. -/
theorem append_twice_duplicates :
    appendAll [(9, []), (9, [5])] (BleAdvData.init zeros31) =
        (true, ⟨[1, 9, 2, 9, 5] ++ List.replicate 26 0, 5⟩) ∧
      Holds ⟨[1, 9, 2, 9, 5] ++ List.replicate 26 0, 5⟩ [(9, []), (9, [5])] ∧
      (append 9 (some []) (BleAdvData.init zeros31)).2.locate 9 = none := by
  decide

/-- C4: for every buffer (`len ≤ 31`), type and byte string, if the length the
payload would get (the current length, less the size of the structure of that
type when `locate` reports one, plus the data length plus 2) exceeds 31, then
`append` returns `SYSTEM_ERROR_LIMIT_EXCEEDED` and hands back the very same
buffer: same `len`, same bytes. -/
theorem append_limit_exceeded (b : BleAdvData) (type : Byte) (bytes : List Byte)
    (hb : b.len ≤ BLE_MAX_ADV_DATA_LEN)
    (h : BLE_MAX_ADV_DATA_LEN <
      (match b.locate type with
        | some (_, adsLen) => b.len - adsLen
        | none => b.len) + bytes.length + 2) :
    append type (some bytes) b = (SystemError.LIMIT_EXCEEDED, b) := by
  unfold append
  simp only
  cases hloc : b.locate type with
  | none =>
    rw [hloc] at h
    simp only at h ⊢
    rw [if_neg (by omega)]
  | some r =>
    obtain ⟨o, L⟩ := r
    rw [hloc] at h
    have hs := locate_sound b type o L hloc
    have hb31 : b.len ≤ 31 := hb
    have h32 : b.len < SIZE_MOD := by unfold SIZE_MOD; omega
    have hsub : b.len - L ≤ b.len := Nat.sub_le _ _
    simp only at h ⊢
    rw [subSize_eq _ _ (by omega) h32, toU16_eq _ (by omega), if_neg (by omega)]

/-- Instance of C4: a buffer holding one structure of type 9 with 28 data bytes
(30 bytes in use) rejects an update of that structure to 30 data bytes, which
would need 32 bytes. -/
theorem append_limit_exceeded_witness :
    append 9 (some (List.replicate 30 7)) ⟨29 :: 9 :: List.replicate 29 7, 30⟩ =
      (SystemError.LIMIT_EXCEEDED, ⟨29 :: 9 :: List.replicate 29 7, 30⟩) :=
  append_limit_exceeded ⟨29 :: 9 :: List.replicate 29 7, 30⟩ 9 (List.replicate 30 7)
    (by decide) (by decide)

/-- C5: starting from empty buffers (whatever bytes the arrays hold), after any
sequence of append, remove and clear operations on the advertising and the
scan-response payload, succeeding or failing, both lengths are at most 31. -/
theorem payload_length_bounded (d0 d1 : List Byte) (ops : List Op) :
    (run ⟨BleAdvData.init d0, BleAdvData.init d1⟩ ops).advData_.len ≤ BLE_MAX_ADV_DATA_LEN ∧
      (run ⟨BleAdvData.init d0, BleAdvData.init d1⟩ ops).srData_.len ≤
        BLE_MAX_ADV_DATA_LEN :=
  run_len_le ops _ ⟨Nat.zero_le _, Nat.zero_le _⟩

/-- C6 (as amended): for buffers that hold runs of AD structures with pairwise
distinct types, each with at least one data byte, and every type T,
`removeFromAdvData(T)` returns `SYSTEM_ERROR_NONE` and deletes exactly the
structure of type T from the advertising payload (`fetch(T)` then returns 0,
the length has dropped by that structure's size, every other type fetches the
same length and bytes as before, an absent T leaves the buffer as it was), the
scan-response payload being untouched; `removeFromScanRspData(T)` does the same
on the scan-response payload for every T other than FLAGS, and for FLAGS it
returns `SYSTEM_ERROR_NOT_SUPPORTED` and changes nothing. -/
theorem remove_deletes_structure (bc : BleBroadcaster)
    (esA esS : List (Byte × List Byte)) (type : Byte)
    (hA : WellFormed esA) (hS : WellFormed esS)
    (hadv : Holds bc.advData_ esA) (hsr : Holds bc.srData_ esS) :
    ((bc.removeFromAdvData type).1 = SystemError.NONE ∧
      DeletedExactly bc.advData_ (bc.removeFromAdvData type).2.advData_ esA type ∧
      (bc.removeFromAdvData type).2.srData_ = bc.srData_) ∧
    (type ≠ BLE_SIG_AD_TYPE_FLAGS →
      (bc.removeFromScanRspData type).1 = SystemError.NONE ∧
      DeletedExactly bc.srData_ (bc.removeFromScanRspData type).2.srData_ esS type ∧
      (bc.removeFromScanRspData type).2.advData_ = bc.advData_) ∧
    bc.removeFromScanRspData BLE_SIG_AD_TYPE_FLAGS = (SystemError.NOT_SUPPORTED, bc) := by
  refine ⟨?_, ?_, ?_⟩
  · rw [removeFromAdvData_eq]
    exact ⟨rfl, removeAds_deletes _ esA type hA hadv, rfl⟩
  · intro ht
    rw [removeFromScanRspData_eq _ _ ht]
    exact ⟨rfl, removeAds_deletes _ esS type hS hsr, rfl⟩
  · unfold BleBroadcaster.removeFromScanRspData
    rw [if_pos rfl]

/-- Instance of C6 (as amended): the advertising payload is built by appending
the types 1, 9 and 255, the scan-response payload by appending the type 7; type
9 is removed from the first (the 4 bytes of type 255 move down) and type 7 from
the second. -/
theorem remove_deletes_structure_witness :
    ((BleBroadcaster.mk
        (appendAll [(1, [6]), (9, [170]), (255, [187, 188])] (BleAdvData.init zeros31)).2
        (appendAll [(7, [1, 2])] (BleAdvData.init zeros31)).2).removeFromAdvData 9).2.advData_ =
        ⟨[2, 1, 6, 3, 255, 187, 188, 255, 187, 188] ++ List.replicate 21 0, 7⟩ ∧
      DeletedExactly
        (appendAll [(1, [6]), (9, [170]), (255, [187, 188])] (BleAdvData.init zeros31)).2
        ((BleBroadcaster.mk
          (appendAll [(1, [6]), (9, [170]), (255, [187, 188])] (BleAdvData.init zeros31)).2
          (appendAll [(7, [1, 2])] (BleAdvData.init zeros31)).2).removeFromAdvData 9).2.advData_
        [(1, [6]), (9, [170]), (255, [187, 188])] 9 ∧
      DeletedExactly
        (appendAll [(7, [1, 2])] (BleAdvData.init zeros31)).2
        ((BleBroadcaster.mk
          (appendAll [(1, [6]), (9, [170]), (255, [187, 188])] (BleAdvData.init zeros31)).2
          (appendAll [(7, [1, 2])] (BleAdvData.init zeros31)).2).removeFromScanRspData
            7).2.srData_
        [(7, [1, 2])] 7 :=
  ⟨by decide,
   (remove_deletes_structure
      (BleBroadcaster.mk
        (appendAll [(1, [6]), (9, [170]), (255, [187, 188])] (BleAdvData.init zeros31)).2
        (appendAll [(7, [1, 2])] (BleAdvData.init zeros31)).2)
      [(1, [6]), (9, [170]), (255, [187, 188])] [(7, [1, 2])] 9
      (by decide) (by decide) (by decide) (by decide)).1.2.1,
   ((remove_deletes_structure
      (BleBroadcaster.mk
        (appendAll [(1, [6]), (9, [170]), (255, [187, 188])] (BleAdvData.init zeros31)).2
        (appendAll [(7, [1, 2])] (BleAdvData.init zeros31)).2)
      [(1, [6]), (9, [170]), (255, [187, 188])] [(7, [1, 2])] 7
      (by decide) (by decide) (by decide) (by decide)).2.1 (by decide)).2.1⟩

/-- C6 (the claim as stated fails): on a scan-response payload built by one
successful append, `removeFromScanRspData(FLAGS)` does not return success but
`SYSTEM_ERROR_NOT_SUPPORTED`; and on the advertising payload built by the
successful calls `append(9, [])`, `append(9, [5])`, `removeFromAdvData(9)`
leaves a structure of type 9 behind: `fetch(9)` still delivers the byte 5. -/
theorem remove_fails_as_stated :
    (appendAll [(9, [170])] (BleAdvData.init zeros31)).1 = true ∧
      ((BleBroadcaster.mk (BleAdvData.init zeros31)
        (appendAll [(9, [170])] (BleAdvData.init zeros31)).2).removeFromScanRspData
          BLE_SIG_AD_TYPE_FLAGS).1 = SystemError.NOT_SUPPORTED ∧
      (appendAll [(9, []), (9, [5])] (BleAdvData.init zeros31)).1 = true ∧
      ((BleBroadcaster.mk (appendAll [(9, []), (9, [5])] (BleAdvData.init zeros31)).2
        (BleAdvData.init zeros31)).removeFromAdvData 9).2.advData_.fetch 9 (some [0]) 1 =
          (1, some [5]) := by
  decide

/-- C7 (evaluation at the failing input): in the raw content `0, 9, 170, 187`
`locate(9)` reports a structure of total size 1 at offset 0 (the length byte 0
passes the bound check), and `fetch(9, out, 2)` then computes `1 - 2` in
`size_t`: it returns 4294967295 and copies two bytes. -/
theorem fetch_wraps_on_zero_length :
    (BleAdvData.mk ([0, 9, 170, 187] ++ List.replicate 27 0) 4).locate 9 = some (0, 1) ∧
      (BleAdvData.mk ([0, 9, 170, 187] ++ List.replicate 27 0) 4).fetch 9 (some [0, 0]) 2 =
        (4294967295, some [170, 187]) := by
  decide

/-- C8: for every buffer and every type, the scan of `locate` terminates (any
budget of at least `len + 1` iterations lets the loop exit by itself with the
value `locate` returns), a reported structure lies inside the buffer
(`offset + length ≤ len`), and a structure of the wanted type reached by the
scan whose declared length runs past the end of the buffer is reported as
absent. No bound on `len` is needed, so the statement covers every content of
at most 31 bytes, raw scan data included. -/
theorem locate_terminates_in_bounds (b : BleAdvData) (type : Byte) :
    (∀ fuel, b.len + 1 ≤ fuel →
        locateLoop b.data b.len type fuel 0 = some (b.locate type)) ∧
    (∀ o L, b.locate type = some (o, L) → o + L ≤ b.len) ∧
    (∀ (pre : List (Byte × List Byte)) (l : Byte) (rest : List Byte),
        (∀ e ∈ pre, e.1 ≠ type ∧ e.2.length ≤ 254) →
        b.data.take b.len = encode pre ++ l :: type :: rest →
        b.len ≤ b.data.length →
        rest.length + 1 < l.val →
        b.locate type = none) :=
  ⟨fun fuel h => locateLoop_eq_locate b type fuel h,
   fun o L h => (locate_sound b type o L h).2.2.2,
   fun pre l rest h1 h2 h3 h4 => locate_truncated b type pre l rest h1 h2 h3 h4⟩

/-- Instance of C8 on raw scan data of 7 bytes: after a structure of type 9 comes
a structure of type 255 that declares 7 bytes where 2 remain. With a budget of
8 iterations the loop exits by itself, `locate` finds the first structure
inside the buffer and reports the second as absent. -/
theorem locate_terminates_in_bounds_witness :
    locateLoop ([2, 9, 170, 7, 255, 1, 3] ++ List.replicate 24 0) 7 255 8 0 =
        some ((BleAdvData.mk ([2, 9, 170, 7, 255, 1, 3] ++ List.replicate 24 0) 7).locate 255) ∧
      (BleAdvData.mk ([2, 9, 170, 7, 255, 1, 3] ++ List.replicate 24 0) 7).locate 9 =
        some (0, 3) ∧
      0 + 3 ≤ 7 ∧
      (BleAdvData.mk ([2, 9, 170, 7, 255, 1, 3] ++ List.replicate 24 0) 7).locate 255 = none :=
  ⟨(locate_terminates_in_bounds
      (BleAdvData.mk ([2, 9, 170, 7, 255, 1, 3] ++ List.replicate 24 0) 7) 255).1 8
      (by decide),
   by decide,
   (locate_terminates_in_bounds
      (BleAdvData.mk ([2, 9, 170, 7, 255, 1, 3] ++ List.replicate 24 0) 7) 9).2.1 0 3
      (by decide),
   (locate_terminates_in_bounds
      (BleAdvData.mk ([2, 9, 170, 7, 255, 1, 3] ++ List.replicate 24 0) 7) 255).2.2
      [(9, [170])] 7 [1, 3] (by decide) (by decide) (by decide) (by decide)⟩

/-- C9 (the code at every absent type): when `locate` reports the type as absent
and `SYSTEM_ERROR_NOT_FOUND` is a non-zero code, `contain(type, buf, len)`
returns `true` for every non-null `buf`: the code is returned through `bool`. -/
theorem contain_absent_is_true (code : SystemError → Int) (temp : List Byte)
    (b : BleAdvData) (type : Byte) (bytes : List Byte)
    (hcode : code SystemError.NOT_FOUND ≠ 0) (habs : b.locate type = none) :
    b.contain code temp type (some bytes) = true := by
  simp [BleAdvData.contain, BleAdvData.fetch, habs, hcode]

/-- Instance of C9 at the failing input: the empty buffer does not hold type 9,
yet `contain(9, [170], 1)` is `true`. -/
theorem contain_absent_is_true_witness :
    (BleAdvData.init zeros31).locate 9 = none ∧
      (BleAdvData.init zeros31).contain systemErrorValue zeros31 9 (some [170]) = true :=
  ⟨by decide,
   contain_absent_is_true systemErrorValue zeros31 (BleAdvData.init zeros31) 9 [170]
     (by decide) (by decide)⟩

/-- C10 (evaluation at the failing input): the buffer holds type 9 with the data
`170, 187`; `contain(9, [170], 1)` and `contain(9, [], 0)` both return `true`
although neither value is the stored one: `memcmp` compares `len` bytes and
`len` is never compared with the stored length. -/
theorem contain_accepts_shorter_value (code : SystemError → Int) :
    (BleAdvData.mk ([3, 9, 170, 187] ++ List.replicate 27 0) 4).fetch 9 (some [0, 0]) 2 =
        (2, some [170, 187]) ∧
      (BleAdvData.mk ([3, 9, 170, 187] ++ List.replicate 27 0) 4).contain code zeros31 9
        (some [170]) = true ∧
      (BleAdvData.mk ([3, 9, 170, 187] ++ List.replicate 27 0) 4).contain code zeros31 9
        (some []) = true :=
  ⟨by decide, rfl, rfl⟩

/-- C11 (evaluation at the failing input): the broadcaster constructed for the
device name `Argon` and platform 12 has the advertising payload
`2,1,6, 6,9,A,r,g,o,n, 5,255,0x62,0x06,12,0`, which contains FLAGS. After
`removeFromAdvData(FLAGS)` (it returns `SYSTEM_ERROR_NONE`), after
`clearAdvData()`, and after `appendAdvData(FLAGS, [6])` (an in-place update
that overwrites the type byte), the payload no longer contains FLAGS. -/
theorem flags_not_retained :
    (BleBroadcaster.new zeros31 zeros31 nameArgon 12 BleUuidOrder.LSB).advData_ =
        ⟨[2, 1, 6, 6, 9, 65, 114, 103, 111, 110, 5, 255, 0x62, 0x06, 12, 0] ++
          List.replicate 15 0, 16⟩ ∧
      (BleBroadcaster.new zeros31 zeros31 nameArgon 12
        BleUuidOrder.LSB).advData_.containType BLE_SIG_AD_TYPE_FLAGS = true ∧
      ((BleBroadcaster.new zeros31 zeros31 nameArgon 12 BleUuidOrder.LSB).removeFromAdvData
        BLE_SIG_AD_TYPE_FLAGS).1 = SystemError.NONE ∧
      ((BleBroadcaster.new zeros31 zeros31 nameArgon 12 BleUuidOrder.LSB).removeFromAdvData
        BLE_SIG_AD_TYPE_FLAGS).2.advData_.containType BLE_SIG_AD_TYPE_FLAGS = false ∧
      (BleBroadcaster.new zeros31 zeros31 nameArgon 12
        BleUuidOrder.LSB).clearAdvData.2.advData_.containType BLE_SIG_AD_TYPE_FLAGS = false ∧
      ((BleBroadcaster.new zeros31 zeros31 nameArgon 12 BleUuidOrder.LSB).appendAdvData
        BLE_SIG_AD_TYPE_FLAGS (some [6])).1 = SystemError.NONE ∧
      ((BleBroadcaster.new zeros31 zeros31 nameArgon 12 BleUuidOrder.LSB).appendAdvData
        BLE_SIG_AD_TYPE_FLAGS (some [6])).2.advData_.containType BLE_SIG_AD_TYPE_FLAGS =
          false := by
  decide

/-- C12 (the claim as stated fails): on the freshly constructed broadcaster
`removeFromScanRspData(FLAGS)` returns `SYSTEM_ERROR_NOT_SUPPORTED`, which is
not `SYSTEM_ERROR_INVALID_ARGUMENT`. -/
theorem remove_flags_code_is_not_invalid_argument :
    ((BleBroadcaster.new zeros31 zeros31 nameArgon 12 BleUuidOrder.LSB).removeFromScanRspData
        BLE_SIG_AD_TYPE_FLAGS).1 = SystemError.NOT_SUPPORTED ∧
      ((BleBroadcaster.new zeros31 zeros31 nameArgon 12 BleUuidOrder.LSB).removeFromScanRspData
        BLE_SIG_AD_TYPE_FLAGS).1 ≠ SystemError.INVALID_ARGUMENT := by
  decide

/-- C12 (as amended): `removeFromScanRspData` called with the FLAGS AD type is
rejected with `SYSTEM_ERROR_NOT_SUPPORTED` and leaves both payloads, the
scan-response buffer's length and bytes included, as they were. -/
theorem remove_flags_from_scan_response_rejected (bc : BleBroadcaster) :
    bc.removeFromScanRspData BLE_SIG_AD_TYPE_FLAGS = (SystemError.NOT_SUPPORTED, bc) ∧
      (bc.removeFromScanRspData BLE_SIG_AD_TYPE_FLAGS).2.srData_.len = bc.srData_.len ∧
      (bc.removeFromScanRspData BLE_SIG_AD_TYPE_FLAGS).2.srData_.data = bc.srData_.data := by
  have h : bc.removeFromScanRspData BLE_SIG_AD_TYPE_FLAGS = (SystemError.NOT_SUPPORTED, bc) := by
    unfold BleBroadcaster.removeFromScanRspData
    rw [if_pos rfl]
  rw [h]
  exact ⟨rfl, rfl, rfl⟩

/-- C13: for every two UUID values, `a == b` holds exactly when the variants are
the same, the byte-order tags are the same and the values are the same (the
16-bit value for SHORT, each of the 16 bytes for LONG); `==` is reflexive and
symmetric, and one 128-bit value tagged MSB and LSB compares unequal. -/
theorem uuid_equality (a b : BleUuid) :
    (a.opEq b = true ↔
      a.type_ = b.type_ ∧ a.order_ = b.order_ ∧
        (match a.type_ with
          | BleUuidType.SHORT => a.shortUuid_ = b.shortUuid_
          | BleUuidType.LONG =>
            ∀ i, i < 16 → a.fullUuid_.getD i 0 = b.fullUuid_.getD i 0)) ∧
    a.opEq a = true ∧
    a.opEq b = b.opEq a ∧
    (∀ (s1 s2 : Nat) (v : List Byte),
      (BleUuid.mk BleUuidType.LONG BleUuidOrder.MSB s1 v).opEq
        ⟨BleUuidType.LONG, BleUuidOrder.LSB, s2, v⟩ = false) := by
  have key : ∀ x y : BleUuid, x.opEq y = true ↔
      x.type_ = y.type_ ∧ x.order_ = y.order_ ∧
        (match x.type_ with
          | BleUuidType.SHORT => x.shortUuid_ = y.shortUuid_
          | BleUuidType.LONG =>
            ∀ i, i < 16 → x.fullUuid_.getD i 0 = y.fullUuid_.getD i 0) := by
    intro x y
    obtain ⟨xt, xo, xs, xf⟩ := x
    obtain ⟨yt, yo, ys, yf⟩ := y
    unfold BleUuid.opEq
    simp only
    by_cases h : xt = yt ∧ xo = yo
    · rw [if_pos h]
      cases xt with
      | SHORT =>
        simp only [if_true, decide_eq_true_eq]
        exact ⟨fun hs => ⟨h.1, h.2, hs⟩, fun hs => hs.2.2⟩
      | LONG =>
        rw [if_neg (by simp), memcmpEq_iff]
        exact ⟨fun hs => ⟨h.1, h.2, hs⟩, fun hs => hs.2.2⟩
    · rw [if_neg h]
      constructor
      · intro hf; cases hf
      · intro hs; exact absurd ⟨hs.1, hs.2.1⟩ h
  have hrefl : ∀ x : BleUuid, x.opEq x = true := by
    intro x
    rw [key]
    refine ⟨rfl, rfl, ?_⟩
    cases x.type_ with
    | SHORT => rfl
    | LONG => intro i _; rfl
  have hsymm : ∀ x y : BleUuid, x.opEq y = true → y.opEq x = true := by
    intro x y h
    rw [key] at h ⊢
    obtain ⟨h1, h2, h3⟩ := h
    refine ⟨h1.symm, h2.symm, ?_⟩
    rw [← h1]
    cases hx : x.type_ with
    | SHORT => rw [hx] at h3; exact h3.symm
    | LONG => rw [hx] at h3; intro i hi; exact (h3 i hi).symm
  refine ⟨key a b, hrefl a, ?_, ?_⟩
  · cases hab : a.opEq b with
    | true => exact (hsymm a b hab).symm
    | false =>
      cases hba : b.opEq a with
      | true => rw [hsymm b a hba] at hab; cases hab
      | false => rfl
  · intro s1 s2 v
    unfold BleUuid.opEq
    rw [if_neg (by simp)]

/-- C14 (the claim as stated fails): in the text `1-2` the separator stands
inside a pair; parsing it stores the bytes `0x10` and `0x20` at the indices 15
and 14, whereas the text without the separator, `12`, gives the single byte
`0x12` at index 15. -/
theorem setUuid_separator_inside_pair :
    "1-2".toList.filter isHexDigit = "12".toList ∧
      (BleUuid.ofString (List.replicate 16 0) "1-2".toList).fullUuid_ =
        List.replicate 14 0 ++ [0x20, 0x10] ∧
      (BleUuid.ofString (List.replicate 16 0) ("1-2".toList.filter isHexDigit)).fullUuid_ =
        List.replicate 15 0 ++ [0x12] ∧
      BleUuid.ofString (List.replicate 16 0) "1-2".toList ≠
        BleUuid.ofString (List.replicate 16 0) ("1-2".toList.filter isHexDigit) := by
  decide

/-- C14 (as amended): for every text made of pairs of adjacent hexadecimal digits
with any characters that are no digits between the pairs, optionally followed
by one more digit and further characters that are no digits, and denoting at
most 16 bytes, `setUuid` gives the same value as on the text with every
character that is no digit removed. -/
theorem setUuid_ignores_separators (u : BleUuid) (ts : List UuidToken) (tail : List Char)
    (hlen : u.fullUuid_.length = BLE_SIG_UUID_128BIT_LEN)
    (hok : ∀ t ∈ ts, t.Ok) (htail : TailOk tail)
    (hk : (pairBytes ts).length + (tailBytes tail).length ≤ BLE_SIG_UUID_128BIT_LEN) :
    u.setUuid (tokenText ts ++ tail) =
      u.setUuid ((tokenText ts ++ tail).filter isHexDigit) := by
  obtain ⟨ps, h1, h2, h3⟩ := filter_tokenText ts hok
  obtain ⟨h4, h5⟩ := filter_tail tail htail
  rw [List.filter_append, h3, setUuid_closed u ts tail hlen hok htail hk,
    setUuid_closed u ps _ hlen h1 h4 (by rw [h2, h5]; exact hk), h2, h5]

/-- Instance of C14 (as amended): `6E40-0001A-` and `6E400001A` parse alike. -/
theorem setUuid_ignores_separators_witness :
    (BleUuid.mk BleUuidType.LONG BleUuidOrder.LSB 0 (List.replicate 16 7)).setUuid
        "6E40-0001A-".toList =
      (BleUuid.mk BleUuidType.LONG BleUuidOrder.LSB 0 (List.replicate 16 7)).setUuid
        "6E400001A".toList :=
  setUuid_ignores_separators ⟨BleUuidType.LONG, BleUuidOrder.LSB, 0, List.replicate 16 7⟩
    [UuidToken.pair '6' 'E', UuidToken.pair '4' '0', UuidToken.sep '-',
      UuidToken.pair '0' '0', UuidToken.pair '0' '1']
    ['A', '-'] (by decide) (by decide) (by decide) (by decide)

/-- C15 (the claim as stated fails): for the canonical text of the test,
`6E400001-B5A3-F393-E0A9-E50E24DCCA9E`, byte 0 of the parsed value is the last
pair `9E`, not the first pair `6E`; the first pair is at index 15. -/
theorem setUuid_first_pair_not_at_zero :
    (BleUuid.ofString (List.replicate 16 0)
        "6E400001-B5A3-F393-E0A9-E50E24DCCA9E".toList).fullUuid_ =
      [0x9E, 0xCA, 0xDC, 0x24, 0x0E, 0xE5, 0xA9, 0xE0, 0x93, 0xF3, 0xA3, 0xB5, 0x01, 0x00,
        0x40, 0x6E] ∧
      (BleUuid.ofString (List.replicate 16 0)
        "6E400001-B5A3-F393-E0A9-E50E24DCCA9E".toList).fullUuid_.getD 0 0 ≠ 0x6E := by
  decide

/-- C15 (as amended): for every text made of at most 16 pairs of adjacent
hexadecimal digits, with characters that are no digits between the pairs, both
string constructors give a LONG UUID with LSB order whose byte 15 holds the
first pair of the text, byte 14 the second, and so on downwards, and whose
bytes below the last stored one are zero. -/
theorem setUuid_fills_downwards (mem : List Byte) (ts : List UuidToken)
    (hlen : mem.length = BLE_SIG_UUID_128BIT_LEN) (hok : ∀ t ∈ ts, t.Ok)
    (hk : (pairBytes ts).length ≤ BLE_SIG_UUID_128BIT_LEN) :
    (BleUuid.ofString mem (tokenText ts)).type_ = BleUuidType.LONG ∧
    (BleUuid.ofString mem (tokenText ts)).order_ = BleUuidOrder.LSB ∧
    (BleUuid.ofString mem (tokenText ts)).fullUuid_.length = 16 ∧
    (∀ j, j < (pairBytes ts).length →
      (BleUuid.ofString mem (tokenText ts)).fullUuid_.getD (15 - j) 0 =
        (pairBytes ts).getD j 0) ∧
    (∀ i, i + (pairBytes ts).length < 16 →
      (BleUuid.ofString mem (tokenText ts)).fullUuid_.getD i 0 = 0) ∧
    BleUuid.ofCString mem (some (tokenText ts)) = BleUuid.ofString mem (tokenText ts) := by
  have h16 : BLE_SIG_UUID_128BIT_LEN = 16 := rfl
  have hc := setUuid_closed ⟨BleUuidType.LONG, BleUuidOrder.LSB, 0, mem⟩ ts [] hlen hok
    trivial (by simpa [tailBytes] using hk)
  simp only [tailBytes, List.length_nil, Nat.add_zero, List.append_nil] at hc
  rw [h16] at hk hc
  unfold BleUuid.ofString
  rw [hc]
  refine ⟨rfl, rfl, ?_, ?_, ?_, ?_⟩
  · simp only [List.length_append, List.length_replicate, List.length_reverse]
    omega
  · intro j hj
    simp only [List.getD_eq_getElem?_getD]
    rw [List.getElem?_append_right (by simp only [List.length_replicate]; omega),
      List.getElem?_reverse (by simp only [List.length_replicate]; omega)]
    congr 2
    simp only [List.length_replicate]
    omega
  · intro i hi
    simp only [List.getD_eq_getElem?_getD]
    rw [List.getElem?_append_left (by simp only [List.length_replicate]; omega),
      List.getElem?_replicate, if_pos (by omega)]
    rfl
  · unfold BleUuid.ofCString
    simp only
    rw [hc]

/-- Instance of C15 (as amended): the canonical text of the test has 16 pairs;
byte 15 is `6E`, byte 14 is `40`, byte 0 is `9E`. -/
theorem setUuid_fills_downwards_witness :
    (BleUuid.ofString (List.replicate 16 0)
        "6E400001-B5A3-F393-E0A9-E50E24DCCA9E".toList).fullUuid_.getD (15 - 0) 0 = 0x6E ∧
      (BleUuid.ofString (List.replicate 16 0)
        "6E400001-B5A3-F393-E0A9-E50E24DCCA9E".toList).fullUuid_.getD (15 - 1) 0 = 0x40 ∧
      (BleUuid.ofString (List.replicate 16 0)
        "6E400001-B5A3-F393-E0A9-E50E24DCCA9E".toList).fullUuid_.getD (15 - 15) 0 = 0x9E :=
  ⟨(setUuid_fills_downwards (List.replicate 16 0)
      [UuidToken.pair '6' 'E', UuidToken.pair '4' '0', UuidToken.pair '0' '0',
        UuidToken.pair '0' '1', UuidToken.sep '-', UuidToken.pair 'B' '5',
        UuidToken.pair 'A' '3', UuidToken.sep '-', UuidToken.pair 'F' '3',
        UuidToken.pair '9' '3', UuidToken.sep '-', UuidToken.pair 'E' '0',
        UuidToken.pair 'A' '9', UuidToken.sep '-', UuidToken.pair 'E' '5',
        UuidToken.pair '0' 'E', UuidToken.pair '2' '4', UuidToken.pair 'D' 'C',
        UuidToken.pair 'C' 'A', UuidToken.pair '9' 'E']
      (by decide) (by decide) (by decide)).2.2.2.1 0 (by decide),
   by decide, by decide⟩

/-- C16: a handle A constructed with a new record has reference count 1 and stub
count 0; copy-constructing B from A raises the count to 2 and tags B as A is
tagged; destroying B brings the count back to 1 and leaves A attached to the
same record, which is again exactly what it was before the copy. The last
conjunct says the same for any handle A that has a record, whatever its tag
(so B is a stub exactly when A is one): the copy adds one entry with the tag
of A and destroying the copy restores the record. -/
theorem handle_copy_destroy (h : CharHeap) (r0 : BleCharacteristicImpl) (a b : Nat)
    (hr0 : r0.references = []) (hab : a ≠ b) :
    (BleCharacteristic.construct h a r0).impl_ a = some h.fresh ∧
    ((BleCharacteristic.construct h a r0).record h.fresh).references.length = 1 ∧
    ((BleCharacteristic.construct h a r0).record h.fresh).referenceStubCount = 0 ∧
    (BleCharacteristic.copyCtor (BleCharacteristic.construct h a r0) b a).impl_ b =
      some h.fresh ∧
    ((BleCharacteristic.copyCtor (BleCharacteristic.construct h a r0) b a).record
      h.fresh).references.length = 2 ∧
    ((BleCharacteristic.copyCtor (BleCharacteristic.construct h a r0) b a).record
      h.fresh).isReferenceStub b =
      ((BleCharacteristic.copyCtor (BleCharacteristic.construct h a r0) b a).record
        h.fresh).isReferenceStub a ∧
    ((BleCharacteristic.dtor (BleCharacteristic.copyCtor (BleCharacteristic.construct h a r0)
      b a) b).record h.fresh).references.length = 1 ∧
    (BleCharacteristic.dtor (BleCharacteristic.copyCtor (BleCharacteristic.construct h a r0)
      b a) b).impl_ a = some h.fresh ∧
    (BleCharacteristic.dtor (BleCharacteristic.copyCtor (BleCharacteristic.construct h a r0)
      b a) b).record h.fresh = (BleCharacteristic.construct h a r0).record h.fresh ∧
    (∀ (g : CharHeap) (id : Nat), g.impl_ a = some id →
      (∀ e ∈ (g.record id).references, e.charPtr ≠ b) →
      ((BleCharacteristic.copyCtor g b a).record id).references =
          (g.record id).references ++ [⟨b, (g.record id).isReferenceStub a⟩] ∧
        (BleCharacteristic.dtor (BleCharacteristic.copyCtor g b a) b).record id =
          g.record id ∧
        (BleCharacteristic.dtor (BleCharacteristic.copyCtor g b a) b).impl_ a = some id) := by
  have hrec : (BleCharacteristic.construct h a r0).record h.fresh =
      r0.addReference a false := by
    simp [BleCharacteristic.construct]
  have hrefs : ((BleCharacteristic.construct h a r0).record h.fresh).references =
      [⟨a, false⟩] := by
    rw [hrec]
    simp [BleCharacteristicImpl.addReference, hr0]
  have himpl : (BleCharacteristic.construct h a r0).impl_ a = some h.fresh := by
    simp [BleCharacteristic.construct]
  have hb : ∀ e ∈ ((BleCharacteristic.construct h a r0).record h.fresh).references,
      e.charPtr ≠ b := by
    rw [hrefs]
    intro e he
    rw [List.mem_singleton] at he
    rw [he]
    exact hab
  obtain ⟨c1, c2, _, c4, c5, _⟩ :=
    copy_dtor_restores (BleCharacteristic.construct h a r0) a b h.fresh himpl hab hb
  refine ⟨himpl, ?_, ?_, c2, ?_, ?_, ?_, c5, c4, ?_⟩
  · rw [hrefs]; rfl
  · simp [BleCharacteristicImpl.referenceStubCount, hrefs, stubCountIn]
  · rw [c1, hrefs]; rfl
  · have hsa : ((BleCharacteristic.construct h a r0).record h.fresh).isReferenceStub a =
        false := by
      simp [BleCharacteristicImpl.isReferenceStub, hrefs, isReferenceStubIn]
    simp only [BleCharacteristicImpl.isReferenceStub] at hsa ⊢
    rw [c1, hrefs]
    simp only [BleCharacteristicImpl.isReferenceStub, hrefs] at hsa ⊢
    simp [isReferenceStubIn, hab, hab.symm]
  · rw [c4, hrefs]; rfl
  · intro g id hg hgb
    obtain ⟨d1, _, _, d4, d5, _⟩ := copy_dtor_restores g a b id hg hab hgb
    exact ⟨d1, d4, d5⟩

/-- Instance of C16: a characteristic `tx` with NOTIFY made at address 100 and
copied to address 200. -/
theorem handle_copy_destroy_witness :
    (BleCharacteristicImpl.newDesc mem0 (some "tx".toList) PROPERTY.NOTIFY none).references =
        [] ∧
      ((BleCharacteristic.copyCtor (BleCharacteristic.construct CharHeap.empty 100
        (BleCharacteristicImpl.newDesc mem0 (some "tx".toList) PROPERTY.NOTIFY none))
        200 100).record 0).references = [⟨100, false⟩, ⟨200, false⟩] ∧
      ((BleCharacteristic.dtor (BleCharacteristic.copyCtor
        (BleCharacteristic.construct CharHeap.empty 100
          (BleCharacteristicImpl.newDesc mem0 (some "tx".toList) PROPERTY.NOTIFY none))
        200 100) 200).record 0).references.length = 1 :=
  ⟨by decide, by decide,
   (handle_copy_destroy CharHeap.empty
      (BleCharacteristicImpl.newDesc mem0 (some "tx".toList) PROPERTY.NOTIFY none) 100 200
      (by decide) (by decide)).2.2.2.2.2.2.1⟩

/-- C17: for a handle with a record whose reference list names it at most once.
When the list has exactly one stub-tagged entry and that entry names the
handle, destroying the handle, or assigning to it, leaves every other handle
named in the list pointing to no record. In every other case destroying it
only removes its own entry from the list and every other handle keeps its
record; an assignment to it likewise leaves every other handle attached and
the entries of the other handles in place. (An assignment is taken at the
point where it completes; its later part only touches the target.) -/
theorem release_detaches_or_removes (h : CharHeap) (this id src : Nat)
    (hatt : h.impl_ this = some id)
    (honce : (h.record id).references.countP (fun e => decide (e.charPtr = this)) ≤ 1) :
    ((h.record id).referenceStubCount = 1 ∧
        (∃ e ∈ (h.record id).references, e.charPtr = this ∧ e.isStub = true) →
      ∀ g, g ≠ this → (∃ e ∈ (h.record id).references, e.charPtr = g) →
        (BleCharacteristic.dtor h this).impl_ g = none ∧
        ∀ h1, BleCharacteristic.assign h this src = some h1 → h1.impl_ g = none) ∧
    (¬ ((h.record id).referenceStubCount = 1 ∧
        ∃ e ∈ (h.record id).references, e.charPtr = this ∧ e.isStub = true) →
      ((BleCharacteristic.dtor h this).record id).references =
          (h.record id).references.filter (fun e => decide (e.charPtr ≠ this)) ∧
      (∀ g, g ≠ this → (BleCharacteristic.dtor h this).impl_ g = h.impl_ g) ∧
      ∀ h1, BleCharacteristic.assign h this src = some h1 →
        (∀ g, g ≠ this → h1.impl_ g = h.impl_ g) ∧
        (h1.record id).references.filter (fun e => decide (e.charPtr ≠ this)) =
          (h.record id).references.filter (fun e => decide (e.charPtr ≠ this))) := by
  have hiff := isReferenceStub_once (h.record id).references this honce
  constructor
  · rintro ⟨hcount, hex⟩ g hg hnamed
    have hc : (h.record id).isReferenceStub this = true ∧
        (h.record id).referenceStubCount = 1 := ⟨hiff.mpr hex, hcount⟩
    have hrel := release_detach_eq h this id hatt hc
    have hgnone : (BleCharacteristic.release h this).impl_ g = none := by
      rw [hrel, detachOthers_impl, if_pos ⟨hg, hnamed⟩]
    constructor
    · unfold BleCharacteristic.dtor
      simp only [CharHeap.setImpl, if_neg hg]
      exact hgnone
    · intro h1 he
      rw [assign_impl_frame h this src h1 he g hg]
      exact hgnone
  · intro hn
    have hc : ¬ ((h.record id).isReferenceStub this = true ∧
        (h.record id).referenceStubCount = 1) := by
      rintro ⟨h1, h2⟩
      exact hn ⟨h2, hiff.mp h1⟩
    have hrel := release_remove_eq h this id hatt hc
    have hrefs : ((BleCharacteristic.release h this).record id).references =
        (h.record id).references.filter (fun e => decide (e.charPtr ≠ this)) := by
      rw [hrel]
      simp only [CharHeap.setRecord, if_true]
      exact removeReference_once (h.record id) this honce
    have himpl : ∀ g, (BleCharacteristic.release h this).impl_ g = h.impl_ g := by
      intro g
      rw [hrel]
      rfl
    refine ⟨?_, ?_, ?_⟩
    · unfold BleCharacteristic.dtor
      simp only [CharHeap.setImpl]
      exact hrefs
    · intro g hg
      unfold BleCharacteristic.dtor
      simp only [CharHeap.setImpl, if_neg hg]
      exact himpl g
    · intro h1 he
      constructor
      · intro g hg
        rw [assign_impl_frame h this src h1 he g hg]
        exact himpl g
      · rcases assign_refs h this src h1 he id with h2 | ⟨tag, h2⟩
        · rw [h2, hrefs, List.filter_filter]
          simp
        · rw [h2, hrefs, List.filter_append, List.filter_filter]
          simp

/-- Instance of C17 on the heap where handle 100 is registered with its stub copy
at 200 (references `(100, no stub), (200, stub)`): destroying the stub 200
detaches handle 100; destroying handle 100 only removes its entry and leaves
200 attached. -/
theorem release_detaches_or_removes_witness :
    (heapRegistered.record 0).references = [⟨100, false⟩, ⟨200, true⟩] ∧
      (BleCharacteristic.dtor heapRegistered 200).impl_ 100 = none ∧
      (BleCharacteristic.dtor heapRegistered 100).impl_ 200 = heapRegistered.impl_ 200 :=
  ⟨by decide,
   ((release_detaches_or_removes heapRegistered 200 0 100 (by decide) (by decide)).1
      ⟨by decide, ⟨⟨200, true⟩, by decide, rfl, rfl⟩⟩ 100 (by decide)
      ⟨⟨100, false⟩, by decide, rfl⟩).1,
   ((release_detaches_or_removes heapRegistered 100 0 200 (by decide) (by decide)).2
      (by decide)).2.1 200 (by decide)⟩

/-- C18 (the claim as stated fails): handle 100 is registered, the service holds
its stub copy at 200 and these are the only two references; destroying handle
100 leaves the stub 200 attached to record 0. -/
theorem destroying_app_handle_leaves_stub_attached :
    (heapRegistered.record 0).references = [⟨100, false⟩, ⟨200, true⟩] ∧
      heapRegistered.impl_ 100 = some 0 ∧
      (BleCharacteristic.dtor heapRegistered 100).impl_ 200 = some 0 ∧
      (BleCharacteristic.dtor heapRegistered 100).impl_ 200 ≠ none := by
  decide

/-- C18 (as amended): when a characteristic made at address `c` has been
registered into a service, which stores its stub copy at address `s`, and
these two are the only references, destroying `c` only removes the entry of
`c`: the stub `s` stays attached to the record, which then has reference count
1 and stub count 1. It is destroying the stub `s` that detaches `c`. -/
theorem destroying_app_handle_keeps_stub (h : CharHeap) (r0 : BleCharacteristicImpl)
    (c s svc : Nat) (hr0 : r0.references = []) (hcs : c ≠ s) :
    ((BleServiceImpl.storeCharacteristic (BleCharacteristic.construct h c r0) svc c s).record
        h.fresh).references = [⟨c, false⟩, ⟨s, true⟩] ∧
    (BleCharacteristic.dtor
      (BleServiceImpl.storeCharacteristic (BleCharacteristic.construct h c r0) svc c s)
      c).impl_ s = some h.fresh ∧
    ((BleCharacteristic.dtor
      (BleServiceImpl.storeCharacteristic (BleCharacteristic.construct h c r0) svc c s)
      c).record h.fresh).references = [⟨s, true⟩] ∧
    ((BleCharacteristic.dtor
      (BleServiceImpl.storeCharacteristic (BleCharacteristic.construct h c r0) svc c s)
      c).record h.fresh).referenceStubCount = 1 ∧
    (BleCharacteristic.dtor
      (BleServiceImpl.storeCharacteristic (BleCharacteristic.construct h c r0) svc c s)
      s).impl_ c = none := by
  have hsc : s ≠ c := fun e => hcs e.symm
  have hrefs : ((BleServiceImpl.storeCharacteristic (BleCharacteristic.construct h c r0)
      svc c s).record h.fresh).references = [⟨c, false⟩, ⟨s, true⟩] := by
    simp [BleServiceImpl.storeCharacteristic, BleCharacteristic.construct,
      BleCharacteristic.copyCtor, CharHeap.setRecord, CharHeap.setImpl,
      BleCharacteristicImpl.addReference, BleCharacteristicImpl.markReferenceAsStub,
      BleCharacteristicImpl.isReferenceStub, isReferenceStubIn, hr0, hcs]
  have hic : (BleServiceImpl.storeCharacteristic (BleCharacteristic.construct h c r0)
      svc c s).impl_ c = some h.fresh := by
    simp [BleServiceImpl.storeCharacteristic, BleCharacteristic.construct,
      BleCharacteristic.copyCtor, CharHeap.setRecord, CharHeap.setImpl, hcs]
  have his : (BleServiceImpl.storeCharacteristic (BleCharacteristic.construct h c r0)
      svc c s).impl_ s = some h.fresh := by
    simp [BleServiceImpl.storeCharacteristic, BleCharacteristic.construct,
      BleCharacteristic.copyCtor, CharHeap.setRecord, CharHeap.setImpl]
  have hnc : ¬ (((BleServiceImpl.storeCharacteristic (BleCharacteristic.construct h c r0)
        svc c s).record h.fresh).isReferenceStub c = true ∧
      ((BleServiceImpl.storeCharacteristic (BleCharacteristic.construct h c r0)
        svc c s).record h.fresh).referenceStubCount = 1) := by
    simp [BleCharacteristicImpl.isReferenceStub, hrefs, isReferenceStubIn]
  have hcs1 : (((BleServiceImpl.storeCharacteristic (BleCharacteristic.construct h c r0)
        svc c s).record h.fresh).isReferenceStub s = true ∧
      ((BleServiceImpl.storeCharacteristic (BleCharacteristic.construct h c r0)
        svc c s).record h.fresh).referenceStubCount = 1) := by
    simp [BleCharacteristicImpl.isReferenceStub, BleCharacteristicImpl.referenceStubCount,
      hrefs, isReferenceStubIn, stubCountIn, hcs]
  have hrm : (((BleServiceImpl.storeCharacteristic (BleCharacteristic.construct h c r0)
      svc c s).record h.fresh).removeReference c).references = [⟨s, true⟩] := by
    rw [removeReference_once _ c (by simp [hrefs, List.countP_cons, hsc]), hrefs]
    simp [List.filter_cons, hsc]
  refine ⟨hrefs, ?_, ?_, ?_, ?_⟩
  · unfold BleCharacteristic.dtor
    rw [release_remove_eq _ c h.fresh hic hnc]
    simp [CharHeap.setRecord, CharHeap.setImpl, hsc, his]
  · unfold BleCharacteristic.dtor
    rw [release_remove_eq _ c h.fresh hic hnc]
    simp only [CharHeap.setRecord, CharHeap.setImpl, if_true]
    exact hrm
  · unfold BleCharacteristic.dtor
    rw [release_remove_eq _ c h.fresh hic hnc]
    simp only [CharHeap.setRecord, CharHeap.setImpl, if_true,
      BleCharacteristicImpl.referenceStubCount]
    rw [hrm]
    rfl
  · unfold BleCharacteristic.dtor
    rw [release_detach_eq _ s h.fresh his hcs1]
    simp only [CharHeap.setImpl, if_neg hcs]
    rw [detachOthers_impl, if_pos ⟨hcs, ⟨c, false⟩, by rw [hrefs]; simp, rfl⟩]

/-- Instance of C18 (as amended) on the heap where handle 100 is registered with
its stub copy at 200. -/
theorem destroying_app_handle_keeps_stub_witness :
    (BleCharacteristic.dtor heapRegistered 100).impl_ 200 = some 0 ∧
      (BleCharacteristic.dtor heapRegistered 200).impl_ 100 = none :=
  ⟨(destroying_app_handle_keeps_stub CharHeap.empty
      (BleCharacteristicImpl.newDesc mem0 (some "tx".toList) PROPERTY.NOTIFY none)
      100 200 7 (by decide) (by decide)).2.1,
   (destroying_app_handle_keeps_stub CharHeap.empty
      (BleCharacteristicImpl.newDesc mem0 (some "tx".toList) PROPERTY.NOTIFY none)
      100 200 7 (by decide) (by decide)).2.2.2.2⟩

/-- C19 (the claim as stated fails): the local characteristic `tx` has NOTIFY and
the two subscribers 1 and 2; the primary write succeeds and the push to
connection handle 1 fails. `setValue([1,2,3])` then makes the primary write
and the notify for handle 1 and returns: no push targets handle 2. -/
theorem setValue_stops_at_failed_push :
    txRecord.isLocal = true ∧ txRecord.properties &&& PROPERTY.NOTIFY ≠ 0 ∧
      halPushFails.serverSetValue = 0 ∧ txRecord.cccdOfServer = [1, 2] ∧
      (txRecord.setValue 20 halPushFails (some [1, 2, 3])).2 =
        [HalCall.serverSetValue 5 [1, 2, 3], HalCall.serverNotify 1 5 [1, 2, 3]] ∧
      pushCall txRecord.properties 5 [1, 2, 3] 2 ∉
        (txRecord.setValue 20 halPushFails (some [1, 2, 3])).2 := by
  decide

/-- C19 (as amended): for a local characteristic whose properties include NOTIFY
or INDICATE and whose primary value write succeeds, when the pushes to the
first `k` subscribers succeed and the push to the next one, if there is one,
fails, `setValue` makes the primary write and then invokes the push primitive
(notify when NOTIFY is set, otherwise indicate) with the written value for
the first `k + 1` connection handles of the subscriber set, in order, and for
no other. So when every push succeeds every connection handle of the
subscriber set is targeted. -/
theorem setValue_pushes_up_to_first_failure (maxLen : Nat) (hal : Hal)
    (r : BleCharacteristicImpl) (buf : List Byte) (k : Nat)
    (hlocal : r.isLocal = true)
    (hprop : r.properties &&& PROPERTY.NOTIFY ≠ 0 ∨ r.properties &&& PROPERTY.INDICATE ≠ 0)
    (hprim : hal.serverSetValue = 0)
    (hk : k ≤ r.cccdOfServer.length)
    (hok : ∀ j, j < k → hal.push j (r.cccdOfServer.getD j 0) = 0)
    (hfail : k < r.cccdOfServer.length → hal.push k (r.cccdOfServer.getD k 0) ≠ 0) :
    (r.setValue maxLen hal (some buf)).2 =
        HalCall.serverSetValue r.attrHandles.value_handle (buf.take (min buf.length maxLen)) ::
          (r.cccdOfServer.take (k + 1)).map
            (pushCall r.properties r.attrHandles.value_handle
              (buf.take (min buf.length maxLen))) ∧
      (k = r.cccdOfServer.length → ∀ conn, conn ∈ r.cccdOfServer →
        pushCall r.properties r.attrHandles.value_handle (buf.take (min buf.length maxLen)) conn ∈
          (r.setValue maxLen hal (some buf)).2) := by
  have hloop := pushLoop_prefix hal r.properties r.attrHandles.value_handle
    (buf.take (min buf.length maxLen)) hprop r.cccdOfServer 0 k hk
    (fun j hj => by simpa using hok j hj) (fun hlt => by simpa using hfail hlt)
  have htrace : (r.setValue maxLen hal (some buf)).2 =
      HalCall.serverSetValue r.attrHandles.value_handle (buf.take (min buf.length maxLen)) ::
        (r.cccdOfServer.take (k + 1)).map
          (pushCall r.properties r.attrHandles.value_handle
            (buf.take (min buf.length maxLen))) := by
    simp only [BleCharacteristicImpl.setValue, hlocal, hprim, cap_eq_min, if_true, ne_eq,
      not_true_eq_false, if_false, hloop]
  refine ⟨htrace, ?_⟩
  intro hkl conn hconn
  rw [htrace, hkl, List.take_of_length_le (Nat.le_succ _)]
  exact List.mem_cons_of_mem _ (List.mem_map.mpr ⟨conn, hconn, rfl⟩)

/-- Instance of C19: `tx` with NOTIFY and the two subscribed centrals 1 and 2, every
primitive succeeding: `setValue([1,2,3])` invokes notify for both handles. -/
theorem setValue_pushes_up_to_first_failure_witness :
    txRecord.isLocal = true ∧
      (txRecord.properties &&& PROPERTY.NOTIFY ≠ 0 ∨
        txRecord.properties &&& PROPERTY.INDICATE ≠ 0) ∧
      halOk.serverSetValue = 0 ∧ 2 ≤ txRecord.cccdOfServer.length ∧
      (txRecord.setValue 20 halOk (some [1, 2, 3])).2 =
        [HalCall.serverSetValue 5 [1, 2, 3], HalCall.serverNotify 1 5 [1, 2, 3],
          HalCall.serverNotify 2 5 [1, 2, 3]] :=
  ⟨by decide, by decide, by decide, by decide,
   (setValue_pushes_up_to_first_failure 20 halOk txRecord [1, 2, 3] 2 (by decide) (by decide)
      (by decide) (by decide) (fun _ _ => rfl) (fun h => absurd h (by decide))).1⟩

/-- C20: for a local characteristic and a non-null buffer. (1) When the primary
write succeeds and every push succeeds (pushes are made only when NOTIFY or
INDICATE is set), `setValue` returns the minimum of `len` and the maximum
characteristic-value length. (2) When the primary write fails it returns 0
and the primary write is its only call: no push is attempted. (3) When the
primary write succeeds, NOTIFY or INDICATE is set, and the push to some
subscriber fails, it returns 0. -/
theorem setValue_return (maxLen : Nat) (hal : Hal) (r : BleCharacteristicImpl)
    (buf : List Byte) (hlocal : r.isLocal = true) :
    (hal.serverSetValue = 0 →
      ((r.properties &&& PROPERTY.NOTIFY ≠ 0 ∨ r.properties &&& PROPERTY.INDICATE ≠ 0) →
        ∀ j, j < r.cccdOfServer.length → hal.push j (r.cccdOfServer.getD j 0) = 0) →
      (r.setValue maxLen hal (some buf)).1 = min buf.length maxLen) ∧
    (hal.serverSetValue ≠ 0 →
      (r.setValue maxLen hal (some buf)).1 = 0 ∧
      (r.setValue maxLen hal (some buf)).2 =
        [HalCall.serverSetValue r.attrHandles.value_handle
          (buf.take (min buf.length maxLen))]) ∧
    (hal.serverSetValue = 0 →
      (r.properties &&& PROPERTY.NOTIFY ≠ 0 ∨ r.properties &&& PROPERTY.INDICATE ≠ 0) →
      (∃ j, j < r.cccdOfServer.length ∧ hal.push j (r.cccdOfServer.getD j 0) ≠ 0) →
      (r.setValue maxLen hal (some buf)).1 = 0) := by
  refine ⟨?_, ?_, ?_⟩
  · intro hprim hall
    have hrun : (pushLoop hal r.properties r.attrHandles.value_handle
        (buf.take (min buf.length maxLen)) 0 r.cccdOfServer).1 = true := by
      by_cases hprop : r.properties &&& PROPERTY.NOTIFY ≠ 0 ∨
          r.properties &&& PROPERTY.INDICATE ≠ 0
      · exact pushLoop_ok hal _ _ _ r.cccdOfServer 0
          (fun j hj => by simpa using hall hprop j hj)
      · rw [pushLoop_noprop hal _ _ _ (fun h => hprop (Or.inl h))
          (fun h => hprop (Or.inr h))]
    simp only [BleCharacteristicImpl.setValue, hlocal, hprim, cap_eq_min, if_true, ne_eq,
      not_true_eq_false, if_false, hrun]
  · intro hprim
    simp only [BleCharacteristicImpl.setValue, hlocal, cap_eq_min, if_true, ne_eq, hprim,
      not_false_eq_true, and_self]
  · intro hprim hprop hsome
    have hrun := pushLoop_fail hal r.properties r.attrHandles.value_handle
      (buf.take (min buf.length maxLen)) hprop r.cccdOfServer 0
      (by simpa using hsome)
    simp only [BleCharacteristicImpl.setValue, hlocal, hprim, cap_eq_min, if_true, ne_eq,
      not_true_eq_false, if_false, hrun, Bool.false_eq_true]

/-- Instance of C20: `tx` with the subscribers 1 and 2, maximum length 2 and the
three bytes 1, 2, 3. With every primitive succeeding `setValue` returns 2;
with the push to handle 1 failing it returns 0. -/
theorem setValue_return_witness :
    txRecord.isLocal = true ∧
      (txRecord.setValue 2 halOk (some [1, 2, 3])).1 = min 3 2 ∧
      (txRecord.setValue 2 halPushFails (some [1, 2, 3])).1 = 0 :=
  ⟨by decide,
   (setValue_return 2 halOk txRecord [1, 2, 3] (by decide)).1 rfl (fun _ _ _ => rfl),
   (setValue_return 2 halPushFails txRecord [1, 2, 3] (by decide)).2.2 rfl (by decide)
     ⟨0, by decide, by decide⟩⟩

/-- C21: for a peer (non-local) characteristic and a non-null buffer. When WRITE is
set `setValue` makes exactly one call, the write-with-response client primitive;
otherwise, when WRITE_WO_RSP is set, exactly one call, the
write-without-response primitive; with neither set it makes no call. The call
carries the connection handle, the value handle and the first
min(len, maximum) bytes of the buffer. It returns min(len, maximum) when a
primitive was called and reported success, and 0 in every other case. -/
theorem setValue_peer (maxLen : Nat) (hal : Hal) (r : BleCharacteristicImpl)
    (buf : List Byte) (hpeer : r.isLocal = false) :
    (r.properties &&& PROPERTY.WRITE ≠ 0 →
      (r.setValue maxLen hal (some buf)).2 =
        [HalCall.clientWriteWithResponse r.connHandle r.attrHandles.value_handle
          (buf.take (min buf.length maxLen))]) ∧
    (¬ r.properties &&& PROPERTY.WRITE ≠ 0 → r.properties &&& PROPERTY.WRITE_WO_RSP ≠ 0 →
      (r.setValue maxLen hal (some buf)).2 =
        [HalCall.clientWriteWithoutResponse r.connHandle r.attrHandles.value_handle
          (buf.take (min buf.length maxLen))]) ∧
    (¬ r.properties &&& PROPERTY.WRITE ≠ 0 → ¬ r.properties &&& PROPERTY.WRITE_WO_RSP ≠ 0 →
      (r.setValue maxLen hal (some buf)).2 = []) ∧
    ((r.properties &&& PROPERTY.WRITE ≠ 0 ∨ r.properties &&& PROPERTY.WRITE_WO_RSP ≠ 0) →
      hal.clientWrite = 0 →
      (r.setValue maxLen hal (some buf)).1 = min buf.length maxLen) ∧
    ((r.properties &&& PROPERTY.WRITE ≠ 0 ∨ r.properties &&& PROPERTY.WRITE_WO_RSP ≠ 0) →
      hal.clientWrite ≠ 0 →
      (r.setValue maxLen hal (some buf)).1 = 0) ∧
    (¬ r.properties &&& PROPERTY.WRITE ≠ 0 → ¬ r.properties &&& PROPERTY.WRITE_WO_RSP ≠ 0 →
      (r.setValue maxLen hal (some buf)).1 = 0) := by
  by_cases hw : r.properties &&& PROPERTY.WRITE ≠ 0
  · by_cases hc : hal.clientWrite = 0 <;>
      simp [BleCharacteristicImpl.setValue, hpeer, hw, hc, cap_eq_min]
  · by_cases hn : r.properties &&& PROPERTY.WRITE_WO_RSP ≠ 0
    · by_cases hc : hal.clientWrite = 0 <;>
        simp [BleCharacteristicImpl.setValue, hpeer, hw, hn, hc, cap_eq_min]
    · simp [BleCharacteristicImpl.setValue, hpeer, hw, hn, cap_eq_min]

/-- Instance of C21: the peer characteristic `rx` (WRITE_WO_RSP, connection 3, value
handle 9) with maximum length 20: `setValue([1,2,3])` calls the
write-without-response primitive and returns 3. -/
theorem setValue_peer_witness :
    rxPeerRecord.isLocal = false ∧
      (rxPeerRecord.setValue 20 halOk (some [1, 2, 3])).2 =
        [HalCall.clientWriteWithoutResponse 3 9 [1, 2, 3]] ∧
      (rxPeerRecord.setValue 20 halOk (some [1, 2, 3])).1 = min 3 20 :=
  ⟨by decide,
   (setValue_peer 20 halOk rxPeerRecord [1, 2, 3] (by decide)).2.1 (by decide) (by decide),
   (setValue_peer 20 halOk rxPeerRecord [1, 2, 3] (by decide)).2.2.2.1 (by decide) rfl⟩

/-- C22: the failure cases of `BleServiceImpl::addCharacteristic`. (1) A handle with
no record gives invalid-argument. (2) A record with zero properties, or one
that a stored handle of this service already refers to, gives
invalid-argument. (3) Past these checks, a local characteristic while the
stack is not initialized gives invalid-state. In (1) to (3) the service, the
heap of records and handles and the UUID counter are as before. (4) Past the
checks, with the stack initialized, when the add-characteristic primitive
reports a status other than success that status is returned, the service is
as before (so is its characteristic list), and no handle copy is made: every
handle points where it did and every reference list is as before. -/
theorem addCharacteristic_failures (code : SystemError → Int) (order : BleUuidOrder)
    (env : RegEnv) (svc : BleServiceImpl) (w : GattWorld) (characteristic : Nat) :
    (w.heap.impl_ characteristic = none →
      svc.addCharacteristic code order env w characteristic =
        (code SystemError.INVALID_ARGUMENT, w, svc)) ∧
    (∀ id, w.heap.impl_ characteristic = some id →
      ((w.heap.record id).properties = 0 ∨ svc.contains w.heap characteristic = true) →
      svc.addCharacteristic code order env w characteristic =
        (code SystemError.INVALID_ARGUMENT, w, svc)) ∧
    (∀ id, w.heap.impl_ characteristic = some id →
      (w.heap.record id).properties ≠ 0 → svc.contains w.heap characteristic = false →
      (w.heap.record id).isLocal = true → env.stackInitialized = false →
      svc.addCharacteristic code order env w characteristic =
        (code SystemError.INVALID_STATE, w, svc)) ∧
    (∀ id, w.heap.impl_ characteristic = some id →
      (w.heap.record id).properties ≠ 0 → svc.contains w.heap characteristic = false →
      (w.heap.record id).isLocal = true → env.stackInitialized = true →
      env.addCharRet ≠ code SystemError.NONE →
      (svc.addCharacteristic code order env w characteristic).1 = env.addCharRet ∧
      (svc.addCharacteristic code order env w characteristic).2.2 = svc ∧
      (svc.addCharacteristic code order env w characteristic).2.1.heap.impl_ = w.heap.impl_ ∧
      ∀ k, ((svc.addCharacteristic code order env w characteristic).2.1.heap.record
        k).references = (w.heap.record k).references) := by
  refine ⟨?_, ?_, ?_, ?_⟩
  · intro h
    simp only [BleServiceImpl.addCharacteristic, h]
  · intro id h hc
    have hc2 : svc.contains w.heap characteristic = true ∨ (w.heap.record id).properties = 0 :=
      hc.symm
    simp only [BleServiceImpl.addCharacteristic, h, if_pos hc2]
  · intro id h hp hc hl hs
    have hc2 : ¬ (svc.contains w.heap characteristic = true ∨
        (w.heap.record id).properties = 0) := by
      simp [hc, hp]
    simp only [BleServiceImpl.addCharacteristic, h, if_neg hc2, hl, hs, if_true]
    simp
  · intro id h hp hc hl hs hr
    have hc2 : ¬ (svc.contains w.heap characteristic = true ∨
        (w.heap.record id).properties = 0) := by
      simp [hc, hp]
    simp only [BleServiceImpl.addCharacteristic, h, if_neg hc2, hl, hs, if_true, if_pos hr]
    refine ⟨trivial, trivial, rfl, ?_⟩
    intro k
    by_cases hk : k = id
    · subst hk
      simp only [CharHeap.setRecord, if_true, BleCharacteristicImpl.setAttrHandles,
        BleCharacteristicImpl.assignUuidIfNeeded]
      split <;> rfl
    · simp only [CharHeap.setRecord, if_neg hk]

/-- C23 (the claim as stated fails): on the local model without services, while the
stack is not initialized, registering a valid characteristic whose service
does not exist yet returns `SYSTEM_ERROR_INTERNAL`, not
`SYSTEM_ERROR_INVALID_STATE`: the invalid-state status of `addService` is
replaced. -/
theorem registration_before_init_internal :
    (BleGattServerImpl.new 77).isLocal envStackOff = true ∧
      envStackOff.stackInitialized = false ∧
      heapThree.impl_ 100 = some 0 ∧ (heapThree.record 0).properties ≠ 0 ∧
      (BleLocalDevice.addCharacteristic systemErrorValue BleUuidOrder.LSB envStackOff
        (BleGattServerImpl.new 77) ⟨heapThree, 0⟩ 100).1 =
          systemErrorValue SystemError.INTERNAL ∧
      (BleLocalDevice.addCharacteristic systemErrorValue BleUuidOrder.LSB envStackOff
        (BleGattServerImpl.new 77) ⟨heapThree, 0⟩ 100).1 ≠
          systemErrorValue SystemError.INVALID_STATE := by
  decide

/-- C23 (as amended): for every valid local characteristic (it has a record with
non-zero properties that no service of the model holds yet), registering it
through the local device's `addCharacteristic` while the stack is not
initialized fails and stores nothing: with invalid-state when its target
service already exists in the model, and with the internal error when it does
not. -/
theorem registration_before_init (code : SystemError → Int) (order : BleUuidOrder)
    (env : RegEnv) (g : BleGattServerImpl) (w : GattWorld) (c id : Nat)
    (hcode : ∀ e, e ≠ SystemError.NONE → code e ≠ code SystemError.NONE)
    (hlocal : g.isLocal env = true) (hstack : env.stackInitialized = false)
    (hc : w.heap.impl_ c = some id) (hp : (w.heap.record id).properties ≠ 0)
    (hnew : ∀ s ∈ g.services, s.contains w.heap c = false) :
    ((g.service (prepareRecord order true (w.heap.record id)).svcUuid).isSome = true →
      (BleLocalDevice.addCharacteristic code order env g w c).1 =
          code SystemError.INVALID_STATE ∧
        (BleLocalDevice.addCharacteristic code order env g w c).2.2 = g) ∧
    (g.service (prepareRecord order true (w.heap.record id)).svcUuid = none →
      (BleLocalDevice.addCharacteristic code order env g w c).1 = code SystemError.INTERNAL ∧
        (BleLocalDevice.addCharacteristic code order env g w c).2.2 = g) := by
  obtain ⟨hpp, hpl⟩ := prepareRecord_fields order true (w.heap.record id)
  constructor
  · intro hsome
    obtain ⟨i, hi⟩ := Option.isSome_iff_exists.mp hsome
    obtain ⟨stub, hstub, -⟩ := serviceLoop_some _ g.services i hi
    have hmem := mem_of_getElem?_some _ _ _ hstub
    have hrec : (CharHeap.setRecord w.heap id
        (prepareRecord order true (w.heap.record id))).record id =
        prepareRecord order true (w.heap.record id) := by
      simp [CharHeap.setRecord]
    have hfail := addCharacteristic_not_initialized code order env stub
      ⟨w.heap.setRecord id (prepareRecord order true (w.heap.record id)),
        w.defaultUuidCharCount_⟩ c id hc (by rw [hrec, hpp]; exact hp) (hnew stub hmem)
      (by rw [hrec, hpl]) hstack
    simp only [BleLocalDevice.addCharacteristic, BleGattServerImpl.addCharacteristic, hc,
      hlocal, hi, hstub, hfail, set_getElem?_self _ _ _ hstub, true_and]
  · intro hnone
    have hadd : g.addService code env
        (BleServiceImpl.new (prepareRecord order true (w.heap.record id)).svcUuid
          env.serviceAddr) = (code SystemError.INVALID_STATE, g) := by
      have hn2 : g.service (BleServiceImpl.new
          (prepareRecord order true (w.heap.record id)).svcUuid env.serviceAddr).uuid =
          none := hnone
      simp only [BleGattServerImpl.addService, hn2, Option.isSome_none, Bool.false_eq_true,
        if_false, hlocal, hstack, if_true]
    have hne : code SystemError.INVALID_STATE ≠ code SystemError.NONE := hcode _ (by decide)
    simp only [BleLocalDevice.addCharacteristic, BleGattServerImpl.addCharacteristic, hc,
      hlocal, hnone, hadd, if_neg hne, and_self]

/-- Instance of C23 (as amended): with the stack not initialized, `rx` is refused
with invalid-state on the model that already has the service of the test,
and `tx` with the internal error on the model without services. -/
theorem registration_before_init_witness :
    gattAfterTx.2.isLocal envStackOff = true ∧ envStackOff.stackInitialized = false ∧
      gattAfterTx.1.heap.impl_ 101 = some 1 ∧
      (BleLocalDevice.addCharacteristic systemErrorValue BleUuidOrder.LSB envStackOff
        gattAfterTx.2 gattAfterTx.1 101).1 = systemErrorValue SystemError.INVALID_STATE ∧
      (BleLocalDevice.addCharacteristic systemErrorValue BleUuidOrder.LSB envStackOff
        (BleGattServerImpl.new 77) ⟨heapUart, 0⟩ 100).1 =
          systemErrorValue SystemError.INTERNAL :=
  ⟨by decide, by decide, by decide,
   ((registration_before_init systemErrorValue BleUuidOrder.LSB envStackOff gattAfterTx.2
      gattAfterTx.1 101 1 systemErrorValue_ne (by decide) (by decide) (by decide) (by decide)
      (by decide)).1 (by decide)).1,
   ((registration_before_init systemErrorValue BleUuidOrder.LSB envStackOff
      (BleGattServerImpl.new 77) ⟨heapUart, 0⟩ 100 0 systemErrorValue_ne (by decide)
      (by decide) (by decide) (by decide) (by decide)).2 (by decide)).1⟩

/-- C24 (the claim as stated fails): two different characteristics made with one
and the same explicit UUID are registered on the local model, every primitive
succeeding. Both are stored in the one service (handles 200 and 201, records
0 and 1), and their UUIDs compare equal. -/
theorem equal_uuids_both_stored :
    gattSameUuid.2.services.map (fun s => s.characteristics) = [[200, 201]] ∧
      gattSameUuid.1.heap.impl_ 200 = some 0 ∧ gattSameUuid.1.heap.impl_ 201 = some 1 ∧
      (gattSameUuid.1.heap.record 0).uuid.opEq (gattSameUuid.1.heap.record 1).uuid = true ∧
      (gattSameUuid.1.heap.record 0).uuid = (gattSameUuid.1.heap.record 1).uuid := by
  decide

/-- C24 (as amended): for every model started without services, after any sequence
of successful and failed calls (each storing its handle copy at an address of
its own), no two handles stored in one service refer to the same record:
`addCharacteristic` turns away a record the service already holds. UUIDs are
not compared. -/
theorem stored_records_distinct (code : SystemError → Int) (order : BleUuidOrder)
    (w0 : GattWorld) (addr : Nat) (ops : List GattOp) (svc : BleServiceImpl)
    (hcode : ∀ e, e ≠ SystemError.NONE → code e ≠ code SystemError.NONE)
    (hslots : (slotsOf ops).Nodup)
    (hsvc : svc ∈ (runGatt code order (w0, BleGattServerImpl.new addr) ops).2.services) :
    RecordsDistinct (runGatt code order (w0, BleGattServerImpl.new addr) ops).1.heap svc ∧
      ∀ a ∈ svc.characteristics,
        (runGatt code order (w0, BleGattServerImpl.new addr) ops).1.heap.impl_ a ≠ none := by
  obtain ⟨used, hok⟩ := runGatt_storedOk code order hcode ops [] (w0, BleGattServerImpl.new addr)
    (fun s hs => by cases hs) hslots (fun x _ hx => by cases hx)
  exact ⟨(hok svc hsvc).2, fun a ha => ((hok svc hsvc).1 a ha).2⟩

/-- Instance of C24 (as amended): after the two registrations of `heapSameUuid` the
one service holds the handles 200 and 201, which have different records. -/
theorem stored_records_distinct_witness :
    (slotsOf opsUart).Nodup ∧
      gattSameUuid.2.services.head? =
        some ⟨300, uartServiceUuid, 10, 0, [200, 201], none⟩ ∧
      RecordsDistinct gattSameUuid.1.heap ⟨300, uartServiceUuid, 10, 0, [200, 201], none⟩ :=
  ⟨by decide, by decide,
   (stored_records_distinct systemErrorValue BleUuidOrder.LSB ⟨heapSameUuid, 0⟩ 77 opsUart
      ⟨300, uartServiceUuid, 10, 0, [200, 201], none⟩ systemErrorValue_ne (by decide)
      (by decide)).1⟩

/-- C25 (the claim as stated fails): with the counter at 65534, three
characteristics without UUID are registered one after the other with success.
The suffixes assigned are 65535, 0 and 1: the 16-bit counter wraps, so the
second suffix is below the first. -/
theorem default_uuid_suffix_wraps :
    (regFirst 65534).1 = 0 ∧ (regSecond 65534).1 = 0 ∧ (regThird 65534).1 = 0 ∧
      (((regThird 65534).2.1.heap.record 0).uuid.suffix16 = 65535 ∧
        ((regThird 65534).2.1.heap.record 1).uuid.suffix16 = 0 ∧
        ((regThird 65534).2.1.heap.record 2).uuid.suffix16 = 1) ∧
      ¬ (((regThird 65534).2.1.heap.record 0).uuid.suffix16 <
        ((regThird 65534).2.1.heap.record 1).uuid.suffix16) ∧
      (regThird 65534).2.1.defaultUuidCharCount_ = 1 := by
  decide

/-- C25 (as amended): for every state of the counter that is at most 65532 and
every three local characteristics with unset UUIDs (three different records)
registered with success one after the other, each into any service: the UUIDs
assigned are the reserved base UUID with the numbers counter + 1, counter + 2
and counter + 3 in the bytes 12 and 13, so the three suffixes are strictly
increasing in registration order and the three UUIDs are pairwise unequal; the
counter ends at counter + 3. -/
theorem default_uuids_increase (code : SystemError → Int) (order : BleUuidOrder)
    (env1 env2 env3 : RegEnv) (svc1 svc2 svc3 svc1a svc2a svc3a : BleServiceImpl)
    (w0 w1 w2 w3 : GattWorld) (c1 c2 c3 id1 id2 id3 : Nat)
    (hcode : ∀ e, e ≠ SystemError.NONE → code e ≠ code SystemError.NONE)
    (hcount : w0.defaultUuidCharCount_ ≤ 65532)
    (hreg1 : svc1.addCharacteristic code order env1 w0 c1 = (code SystemError.NONE, w1, svc1a))
    (hreg2 : svc2.addCharacteristic code order env2 w1 c2 = (code SystemError.NONE, w2, svc2a))
    (hreg3 : svc3.addCharacteristic code order env3 w2 c3 = (code SystemError.NONE, w3, svc3a))
    (hc1 : w0.heap.impl_ c1 = some id1) (hc2 : w1.heap.impl_ c2 = some id2)
    (hc3 : w2.heap.impl_ c3 = some id3)
    (hl1 : (w0.heap.record id1).isLocal = true) (hl2 : (w1.heap.record id2).isLocal = true)
    (hl3 : (w2.heap.record id3).isLocal = true)
    (hu1 : (w0.heap.record id1).uuid.isValid = false)
    (hu2 : (w1.heap.record id2).uuid.isValid = false)
    (hu3 : (w2.heap.record id3).uuid.isValid = false)
    (h12 : id1 ≠ id2) (h13 : id1 ≠ id3) (h23 : id2 ≠ id3) :
    (w3.heap.record id1).uuid =
        BleUuid.ofBytesU16 (some BLE_CTRL_REQ_SVC_UUID) (w0.defaultUuidCharCount_ + 1) order ∧
      (w3.heap.record id2).uuid =
        BleUuid.ofBytesU16 (some BLE_CTRL_REQ_SVC_UUID) (w0.defaultUuidCharCount_ + 2) order ∧
      (w3.heap.record id3).uuid =
        BleUuid.ofBytesU16 (some BLE_CTRL_REQ_SVC_UUID) (w0.defaultUuidCharCount_ + 3) order ∧
      (w3.heap.record id1).uuid.suffix16 = w0.defaultUuidCharCount_ + 1 ∧
      (w3.heap.record id2).uuid.suffix16 = w0.defaultUuidCharCount_ + 2 ∧
      (w3.heap.record id3).uuid.suffix16 = w0.defaultUuidCharCount_ + 3 ∧
      (w3.heap.record id1).uuid.suffix16 < (w3.heap.record id2).uuid.suffix16 ∧
      (w3.heap.record id2).uuid.suffix16 < (w3.heap.record id3).uuid.suffix16 ∧
      (w3.heap.record id1).uuid.opEq (w3.heap.record id2).uuid = false ∧
      (w3.heap.record id1).uuid.opEq (w3.heap.record id3).uuid = false ∧
      (w3.heap.record id2).uuid.opEq (w3.heap.record id3).uuid = false ∧
      w3.defaultUuidCharCount_ = w0.defaultUuidCharCount_ + 3 := by
  have e1 := addCharacteristic_registered code order env1 svc1 w0 c1 id1 hcode hc1 hl1
    (by rw [hreg1])
  have e2 := addCharacteristic_registered code order env2 svc2 w1 c2 id2 hcode hc2 hl2
    (by rw [hreg2])
  have e3 := addCharacteristic_registered code order env3 svc3 w2 c3 id3 hcode hc3 hl3
    (by rw [hreg3])
  rw [hreg1] at e1
  rw [hreg2] at e2
  rw [hreg3] at e3
  simp only [BleCharacteristicImpl.assignUuidIfNeeded, hu1, if_true] at e1
  simp only [BleCharacteristicImpl.assignUuidIfNeeded, hu2, if_true] at e2
  simp only [BleCharacteristicImpl.assignUuidIfNeeded, hu3, if_true] at e3
  obtain ⟨n1, u1, o1, -⟩ := e1
  obtain ⟨n2, u2, o2, -⟩ := e2
  obtain ⟨n3, u3, o3, -⟩ := e3
  have t1 : toU16 (w0.defaultUuidCharCount_ + 1) = w0.defaultUuidCharCount_ + 1 :=
    toU16_eq _ (by omega)
  rw [t1] at n1 u1
  have t2 : toU16 (w1.defaultUuidCharCount_ + 1) = w0.defaultUuidCharCount_ + 2 := by
    rw [n1]; exact toU16_eq _ (by omega)
  rw [t2] at n2 u2
  have t3 : toU16 (w2.defaultUuidCharCount_ + 1) = w0.defaultUuidCharCount_ + 3 := by
    rw [n2]; exact toU16_eq _ (by omega)
  rw [t3] at n3 u3
  have v1 : (w3.heap.record id1).uuid =
      BleUuid.ofBytesU16 (some BLE_CTRL_REQ_SVC_UUID) (w0.defaultUuidCharCount_ + 1) order := by
    rw [o3 id1 h13, o2 id1 h12, u1]
  have v2 : (w3.heap.record id2).uuid =
      BleUuid.ofBytesU16 (some BLE_CTRL_REQ_SVC_UUID) (w0.defaultUuidCharCount_ + 2) order := by
    rw [o3 id2 h23, u2]
  have s1 := ofBytesU16_suffix (w0.defaultUuidCharCount_ + 1) order (by omega)
  have s2 := ofBytesU16_suffix (w0.defaultUuidCharCount_ + 2) order (by omega)
  have s3 := ofBytesU16_suffix (w0.defaultUuidCharCount_ + 3) order (by omega)
  have hlong : ∀ s, (BleUuid.ofBytesU16 (some BLE_CTRL_REQ_SVC_UUID) s order).type_ =
      BleUuidType.LONG := by
    intro s; rw [ofBytesU16_base]
  have hne : ∀ a b : Nat, a < 65536 → b < 65536 → a ≠ b →
      (BleUuid.ofBytesU16 (some BLE_CTRL_REQ_SVC_UUID) a order).opEq
        (BleUuid.ofBytesU16 (some BLE_CTRL_REQ_SVC_UUID) b order) = false := by
    intro a b ha hb hab
    cases hq : (BleUuid.ofBytesU16 (some BLE_CTRL_REQ_SVC_UUID) a order).opEq
        (BleUuid.ofBytesU16 (some BLE_CTRL_REQ_SVC_UUID) b order) with
    | false => rfl
    | true =>
      have := opEq_suffix _ _ hq (hlong a)
      rw [ofBytesU16_suffix a order ha, ofBytesU16_suffix b order hb] at this
      exact absurd this hab
  rw [v1, v2, u3, s1, s2, s3]
  refine ⟨rfl, rfl, rfl, rfl, rfl, rfl, by omega, by omega, ?_, ?_, ?_, n3⟩
  · exact hne _ _ (by omega) (by omega) (by omega)
  · exact hne _ _ (by omega) (by omega) (by omega)
  · exact hne _ _ (by omega) (by omega) (by omega)

/-- Instance of C25 (as amended): counter 0, the three characteristics of
`heapThree` registered into one service: the suffixes are 1, 2 and 3. -/
theorem default_uuids_increase_witness :
    ((regThird 0).2.1.heap.record 0).uuid.suffix16 = 0 + 1 ∧
      ((regThird 0).2.1.heap.record 1).uuid.suffix16 = 0 + 2 ∧
      ((regThird 0).2.1.heap.record 2).uuid.suffix16 = 0 + 3 ∧
      (regThird 0).2.1.defaultUuidCharCount_ = 0 + 3 :=
  have h := default_uuids_increase systemErrorValue BleUuidOrder.LSB (envOk 200) (envOk 201)
    (envOk 202) svcDemo (regFirst 0).2.2 (regSecond 0).2.2 (regFirst 0).2.2 (regSecond 0).2.2
    (regThird 0).2.2 ⟨heapThree, 0⟩ (regFirst 0).2.1 (regSecond 0).2.1 (regThird 0).2.1
    100 101 102 0 1 2 systemErrorValue_ne (by decide)
    (Prod.ext (by decide) rfl) (Prod.ext (by decide) rfl) (Prod.ext (by decide) rfl)
    (by decide) (by decide) (by decide) (by decide) (by decide) (by decide)
    (by decide) (by decide) (by decide) (by decide) (by decide) (by decide)
  ⟨h.2.2.2.1, h.2.2.2.2.1, h.2.2.2.2.2.1, h.2.2.2.2.2.2.2.2.2.2.2⟩

/-- C26: for every model started without services and every sequence of
`addService` and `addCharacteristic` calls, no two stored services have UUIDs
that compare equal. `addService` returns invalid-argument and leaves the
model as it is when the UUID is already present. `addCharacteristic` for a
characteristic whose service UUID is already present keeps the number of
services and touches no other service; the service found either stays as it
is or gets the new handle appended after its characteristics, and it gets it
appended whenever the call returns success. -/
theorem service_uuids_unique (code : SystemError → Int) (order : BleUuidOrder)
    (hcode : ∀ e, e ≠ SystemError.NONE → code e ≠ code SystemError.NONE) :
    (∀ (w0 : GattWorld) (addr : Nat) (ops : List GattOp),
      UuidsDistinct (runGatt code order (w0, BleGattServerImpl.new addr) ops).2) ∧
    (∀ (g : BleGattServerImpl) (env : RegEnv) (svc : BleServiceImpl),
      (g.service svc.uuid).isSome = true →
      g.addService code env svc = (code SystemError.INVALID_ARGUMENT, g)) ∧
    (∀ (g : BleGattServerImpl) (env : RegEnv) (w : GattWorld) (c id i : Nat),
      w.heap.impl_ c = some id →
      g.service (prepareRecord order (g.isLocal env) (w.heap.record id)).svcUuid = some i →
      ∃ stub, g.services[i]? = some stub ∧
        stub.uuid.opEq (prepareRecord order (g.isLocal env) (w.heap.record id)).svcUuid =
          true ∧
        (g.addCharacteristic code order env w c).2.2.services.length = g.services.length ∧
        ((g.addCharacteristic code order env w c).2.2.services = g.services ∨
          (g.addCharacteristic code order env w c).2.2.services =
            g.services.set i
              { stub with characteristics := stub.characteristics ++ [env.slot] }) ∧
        ((g.addCharacteristic code order env w c).1 = code SystemError.NONE →
          (g.addCharacteristic code order env w c).2.2.services =
            g.services.set i
              { stub with characteristics := stub.characteristics ++ [env.slot] })) := by
  refine ⟨?_, ?_, ?_⟩
  · intro w0 addr ops
    exact runGatt_uuids_distinct code order hcode ops _ List.Pairwise.nil
  · intro g env svc h
    simp only [BleGattServerImpl.addService, h, if_true]
  · intro g env w c id i hc hi
    obtain ⟨stub, hstub, hstubeq⟩ := serviceLoop_some _ g.services i hi
    refine ⟨stub, hstub, hstubeq, ?_, ?_, ?_⟩
    · simp only [BleGattServerImpl.addCharacteristic, hc, hi, hstub, List.length_set]
    · simp only [BleGattServerImpl.addCharacteristic, hc, hi, hstub]
      rcases addCharacteristic_cases code order env stub
        ⟨w.heap.setRecord id (prepareRecord order (g.isLocal env) (w.heap.record id)),
          w.defaultUuidCharCount_⟩ c with ⟨h1, -⟩ | ⟨id2, -, -, h3, -⟩
      · left; rw [h1, set_getElem?_self _ _ _ hstub]
      · right; rw [h3]
    · intro hret
      simp only [BleGattServerImpl.addCharacteristic, hc, hi, hstub] at hret ⊢
      rw [addCharacteristic_stored code order env stub _ c hcode hret]

/-- Instance of C26: the two registrations of the test, `tx` and then `rx` under
one service UUID, leave one service holding both handles in registration
order. -/
theorem service_uuids_unique_witness :
    (runGatt systemErrorValue BleUuidOrder.LSB (⟨heapUart, 0⟩, BleGattServerImpl.new 77)
        opsUart).2.services.map (fun s => s.characteristics) = [[200, 201]] ∧
      UuidsDistinct (runGatt systemErrorValue BleUuidOrder.LSB
        (⟨heapUart, 0⟩, BleGattServerImpl.new 77) opsUart).2 :=
  ⟨by decide,
   (service_uuids_unique systemErrorValue BleUuidOrder.LSB systemErrorValue_ne).1
     ⟨heapUart, 0⟩ 77 opsUart⟩

/-- C27: a service of the model resolves the attribute handle to a stored handle of
the local record `id`, and the attribute handle is the CCCD handle of that
record. After the data-written event from `peer` with the payload
`b :: rest`: when `b` is not zero the connection handle of `peer` is in the
subscriber set of the record, when `b` is zero it is not; in every record the
membership of every other connection handle is as before; every record that
no service resolves the attribute handle to is as before; no handle changes. -/
theorem cccd_write_toggles_subscription (g : BleGattServerImpl) (h : CharHeap)
    (attrHandle : Nat) (b : Byte) (rest : List Byte) (peer : BlePeerDevice)
    (svc : BleServiceImpl) (a id : Nat)
    (hsvc : svc ∈ g.services) (hres : svc.characteristic h attrHandle = some a)
    (hid : h.impl_ a = some id) (hlocal : (h.record id).isLocal = true)
    (hcccd : attrHandle = (h.record id).attrHandles.cccd_handle) :
    (b ≠ 0 → peer.connHandle ∈
      ((g.gattsProcessDataWritten h attrHandle (some (b :: rest)) peer).1.record
        id).cccdOfServer) ∧
    (b = 0 → peer.connHandle ∉
      ((g.gattsProcessDataWritten h attrHandle (some (b :: rest)) peer).1.record
        id).cccdOfServer) ∧
    (∀ id2 q, q ≠ peer.connHandle →
      (q ∈ ((g.gattsProcessDataWritten h attrHandle (some (b :: rest)) peer).1.record
        id2).cccdOfServer ↔ q ∈ (h.record id2).cccdOfServer)) ∧
    (∀ id2, ¬ Resolved attrHandle g.services h id2 →
      (g.gattsProcessDataWritten h attrHandle (some (b :: rest)) peer).1.record id2 =
        h.record id2) ∧
    (g.gattsProcessDataWritten h attrHandle (some (b :: rest)) peer).1.impl_ = h.impl_ := by
  obtain ⟨i1, i2, i3, i4, -, -⟩ :=
    dataWrittenLoop_spec attrHandle (b :: rest) peer.connHandle g.services h
  have hr : Resolved attrHandle g.services h id := ⟨svc, hsvc, a, hres, hid⟩
  have hset := i4 id hlocal hcccd (Or.inl hr)
  have hb : (b :: rest).getD 0 0 = b := rfl
  rw [hb] at hset
  refine ⟨fun hne => hset.mpr hne, fun he hin => (hset.mp hin) he, ?_, i3, i1⟩
  intro id2 q hq
  exact (i2 id2).2.2.2 q hq

/-- Instance of C27: on the model of the test, the peer with connection handle 5
writes `01 00` to the CCCD handle 2004 of `tx`: 5 becomes the one subscriber of
`tx`. -/
theorem cccd_write_toggles_subscription_witness :
    (⟨300, uartServiceUuid, 10, 0, [200, 201], none⟩ : BleServiceImpl) ∈ gattUart.2.services ∧
      gattUart.1.heap.impl_ 200 = some 0 ∧
      (5 : Nat) ∈
        ((gattUart.2.gattsProcessDataWritten gattUart.1.heap 2004 (some [1, 0])
          (peerOf 5)).1.record 0).cccdOfServer :=
  ⟨by decide, by decide,
   (cccd_write_toggles_subscription gattUart.2 gattUart.1.heap 2004 1 [0] (peerOf 5)
      ⟨300, uartServiceUuid, 10, 0, [200, 201], none⟩ 200 0 (by decide) (by decide)
      (by decide) (by decide) (by decide)).1 (by decide)⟩

/-- C28: for every model and every stored handle `a` of a record `id` whose value
handle is the attribute handle of the event and which has a callback, where
in the service of `a` no other record has that attribute handle:
`gattsProcessDataWritten` calls the callback of the record with the payload
of the event (its bytes, hence its length), and every call it makes carries
that payload. And for every peer, `gattcProcessDataNotified` gives the very
heap and calls that `gattsProcessDataWritten` gives on the server model of the
peer with the same arguments. -/
theorem value_write_invokes_callback (g : BleGattServerImpl) (h : CharHeap) (attrHandle : Nat)
    (d : List Byte) (peer : BlePeerDevice) (svc : BleServiceImpl) (a id cb : Nat)
    (hsvc : svc ∈ g.services) (ha : a ∈ svc.characteristics) (hid : h.impl_ a = some id)
    (hval : attrHandle = (h.record id).attrHandles.value_handle)
    (hcb : (h.record id).dataCb = some cb)
    (huniq : ∀ b ∈ svc.characteristics, ∀ id2, h.impl_ b = some id2 →
      hasAttrHandle (h.record id2) attrHandle = true → id2 = id) :
    (⟨cb, d⟩ : CbCall) ∈ (g.gattsProcessDataWritten h attrHandle (some d) peer).2 ∧
    (∀ call ∈ (g.gattsProcessDataWritten h attrHandle (some d) peer).2, call.data = d) ∧
    (∀ (h2 : CharHeap) (attr2 : Nat) (buf : Option (List Byte)) (peer2 : BlePeerDevice),
      BleGattClientImpl.gattcProcessDataNotified h2 attr2 buf peer2 =
        peer2.gattsProxy_.gattsProcessDataWritten h2 attr2 buf peer2) := by
  obtain ⟨-, -, -, -, i5, i6⟩ :=
    dataWrittenLoop_spec attrHandle d peer.connHandle g.services h
  have hh : hasAttrHandle (h.record id) attrHandle = true := by
    simp [hasAttrHandle, hval]
  obtain ⟨b, hb1, hb2⟩ := characteristic_of_unique svc h attrHandle a id ha hid hh huniq
  have hr : Resolved attrHandle g.services h id := ⟨svc, hsvc, b, hb1, hb2⟩
  exact ⟨i5 id cb hr hval hcb, fun call hc => (i6 call hc).1, fun _ _ _ _ => rfl⟩

/-- Instance of C28: on the model of the test an event for the value handle 2012 of
`rx` with the payload `104, 105` makes exactly the call of callback 1 with
these two bytes. -/
theorem value_write_invokes_callback_witness :
    (⟨300, uartServiceUuid, 10, 0, [200, 201], none⟩ : BleServiceImpl) ∈ gattUart.2.services ∧
      gattUart.1.heap.impl_ 201 = some 1 ∧ (gattUart.1.heap.record 1).dataCb = some 1 ∧
      (gattUart.2.gattsProcessDataWritten gattUart.1.heap 2012 (some [104, 105])
        (peerOf 5)).2 = [⟨1, [104, 105]⟩] ∧
      (⟨1, [104, 105]⟩ : CbCall) ∈
        (gattUart.2.gattsProcessDataWritten gattUart.1.heap 2012 (some [104, 105])
          (peerOf 5)).2 :=
  ⟨by decide, by decide, by decide, by decide,
   (value_write_invokes_callback gattUart.2 gattUart.1.heap 2012 [104, 105] (peerOf 5)
      ⟨300, uartServiceUuid, 10, 0, [200, 201], none⟩ 201 1 1 (by decide) (by decide)
      (by decide) (by decide) (by decide) (by decide)).1⟩

/-- C29: for a model whose stored handles all have records,
`gattsProcessDisconnected(peer)` runs through and changes no handle. Afterwards
the connection handle of `peer` is in the subscriber set of no local record
that a stored handle of the model refers to; in every record the membership of
every other connection handle is as before. A subsequent `setValue` on such a
record makes, besides the primary write, only push calls to connection handles
that were subscribed before and are not the one of `peer`. -/
theorem disconnect_clears_subscription (g : BleGattServerImpl) (h : CharHeap)
    (peer : BlePeerDevice)
    (hstored : ∀ a ∈ storedHandles g.services, h.impl_ a ≠ none) :
    ∃ h2, g.gattsProcessDisconnected h peer = some h2 ∧ h2.impl_ = h.impl_ ∧
      (∀ a ∈ storedHandles g.services, ∀ id, h.impl_ a = some id →
        (h.record id).isLocal = true → peer.connHandle ∉ (h2.record id).cccdOfServer) ∧
      (∀ id q, q ≠ peer.connHandle →
        (q ∈ (h2.record id).cccdOfServer ↔ q ∈ (h.record id).cccdOfServer)) ∧
      (∀ a ∈ storedHandles g.services, ∀ id, h.impl_ a = some id →
        (h.record id).isLocal = true →
        ∀ (maxLen : Nat) (hal : Hal) (buf : List Byte),
          ∀ call ∈ ((h2.record id).setValue maxLen hal (some buf)).2,
            call = HalCall.serverSetValue (h.record id).attrHandles.value_handle
                (buf.take (min buf.length maxLen)) ∨
              ∃ conn ∈ (h.record id).cccdOfServer, conn ≠ peer.connHandle ∧
                call = pushCall (h.record id).properties (h.record id).attrHandles.value_handle
                  (buf.take (min buf.length maxLen)) conn) := by
  obtain ⟨h2, e1, e2, e3⟩ :=
    disconnectChars_spec peer.connHandle (storedHandles g.services) h hstored
  have hrec : ∀ a ∈ storedHandles g.services, ∀ id, h.impl_ a = some id →
      (h.record id).isLocal = true →
      h2.record id = { h.record id with
        cccdOfServer :=
          (h.record id).cccdOfServer.filter (fun x => decide (x ≠ peer.connHandle)) } := by
    intro a ha id hid hl
    have hm : some id ∈ (storedHandles g.services).map h.impl_ :=
      List.mem_map.mpr ⟨a, ha, hid⟩
    rw [e3 id, if_pos hm]
    unfold BleCharacteristicImpl.configureCccd
    rw [if_pos hl, if_neg (by simp)]
  refine ⟨h2, ?_, e2, ?_, ?_, ?_⟩
  · unfold BleGattServerImpl.gattsProcessDisconnected
    rw [disconnectLoop_eq]
    exact e1
  · intro a ha id hid hl
    rw [hrec a ha id hid hl]
    simp
  · intro id q hq
    rw [e3 id]
    split
    · unfold BleCharacteristicImpl.configureCccd
      by_cases hl : (h.record id).isLocal = true
      · rw [if_pos hl, if_neg (by simp)]
        simp [hq]
      · rw [if_neg hl]
    · exact Iff.rfl
  · intro a ha id hid hl maxLen hal buf call hc
    rw [hrec a ha id hid hl] at hc
    rcases setValue_calls maxLen hal
      { h.record id with
        cccdOfServer :=
          (h.record id).cccdOfServer.filter (fun x => decide (x ≠ peer.connHandle)) }
      buf hl call hc with hc | ⟨conn, hconn, hc⟩
    · exact Or.inl hc
    · right
      simp only [List.mem_filter, decide_eq_true_eq] at hconn
      exact ⟨conn, hconn.1, hconn.2, hc⟩

/-- Instance of C29: on the model of the test with the peers 5 and 6 subscribed to
`tx`, peer 5 disconnects: 6 is the one subscriber left and `setValue([1,2,3])`
notifies connection 6 only. -/
theorem disconnect_clears_subscription_witness :
    storedHandles gattUart.2.services = [200, 201] ∧
      (heapSubscribed.record 0).cccdOfServer = [5, 6] ∧
      (gattUart.2.gattsProcessDisconnected heapSubscribed (peerOf 5)).map
        (fun h2 => ((h2.record 0).cccdOfServer,
          (h2.record 0).setValue 20 halOk (some [1, 2, 3]))) =
        some ([6], 3, [HalCall.serverSetValue 2002 [1, 2, 3],
          HalCall.serverNotify 6 2002 [1, 2, 3]]) ∧
      ∃ h2, gattUart.2.gattsProcessDisconnected heapSubscribed (peerOf 5) = some h2 ∧
        (peerOf 5).connHandle ∉ (h2.record 0).cccdOfServer :=
  ⟨by decide, by decide, by decide,
   match disconnect_clears_subscription gattUart.2 heapSubscribed (peerOf 5) (by decide) with
   | ⟨h2, e1, _, e3, _, _⟩ => ⟨h2, e1, e3 200 (by decide) 0 (by decide) (by decide)⟩⟩

/-- C30 (the code at every input, and at the failing input): after
`scan(results, N)` on a new observer every SCAN_RESULT event is stored at the
next index and counted, whatever `N` is: after the events the count is their
number and the indices written are 0, 1, ... up to that number. For `N = 5`
and seven events the count is 7, the seven devices are written at the indices
0 to 6 (so 5 and 6 lie outside the array of 5), the stop-scan primitive is
called after the fifth, the sixth and the seventh event, and the next
`scan(results, 5)` returns 7. -/
theorem scan_stores_beyond_target :
    (∀ (mem : List Byte) (N results : Nat) (events : List ScanResultEvt),
      (processScanResults mem (BleObserver.new.scan (some results) N).2 events).count_ =
          events.length ∧
        (processScanResults mem (BleObserver.new.scan (some results) N).2
          events).written.map Prod.fst = List.range events.length) ∧
    (processScanResults zeros31 (BleObserver.new.scan (some 900) 5).2 sevenEvents).count_ = 7 ∧
    (processScanResults zeros31 (BleObserver.new.scan (some 900) 5).2
      sevenEvents).written.map (fun w => (w.1, w.2.address)) =
        [(0, 1), (1, 2), (2, 3), (3, 4), (4, 5), (5, 6), (6, 7)] ∧
    (processScanResults zeros31 (BleObserver.new.scan (some 900) 5).2 sevenEvents).calls =
      [ScanCall.setScanParameters, ScanCall.startScan, ScanCall.stopScan, ScanCall.stopScan,
        ScanCall.stopScan] ∧
    ((processScanResults zeros31 (BleObserver.new.scan (some 900) 5).2 sevenEvents).scan
      (some 900) 5).1 = 7 := by
  refine ⟨?_, by decide, by decide, by decide, by decide⟩
  intro mem N results events
  obtain ⟨h1, h2⟩ := processScanResults_count mem events
    (BleObserver.new.scan (some results) N).2 results rfl rfl
  refine ⟨by rw [h1]; simp [BleObserver.scan, BleObserver.new], ?_⟩
  rw [h2, List.range_eq_range']
  simp [BleObserver.scan, BleObserver.new]

/-- C31 (the claim as stated fails): on a new observer `scan(callback)` is called
with callback 1 and then `scan(results, 5)`. The scan result that follows is
passed to callback 1 and the array is not written: the callback set by the
earlier call is still in place and is tested first. -/
theorem capture_after_callback_still_forwards :
    (processScanResults zeros31
        ((BleObserver.new.scanCallback (some 1)).2.scan (some 900) 5).2 [scanEvt 1]).written =
        [] ∧
      (processScanResults zeros31
        ((BleObserver.new.scanCallback (some 1)).2.scan (some 900) 5).2 [scanEvt 1]).count_ =
        0 ∧
      ScanCall.callback 1 (deviceOf zeros31 (scanEvt 1)) ∈
        (processScanResults zeros31
          ((BleObserver.new.scanCallback (some 1)).2.scan (some 900) 5).2 [scanEvt 1]).calls := by
  decide

/-- C31 (as amended): for every observer and every sequence of scan results.
(1) After `scan(callback)` with a callback every result is passed to that
callback and the array and the count are not written. (2) The same holds when
`scan(results, N)` is called after it: the callback stays in place. (3) After
`scan(results, N)` on an observer without callback every result is stored in
the array at the next index and no callback is called. -/
theorem scan_mode_selection (mem : List Byte) (o : BleObserver)
    (events : List ScanResultEvt) :
    (∀ cb,
      (processScanResults mem (o.scanCallback (some cb)).2 events).written = o.written ∧
      (processScanResults mem (o.scanCallback (some cb)).2 events).count_ = o.count_ ∧
      (processScanResults mem (o.scanCallback (some cb)).2 events).calls =
        (o.scanCallback (some cb)).2.calls ++
          events.map (fun e => ScanCall.callback cb (deviceOf mem e))) ∧
    (∀ cb results N,
      (processScanResults mem ((o.scanCallback (some cb)).2.scan results N).2
        events).written = o.written ∧
      (processScanResults mem ((o.scanCallback (some cb)).2.scan results N).2
        events).count_ = o.count_ ∧
      (processScanResults mem ((o.scanCallback (some cb)).2.scan results N).2 events).calls =
        ((o.scanCallback (some cb)).2.scan results N).2.calls ++
          events.map (fun e => ScanCall.callback cb (deviceOf mem e))) ∧
    (o.callback_ = none → ∀ results N,
      (processScanResults mem (o.scan (some results) N).2 events).written.map Prod.fst =
        o.written.map Prod.fst ++ List.range' o.count_ events.length ∧
      (processScanResults mem (o.scan (some results) N).2 events).count_ =
        o.count_ + events.length ∧
      ∀ c ∈ (processScanResults mem (o.scan (some results) N).2 events).calls,
        ∀ cb device, c ≠ ScanCall.callback cb device ∨ c ∈ o.calls) := by
  refine ⟨?_, ?_, ?_⟩
  · intro cb
    rw [processScanResults_callback mem cb events (o.scanCallback (some cb)).2 rfl]
    exact ⟨rfl, rfl, rfl⟩
  · intro cb results N
    rw [processScanResults_callback mem cb events
      ((o.scanCallback (some cb)).2.scan results N).2 rfl]
    exact ⟨rfl, rfl, rfl⟩
  · intro hcb results N
    obtain ⟨h1, h2⟩ := processScanResults_count mem events (o.scan (some results) N).2 results
      hcb rfl
    refine ⟨h2, h1, ?_⟩
    intro c hc cb device
    rcases processScanResults_no_callback mem events (o.scan (some results) N).2 hcb c hc with
      h3 | h3
    · simp only [BleObserver.scan, List.mem_append, List.mem_cons, List.mem_singleton,
        List.not_mem_nil, or_false] at h3
      rcases h3 with h3 | h3 | h3
      · exact Or.inr h3
      · left; rw [h3]; exact fun e => by cases e
      · left; rw [h3]; exact fun e => by cases e
    · left; rw [h3]; exact fun e => by cases e

/-- C32: for a device whose two lists are within their maxima (as they are when it
is made, both empty) and whose stored characteristic handles all have records:
every sequence of CONNECTED and DISCONNECTED events and of calls of the two
`disconnect` methods runs through, and afterwards the number of centrals is at
most `BLE_MAX_PERIPHERAL_COUNT` and the number of peripherals at most
`BLE_MAX_CENTRAL_COUNT`. A CONNECTED event that arrives when the list it
belongs to is full leaves the device as it is. -/
theorem connection_lists_bounded (maxPeripheral maxCentral addr0 : Nat) (ops : List DeviceOp)
    (d : BleLocalDevice) (h : CharHeap)
    (hc : d.centrals_.length ≤ maxPeripheral) (hp : d.peripherals_.length ≤ maxCentral)
    (hstored : ∀ a ∈ storedHandles d.gattsProxy_.services, h.impl_ a ≠ none) :
    (∃ s2, runDevice maxPeripheral maxCentral addr0 ops (d, h) = some s2 ∧
      s2.1.centrals_.length ≤ maxPeripheral ∧ s2.1.peripherals_.length ≤ maxCentral) ∧
    (d.centrals_.length = maxPeripheral → ∀ conn addr,
      d.onBleEvents maxPeripheral maxCentral addr0 h (BleEvt.connected true conn addr) =
        some (d, h)) ∧
    (d.peripherals_.length = maxCentral → ∀ conn addr,
      d.onBleEvents maxPeripheral maxCentral addr0 h (BleEvt.connected false conn addr) =
        some (d, h)) := by
  refine ⟨runDevice_bounded maxPeripheral maxCentral addr0 ops (d, h) hc hp hstored, ?_, ?_⟩
  · intro hfull conn addr
    simp only [BleLocalDevice.onBleEvents, BlePeripheral.peripheralProcessConnected, hfull,
      Nat.lt_irrefl, if_false]
  · intro hfull conn addr
    simp only [BleLocalDevice.onBleEvents, BleCentral.centralProcessConnected, hfull,
      Nat.lt_irrefl, if_false]

/-- Instance of C32: the device of the test with the centrals 5 and 6 and a maximum
of 2: a third central that connects is not entered. -/
theorem connection_lists_bounded_witness :
    deviceTwoCentrals.centrals_.length ≤ 2 ∧ deviceTwoCentrals.peripherals_.length ≤ 3 ∧
      deviceTwoCentrals.onBleEvents 2 3 0 heapSubscribed (BleEvt.connected true 7 1007) =
        some (deviceTwoCentrals, heapSubscribed) :=
  ⟨by decide, by decide,
   (connection_lists_bounded 2 3 0 [] deviceTwoCentrals heapSubscribed (by decide) (by decide)
      (by decide)).2.1 (by decide) 7 1007⟩

/-- C33 (the code at every input, and at the failing input): for a list with a first
central and `rest` after it, `BlePeripheral::disconnect` reads the first
central in range and calls the disconnect primitive for its connection
handle; the list is cleared inside the loop, so each of the remaining
iterations reads a position that is out of range of the now empty list. With
the two centrals 5 and 6 the second iteration reads position 1 of the empty
list and no disconnect is issued for connection handle 6. -/
theorem peripheral_disconnect_reads_cleared_list :
    (∀ (c : BlePeerDevice) (rest : List BlePeerDevice),
      BlePeripheral.disconnect (c :: rest) =
        (SystemError.NONE, some c.connHandle :: List.replicate rest.length none, [])) ∧
    BlePeripheral.disconnect [peerOf 5, peerOf 6] = (SystemError.NONE, [some 5, none], []) ∧
    some 6 ∉ (BlePeripheral.disconnect [peerOf 5, peerOf 6]).2.1 := by
  refine ⟨?_, by decide, by decide⟩
  intro c rest
  simp only [BlePeripheral.disconnect, List.length_cons, peripheralDisconnectLoop,
    peripheralDisconnectLoop_nil, List.getElem?_cons_zero, Option.map_some']

/-- C34 (evaluation at the failing input): the centrals 5 and 6 are connected and
both subscribed to `tx`. The DISCONNECTED event for connection handle 5 runs
the GATT cleanup for 5 (the subscriber list becomes `6`) and then empties the
list of centrals: the central 6 is no longer tracked, so `findPeerDevice(6)`
finds nothing and later events of connection 6 are dropped. -/
theorem disconnected_event_drops_other_central :
    deviceTwoCentrals.centrals_.map (fun p => p.connHandle) = [5, 6] ∧
      (deviceTwoCentrals.onBleEvents 3 3 0 heapSubscribed (BleEvt.disconnected 5)).map
        (fun s => (s.1.centrals_, s.1.peripherals_, (s.2.record 0).cccdOfServer,
          s.1.findPeerDevice 6)) = some ([], [], [6], none) ∧
      deviceTwoCentrals.onBleEvents 3 3 0 heapSubscribed (BleEvt.disconnected 9) =
        some (deviceTwoCentrals, heapSubscribed) := by
  refine ⟨by decide, by decide, ?_⟩
  rfl

/-- C35 (the claim as stated fails): on the model of the test the peer with
connection handle 5 writes `01 00` to the CCCD handle of `tx` twice. The
subscriber list of `tx` is then `5, 5`, and `setValue([1,2,3])` notifies
connection 5 twice. -/
theorem subscriber_enabled_twice_listed_twice :
    (heapTwiceEnabled.record 0).cccdOfServer = [5, 5] ∧
      ¬ (heapTwiceEnabled.record 0).cccdOfServer.Nodup ∧
      ((heapTwiceEnabled.record 0).setValue 20 halOk (some [1, 2, 3])).2 =
        [HalCall.serverSetValue 2002 [1, 2, 3], HalCall.serverNotify 5 2002 [1, 2, 3],
          HalCall.serverNotify 5 2002 [1, 2, 3]] := by
  decide

/-- C35 (as amended): the subscriber collection of a local characteristic is a
list. `configureCccd` with a non-zero byte appends the connection handle at
the end, also when it is in the list already, so its number of occurrences
grows by one; with a zero byte (a disable write, or a disconnect) it removes
every occurrence and keeps the other entries in order. A `setValue` on a
NOTIFY or INDICATE characteristic whose primary write and pushes all succeed
pushes once for every entry of the list, in order. -/
theorem subscriber_list_entries (r : BleCharacteristicImpl) (p : Nat) (enable : Byte)
    (hl : r.isLocal = true) :
    (enable ≠ 0 → (r.configureCccd p enable).cccdOfServer = r.cccdOfServer ++ [p] ∧
      (r.configureCccd p enable).cccdOfServer.count p = r.cccdOfServer.count p + 1) ∧
    (enable = 0 →
      (r.configureCccd p enable).cccdOfServer =
        r.cccdOfServer.filter (fun x => decide (x ≠ p)) ∧
      (r.configureCccd p enable).cccdOfServer.count p = 0) ∧
    (∀ (maxLen : Nat) (hal : Hal) (buf : List Byte),
      (r.properties &&& PROPERTY.NOTIFY ≠ 0 ∨ r.properties &&& PROPERTY.INDICATE ≠ 0) →
      hal.serverSetValue = 0 →
      (∀ j, j < r.cccdOfServer.length → hal.push j (r.cccdOfServer.getD j 0) = 0) →
      (r.setValue maxLen hal (some buf)).2 =
        HalCall.serverSetValue r.attrHandles.value_handle (buf.take (min buf.length maxLen)) ::
          r.cccdOfServer.map
            (pushCall r.properties r.attrHandles.value_handle
              (buf.take (min buf.length maxLen)))) := by
  refine ⟨?_, ?_, ?_⟩
  · intro he
    have e1 : (r.configureCccd p enable).cccdOfServer = r.cccdOfServer ++ [p] := by
      unfold BleCharacteristicImpl.configureCccd
      rw [if_pos hl, if_pos he]
    rw [e1]
    exact ⟨rfl, by simp⟩
  · intro he
    have e1 : (r.configureCccd p enable).cccdOfServer =
        r.cccdOfServer.filter (fun x => decide (x ≠ p)) := by
      unfold BleCharacteristicImpl.configureCccd
      rw [if_pos hl, if_neg (by simp [he])]
    rw [e1]
    refine ⟨rfl, ?_⟩
    rw [List.count_eq_zero]
    intro hm
    simp at hm
  · intro maxLen hal buf hprop hprim hok
    have hloop := pushLoop_prefix hal r.properties r.attrHandles.value_handle
      (buf.take (min buf.length maxLen)) hprop r.cccdOfServer 0 r.cccdOfServer.length
      (Nat.le_refl _) (fun j hj => by simpa using hok j hj)
      (fun hlt => absurd hlt (Nat.lt_irrefl _))
    simp only [BleCharacteristicImpl.setValue, hl, hprim, cap_eq_min, if_true, ne_eq,
      not_true_eq_false, if_false, hloop, List.take_of_length_le (Nat.le_succ _)]

/-- Instance of C35 (as amended): the record `tx` of the test with the subscriber 5:
a further enable write of 5 gives the list `5, 5`; a disable write empties it. -/
theorem subscriber_list_entries_witness :
    ((heapTwiceEnabled.record 0).configureCccd 5 1).cccdOfServer = [5, 5] ++ [5] ∧
      ((heapTwiceEnabled.record 0).configureCccd 5 0).cccdOfServer.count 5 = 0 :=
  ⟨((subscriber_list_entries (heapTwiceEnabled.record 0) 5 1 (by decide)).1 (by decide)).1,
   ((subscriber_list_entries (heapTwiceEnabled.record 0) 5 0 (by decide)).2.1 rfl).2⟩

/-- C36 (evaluation at the failing input): a scan result with the three bytes
`0, 9, 170` is captured as advertising data. `locate(9)` reports a structure of
total size 1 (a length byte of 0 passes its test), and `fetch(9, out, 5)`
returns 4294967295 where the buffer length minus 2 is 1, and copies 5 bytes
where the structure has no data. -/
theorem fetch_exceeds_buffer_on_scan_data :
    (deviceOf zeros31 ⟨1, -50, false, [0, 9, 170]⟩).advData.len = 3 ∧
      (deviceOf zeros31 ⟨1, -50, false, [0, 9, 170]⟩).advData.locate 9 = some (0, 1) ∧
      (deviceOf zeros31 ⟨1, -50, false, [0, 9, 170]⟩).advData.fetch 9
        (some (List.replicate 5 7)) 5 = (4294967295, some [170, 0, 0, 0, 0]) ∧
      ¬ ((deviceOf zeros31 ⟨1, -50, false, [0, 9, 170]⟩).advData.fetch 9
        (some (List.replicate 5 7)) 5).1 ≤ 29 := by
  decide

/-- C37 (evaluation at the failing input): for a text of 17 pairs of hexadecimal
digits the loop of `setUuid` stores at the indices 15 down to 0 and then at
index 4294967295 (`len - 1` for `len = 0` in `size_t`), which is outside the
16 bytes; `len` ends at 4294967295, so the closing zero-fill starts at index
4294967294. -/
theorem setUuid_stores_outside_array :
    seventeenPairs.length = 34 ∧
      (setUuidStores seventeenPairs BLE_SIG_UUID_128BIT_LEN).1 =
        [15, 14, 13, 12, 11, 10, 9, 8, 7, 6, 5, 4, 3, 2, 1, 0, 4294967295] ∧
      ¬ (∀ i ∈ (setUuidStores seventeenPairs BLE_SIG_UUID_128BIT_LEN).1, i < 16) ∧
      (setUuidStores seventeenPairs BLE_SIG_UUID_128BIT_LEN).2 = 4294967295 ∧
      (setUuidLoop seventeenPairs (List.replicate 16 0) BLE_SIG_UUID_128BIT_LEN).2 =
        4294967295 ∧
      subSize (setUuidStores seventeenPairs BLE_SIG_UUID_128BIT_LEN).2 1 = 4294967294 := by
  decide

/-- C38 (the code at every such input): when the source handle has no record at the
point where `operator=` copies its `impl_` (it was detached before, or the
release of the target has just detached it), the assignment dereferences the
missing record in `impl()->dataCb`. -/
theorem assign_from_detached (h : CharHeap) (this characteristic : Nat)
    (hsrc : (BleCharacteristic.release h this).impl_ characteristic = none) :
    BleCharacteristic.assign h this characteristic = none := by
  simp only [BleCharacteristic.assign, hsrc]

/-- Instance of C38 at the failing input: the handle at 100 was detached when the
stub copy at 200 was destroyed; assigning it to the handle at 300 dereferences
the missing record. -/
theorem assign_from_detached_witness :
    heapDetached.impl_ 100 = none ∧ heapDetached.impl_ 300 = some 1 ∧
      (BleCharacteristic.release heapDetached 300).impl_ 100 = none ∧
      (BleCharacteristic.assign heapDetached 300 100).isNone = true :=
  ⟨by decide, by decide, by decide,
   by rw [assign_from_detached heapDetached 300 100 (by decide)]; rfl⟩

/-- C39 (evaluation at the failing input): in `heapRegistered` record 0 has the
references 100 (not stub) and 200 (stub). The self-assignment of the stub
handle at 200 completes, detaches the handle at 100 and appends a second
entry for 200: afterwards the list names the handle 100, which is no longer
attached, and names the handle 200 twice. -/
theorem stub_self_assignment_duplicates_entry :
    (heapRegistered.record 0).references = [⟨100, false⟩, ⟨200, true⟩] ∧
      (BleCharacteristic.assign heapRegistered 200 200).map
        (fun h => ((h.record 0).references, h.impl_ 100, h.impl_ 200)) =
        some ([⟨100, false⟩, ⟨200, true⟩, ⟨200, true⟩], none, some 0) := by
  decide

/-- C40 (the claim as stated fails): with the counter at 0 and the byte order LSB a
characteristic without UUID and without service UUID is registered on the
local model. Its UUID becomes the base with the suffix 1, and that is the
reserved base UUID itself, which its service UUID was set to. -/
theorem first_default_uuid_is_service_uuid :
    ((BleGattServerImpl.new 77).addCharacteristic systemErrorValue BleUuidOrder.LSB (envOk 200)
        ⟨heapThree, 0⟩ 100).1 = 0 ∧
      (((BleGattServerImpl.new 77).addCharacteristic systemErrorValue BleUuidOrder.LSB
        (envOk 200) ⟨heapThree, 0⟩ 100).2.1.heap.record 0).uuid =
        (((BleGattServerImpl.new 77).addCharacteristic systemErrorValue BleUuidOrder.LSB
          (envOk 200) ⟨heapThree, 0⟩ 100).2.1.heap.record 0).svcUuid ∧
      (((BleGattServerImpl.new 77).addCharacteristic systemErrorValue BleUuidOrder.LSB
        (envOk 200) ⟨heapThree, 0⟩ 100).2.1.heap.record 0).uuid.opEq
        (BleUuid.ofBytes (some BLE_CTRL_REQ_SVC_UUID) BleUuidOrder.LSB) = true := by
  decide

/-- C40 (as amended): for a record without UUID and without service UUID, and every
value of the counter. The UUID that `assignUuidIfNeeded` gives it differs from
the default service UUID that the local model gives it exactly when the new
counter value is not the number the reserved base holds in its bytes 12 and
13 (1 in the byte order LSB, 256 in MSB). So the two are different for every
counter value but one (0 for LSB, 255 for MSB), and equal at that one. -/
theorem default_uuid_differs_from_service (order : BleUuidOrder) (r : BleCharacteristicImpl)
    (count : Nat) (hu : r.uuid.isValid = false) (hs : r.svcUuid.isValid = false) :
    (toU16 (count + 1) ≠ baseSuffix order →
      (r.assignUuidIfNeeded order count).1.uuid.opEq
        (prepareRecord order true r).svcUuid = false) ∧
    (toU16 (count + 1) = baseSuffix order →
      (r.assignUuidIfNeeded order count).1.uuid.opEq
        (prepareRecord order true r).svcUuid = true) ∧
    baseSuffix BleUuidOrder.LSB = 1 ∧ baseSuffix BleUuidOrder.MSB = 256 := by
  have h1 : (r.assignUuidIfNeeded order count).1.uuid =
      BleUuid.ofBytesU16 (some BLE_CTRL_REQ_SVC_UUID) (toU16 (count + 1)) order := by
    simp only [BleCharacteristicImpl.assignUuidIfNeeded, hu, if_true]
  have h2 : (prepareRecord order true r).svcUuid =
      BleUuid.ofBytesU16 (some BLE_CTRL_REQ_SVC_UUID) (baseSuffix order) order := by
    unfold prepareRecord
    rw [if_pos ⟨rfl, hs⟩]
    exact ofBytes_base order
  have hlt : toU16 (count + 1) < 65536 := Nat.mod_lt _ (by decide)
  rw [h1, h2, ofBytesU16_opEq _ _ order hlt (baseSuffix_lt order)]
  refine ⟨fun h => by simp [h], fun h => by simp [h], by decide, by decide⟩

/-- Instance of C40 (as amended): record 0 of `heapThree` with the counter at 1 gets
the suffix 2, which differs from the default service UUID. -/
theorem default_uuid_differs_from_service_witness :
    (heapThree.record 0).uuid.isValid = false ∧ (heapThree.record 0).svcUuid.isValid = false ∧
      ((heapThree.record 0).assignUuidIfNeeded BleUuidOrder.LSB 1).1.uuid.opEq
        (prepareRecord BleUuidOrder.LSB true (heapThree.record 0)).svcUuid = false :=
  ⟨by decide, by decide,
   (default_uuid_differs_from_service BleUuidOrder.LSB (heapThree.record 0) 1 (by decide)
      (by decide)).1 (by decide)⟩

end Ble
